import Mathlib

/-! ArduinoMenuSystem: a shallow embedding of `MenuSystem.h` and the item headers.

The C++ objects live in a heap (`State.objs`), addressed by natural numbers.
A C++ pointer is an `Option Ptr` (`none` is `nullptr`).  Every operation that
dereferences a pointer returns an `Option`: `none` stands for undefined
behaviour (a null or dangling dereference, a read or write outside an array).
`uint8_t` fields are natural numbers, reduced modulo 256 where the source
increments them.  The `float` fields of the numeric items are values of
`Float32`, a model of IEEE 754 binary32 with rounding to nearest, ties to
even, the infinities and NaN.
A selection callback (`_select_fn`) is modelled by whether it is set; calling
it appends the address of the component to `State.fired` and has no other
effect on the menu structure.
-/

namespace ArduinoMenuSystem

/-- Address of an object in the heap. -/
abbrev Ptr := Nat

/-- A value of the C++ type `float` (IEEE 754 binary32).  Every finite `float`
is an integer multiple of 2^-149: `fin neg k` is the number
(-1)^neg * k * 2^-149 (`fin true 0` is the negative zero), `inf neg` is the
infinity of that sign and `nan` stands for every NaN. -/
inductive Float32 where
  | nan
  | inf (neg : Bool)
  | fin (neg : Bool) (k : Nat)
  deriving DecidableEq

/-- The search behind `Float32.shift`, bounded by `fuel`. -/
def Float32.shiftAux : Nat → Nat → Nat
  | 0, _ => 0
  | fuel + 1, k => if k < 2 ^ 24 then 0 else Float32.shiftAux fuel (k / 2) + 1

/-- The number of low bits of `k` that do not fit the 24-bit significand of a
`float`: the least `s` with `k / 2 ^ s < 2 ^ 24`. -/
def Float32.shift (k : Nat) : Nat :=
  Float32.shiftAux k k

/-- The magnitude `k` (in units of 2^-149) rounded to 24 significant bits, to
nearest and ties to even, the rounding of the `float` operations. -/
def Float32.roundNat (k : Nat) : Nat :=
  let s := Float32.shift k
  let q := k / 2 ^ s
  let r := k % 2 ^ s
  (if 2 * r < 2 ^ s then q else if 2 ^ s < 2 * r then q + 1 else q + q % 2) * 2 ^ s

/-- The `float` nearest to (-1)^neg * k * 2^-149; a rounded magnitude of
2^128 (2^277 units) or more overflows to the infinity of that sign. -/
def Float32.round (neg : Bool) (k : Nat) : Float32 :=
  if Float32.roundNat k < 2 ^ 139 * 2 ^ 138 then .fin neg (Float32.roundNat k) else .inf neg

/-- The integer z for which the finite `float` `fin neg k` is z * 2^-149. -/
def Float32.toInt (neg : Bool) (k : Nat) : Int :=
  if neg then -(k : Int) else k

/-- The `float` addition: NaN is propagated, infinities of opposite sign give
NaN, an exact sum 0 is the negative zero only for two negative zeros, and
every other finite sum is rounded. -/
def Float32.add : Float32 → Float32 → Float32
  | .nan, _ => .nan
  | _, .nan => .nan
  | .inf a, .inf b => if a = b then .inf a else .nan
  | .inf a, .fin _ _ => .inf a
  | .fin _ _, .inf b => .inf b
  | .fin a x, .fin b y =>
    let z := Float32.toInt a x + Float32.toInt b y
    if z = 0 then .fin (a && b) 0 else Float32.round (decide (z < 0)) z.natAbs

/-- The `float` unary minus. -/
def Float32.neg : Float32 → Float32
  | .nan => .nan
  | .inf a => .inf (!a)
  | .fin a k => .fin (!a) k

/-- The `float` subtraction. -/
def Float32.sub (x y : Float32) : Float32 :=
  x.add y.neg

/-- The `float` comparison `x < y`: false when an operand is NaN; the two
zeros are equal. -/
def Float32.lt : Float32 → Float32 → Bool
  | .nan, _ => false
  | _, .nan => false
  | .inf a, .inf b => a && !b
  | .inf a, .fin _ _ => a
  | .fin _ _, .inf b => !b
  | .fin a x, .fin b y => decide (Float32.toInt a x < Float32.toInt b y)

/-- The `float` comparison `x <= y`: false when an operand is NaN. -/
def Float32.le : Float32 → Float32 → Bool
  | .nan, _ => false
  | _, .nan => false
  | .inf a, .inf b => a || !b
  | .inf a, .fin _ _ => a
  | .fin _ _, .inf b => !b
  | .fin a x, .fin b y => decide (Float32.toInt a x ≤ Float32.toInt b y)

instance : Add Float32 := ⟨Float32.add⟩

instance : Sub Float32 := ⟨Float32.sub⟩

instance : Neg Float32 := ⟨Float32.neg⟩

instance : LT Float32 := ⟨fun x y => Float32.lt x y = true⟩

instance : LE Float32 := ⟨fun x y => Float32.le x y = true⟩

instance Float32.decLt (x y : Float32) : Decidable (x < y) :=
  inferInstanceAs (Decidable (Float32.lt x y = true))

instance Float32.decLe (x y : Float32) : Decidable (x ≤ y) :=
  inferInstanceAs (Decidable (Float32.le x y = true))

/-- The conversion of a natural number to `float`. -/
def Float32.ofNat (n : Nat) : Float32 :=
  Float32.round false (n * 2 ^ 149)

instance (n : Nat) : OfNat Float32 n := ⟨Float32.ofNat n⟩

/-- The value is one a `float` can hold: a finite magnitude has at most 24
significant bits and is below 2^128. -/
def Float32.valid : Float32 → Prop
  | .fin _ k => k % 2 ^ Float32.shift k = 0 ∧ k < 2 ^ 139 * 2 ^ 138
  | _ => True

instance Float32.decValid : (x : Float32) → Decidable x.valid
  | .fin _ k => inferInstanceAs (Decidable (k % 2 ^ Float32.shift k = 0 ∧ k < 2 ^ 139 * 2 ^ 138))
  | .nan => inferInstanceAs (Decidable True)
  | .inf _ => inferInstanceAs (Decidable True)

/-- The value is a finite number (neither an infinity nor NaN). -/
def Float32.finite : Float32 → Prop
  | .fin _ _ => True
  | _ => False

instance Float32.decFinite : (x : Float32) → Decidable x.finite
  | .fin _ _ => inferInstanceAs (Decidable True)
  | .nan => inferInstanceAs (Decidable False)
  | .inf _ => inferInstanceAs (Decidable False)

/-- The rational number a finite `float` stands for. -/
def Float32.toRat : Float32 → Option ℚ
  | .fin neg k => some ((Float32.toInt neg k : ℚ) / 2 ^ 149)
  | _ => none

/-- The enum `EDITING_STATE` of `TextEditMenuItem.h`. -/
inductive EDITING_STATE where
  | FOCUSED
  | SELECTION
  | EDITING
  deriving DecidableEq

/-- The private fields of `class Menu`.  `menu_components` is the array
obtained from `realloc`; the empty list is the null array. -/
structure Menu where
  p_current_component : Option Ptr
  menu_components : List (Option Ptr)
  p_parent : Option Ptr
  num_components : Nat
  current_component_num : Nat
  previous_component_num : Nat
  deriving DecidableEq

/-- The fields of `class NumericMenuItem` (the formatter is left out). -/
structure NumericMenuItem where
  value : Float32
  min_value : Float32
  max_value : Float32
  increment : Float32
  deriving DecidableEq

/-- The fields of `class TextEditMenuItem`; `value` is the content of the
caller's buffer, a `char` being an integer. -/
structure TextEditMenuItem where
  editing_state : EDITING_STATE
  value : List Int
  size : Nat
  pos : Nat
  deriving DecidableEq

/-- The concrete class of a component, with the fields that class adds.
For `backMenuItem` the flag says whether `_menu_system` points to the
`MenuSystem` of the state (`true`) or is `nullptr` (`false`). -/
inductive Kind where
  | menuItem
  | backMenuItem (menu_system : Bool)
  | numericMenuItem (n : NumericMenuItem)
  | numericDisplayMenuItem (value : Float32)
  | toggleMenuItem (state : Bool)
  | textEditMenuItem (t : TextEditMenuItem)
  | menu (m : Menu)
  deriving DecidableEq

/-- The fields of `class MenuComponent` (the name is left out), followed by
the fields of the concrete class. -/
structure MenuComponent where
  has_focus : Bool
  is_current : Bool
  select_fn : Bool
  kind : Kind
  deriving DecidableEq

/-- The heap, the log of callback invocations, and the two pointers of
`class MenuSystem`. -/
structure State where
  objs : List MenuComponent
  fired : List Ptr
  p_root_menu : Ptr
  p_curr_menu : Option Ptr
  deriving DecidableEq

/-- Overwrite the object at address `a`. -/
def State.store (s : State) (a : Ptr) (c : MenuComponent) : State :=
  { s with objs := s.objs.set a c }

/-- The `Menu` fields of the object at address `a`, when it is a `Menu`. -/
def State.menuAt (s : State) (a : Ptr) : Option Menu :=
  match s.objs[a]? with
  | some c =>
    match c.kind with
    | .menu m => some m
    | _ => none
  | none => none

/-- Write the `Menu` fields of the object at address `a`, keeping the
`MenuComponent` fields it has at that moment. -/
def State.setMenu (s : State) (a : Ptr) (m : Menu) : State :=
  match s.objs[a]? with
  | some c => s.store a { c with kind := .menu m }
  | none => s

/-- Embeds `MenuComponent::MenuComponent`. -/
def MenuComponent.new (select_fn : Bool) (kind : Kind) : MenuComponent :=
  { has_focus := false, is_current := false, select_fn := select_fn, kind := kind }

/-- Embeds `Menu::Menu`. -/
def Menu.new (select_fn : Bool) : MenuComponent :=
  MenuComponent.new select_fn
    (.menu { p_current_component := none, menu_components := [], p_parent := none,
             num_components := 0, current_component_num := 0,
             previous_component_num := 0 })

/-- Embeds `MenuItem::MenuItem`. -/
def MenuItem.new (select_fn : Bool) : MenuComponent :=
  MenuComponent.new select_fn .menuItem

/-- Embeds `MenuSystem::MenuSystem`: the root menu is allocated at address 0 and is
the current menu. -/
def MenuSystem.new : State :=
  { objs := [Menu.new false], fired := [], p_root_menu := 0, p_curr_menu := some 0 }

/-- Place a component constructed by the caller in the heap. -/
def State.alloc (s : State) (c : MenuComponent) : State × Ptr :=
  ({ s with objs := s.objs ++ [c] }, s.objs.length)

/-- Embeds `MenuComponent::set_current`, called through the pointer `p`. -/
def MenuComponent.set_current (s : State) (p : Option Ptr) (is_current : Bool) :
    Option State :=
  match p with
  | none => none
  | some a =>
    match s.objs[a]? with
    | none => none
    | some c => some (s.store a { c with is_current := is_current })

/-- Embeds `MenuComponent::select`: call `_select_fn` when it is set. -/
def MenuComponent.base_select (s : State) (self : Ptr) (c : MenuComponent) : State :=
  if c.select_fn then { s with fired := s.fired ++ [self] } else s

/-- The four statements shared by the moving branches of `Menu::next` and
`Menu::prev`, after `_current_component_num` got the value `idx`:
`_p_current_component = _menu_components[_current_component_num];`
`_p_current_component->set_current();`
`_menu_components[_previous_component_num]->set_current(false); return true;` -/
def Menu.move (s : State) (self : Ptr) (idx : Nat) : Option (State × Bool) :=
  match s.menuAt self with
  | none => none
  | some m =>
    match m.menu_components[idx]? with
    | none => none
    | some pc =>
      let s2 := s.setMenu self
        { m with current_component_num := idx, p_current_component := pc }
      match MenuComponent.set_current s2 pc true with
      | none => none
      | some s3 =>
        match m.menu_components[m.previous_component_num]? with
        | none => none
        | some pp =>
          match MenuComponent.set_current s3 pp false with
          | none => none
          | some s4 => some (s4, true)

/-- Embeds `Menu::next`. -/
def Menu.next (s : State) (self : Ptr) (loop : Bool) : Option (State × Bool) :=
  match s.menuAt self with
  | none => none
  | some m =>
    let s1 := s.setMenu self { m with previous_component_num := m.current_component_num }
    if m.num_components = 0 then some (s1, false)
    else if m.current_component_num ≠ m.num_components - 1 then
      Menu.move s1 self ((m.current_component_num + 1) % 256)
    else if loop then Menu.move s1 self 0
    else some (s1, false)

/-- Embeds `Menu::prev`. -/
def Menu.prev (s : State) (self : Ptr) (loop : Bool) : Option (State × Bool) :=
  match s.menuAt self with
  | none => none
  | some m =>
    let s1 := s.setMenu self { m with previous_component_num := m.current_component_num }
    if m.num_components = 0 then some (s1, false)
    else if m.current_component_num ≠ 0 then
      Menu.move s1 self (m.current_component_num - 1)
    else if loop then Menu.move s1 self (m.num_components - 1)
    else some (s1, false)

/-- Embeds `Menu::add_component`.  `alloc_ok` says whether `realloc` succeeded.  The
new array has `_num_components + 1` entries: the old ones that fit, entries
the old array did not have (modelled as `nullptr`), then `p_component`. -/
def Menu.add_component (s : State) (self : Ptr) (p_component : Option Ptr)
    (alloc_ok : Bool) : Option State :=
  match s.menuAt self with
  | none => none
  | some m =>
    if alloc_ok = false then some (s.setMenu self { m with menu_components := [] })
    else
      let arr := m.menu_components.take m.num_components
        ++ List.replicate (m.num_components - m.menu_components.length) none
        ++ [p_component]
      let m1 := { m with menu_components := arr }
      let s1 := s.setMenu self m1
      if m.num_components = 0 then
        let m2 := { m1 with p_current_component := p_component }
        match MenuComponent.set_current (s1.setMenu self m2) p_component true with
        | none => none
        | some s3 =>
          some (s3.setMenu self { m2 with num_components := (m.num_components + 1) % 256 })
      else
        some (s1.setMenu self { m1 with num_components := (m.num_components + 1) % 256 })

/-- Embeds `Menu::add_item`. -/
def Menu.add_item (s : State) (self : Ptr) (p_item : Option Ptr) (alloc_ok : Bool) :
    Option State :=
  Menu.add_component s self p_item alloc_ok

/-- Embeds `Menu::add_menu`: `add_component`, then `p_menu->set_parent(this)`. -/
def Menu.add_menu (s : State) (self : Ptr) (p_menu : Option Ptr) (alloc_ok : Bool) :
    Option State :=
  match Menu.add_component s self p_menu alloc_ok with
  | none => none
  | some s1 =>
    match p_menu with
    | none => none
    | some b =>
      match s1.menuAt b with
      | none => none
      | some mb => some (s1.setMenu b { mb with p_parent := some self })

/-- Embeds `MenuSystem::back`. -/
def MenuSystem.back (s : State) : Option (State × Bool) :=
  if s.p_curr_menu ≠ some s.p_root_menu then
    match s.p_curr_menu with
    | none => none
    | some a =>
      match s.menuAt a with
      | none => none
      | some m => some ({ s with p_curr_menu := m.p_parent }, true)
  else some (s, false)

/-- Embeds `NumericMenuItem::next` on the fields of the item. -/
def NumericMenuItem.next (n : NumericMenuItem) (loop : Bool) : NumericMenuItem :=
  let v := n.value + n.increment
  if v > n.max_value then
    if loop then { n with value := n.min_value } else { n with value := n.max_value }
  else { n with value := v }

/-- Embeds `NumericMenuItem::prev` on the fields of the item. -/
def NumericMenuItem.prev (n : NumericMenuItem) (loop : Bool) : NumericMenuItem :=
  let v := n.value - n.increment
  if v < n.min_value then
    if loop then { n with value := n.max_value } else { n with value := n.min_value }
  else { n with value := v }

/-- Embeds `TextEditMenuItem::getNextValidChar`. -/
def TextEditMenuItem.getNextValidChar (value : Int) : Int :=
  let myValue := if value < 32 then 32 else value
  if myValue ≥ 126 then 126 else myValue + 1

/-- Embeds `TextEditMenuItem::getPrevValidChar`. -/
def TextEditMenuItem.getPrevValidChar (value : Int) : Int :=
  let myValue := if value < 32 then 32 else value
  if myValue ≤ 32 then 32 else myValue - 1

/-- Embeds `TextEditMenuItem::next` on the fields of the item; `none` when the
written index lies outside the buffer. -/
def TextEditMenuItem.next (t : TextEditMenuItem) (_loop : Bool) : Option TextEditMenuItem :=
  match t.editing_state with
  | .SELECTION =>
    let p := (t.pos + 1) % 256
    some { t with pos := if p > t.size then t.size else p }
  | .EDITING =>
    if t.pos > 0 then
      match t.value[t.pos - 1]? with
      | none => none
      | some c => some { t with value := t.value.set (t.pos - 1) (getNextValidChar c) }
    else some t
  | .FOCUSED => some t

/-- Embeds `TextEditMenuItem::prev` on the fields of the item; `none` when the
written index lies outside the buffer. -/
def TextEditMenuItem.prev (t : TextEditMenuItem) (_loop : Bool) : Option TextEditMenuItem :=
  match t.editing_state with
  | .SELECTION =>
    if t.pos = 0 then some t else some { t with pos := t.pos - 1 }
  | .EDITING =>
    if t.pos > 0 then
      match t.value[t.pos - 1]? with
      | none => none
      | some c => some { t with value := t.value.set (t.pos - 1) (getPrevValidChar c) }
    else some t
  | .FOCUSED => some t

/-- The virtual call `p->next(loop)` on the component at address `self`. -/
def MenuComponent.next (s : State) (self : Ptr) (loop : Bool) : Option (State × Bool) :=
  match s.objs[self]? with
  | none => none
  | some c =>
    match c.kind with
    | .menuItem => some (s, false)
    | .backMenuItem _ => some (s, false)
    | .numericDisplayMenuItem _ => some (s, false)
    | .toggleMenuItem _ => some (s, false)
    | .numericMenuItem n =>
      some (s.store self { c with kind := .numericMenuItem (n.next loop) }, true)
    | .textEditMenuItem t =>
      match t.next loop with
      | none => none
      | some t1 => some (s.store self { c with kind := .textEditMenuItem t1 }, true)
    | .menu _ => Menu.next s self loop

/-- The virtual call `p->prev(loop)` on the component at address `self`. -/
def MenuComponent.prev (s : State) (self : Ptr) (loop : Bool) : Option (State × Bool) :=
  match s.objs[self]? with
  | none => none
  | some c =>
    match c.kind with
    | .menuItem => some (s, false)
    | .backMenuItem _ => some (s, false)
    | .numericDisplayMenuItem _ => some (s, false)
    | .toggleMenuItem _ => some (s, false)
    | .numericMenuItem n =>
      some (s.store self { c with kind := .numericMenuItem (n.prev loop) }, true)
    | .textEditMenuItem t =>
      match t.prev loop with
      | none => none
      | some t1 => some (s.store self { c with kind := .textEditMenuItem t1 }, true)
    | .menu _ => Menu.prev s self loop

/-- Embeds `TextEditMenuItem::select` up to the callback: the new `_has_focus` and
the new fields. -/
def TextEditMenuItem.select (has_focus : Bool) (t : TextEditMenuItem) :
    Bool × TextEditMenuItem :=
  if has_focus = false then
    (true, { t with editing_state := .SELECTION, pos := 1 })
  else
    match t.editing_state with
    | .SELECTION =>
      if t.pos = 0 then (false, t) else (true, { t with editing_state := .EDITING })
    | .EDITING => (true, { t with editing_state := .SELECTION })
    | .FOCUSED => (true, t)

/-- The virtual call `p->select()` on the component at address `self`; the
second component of the result is the returned `Menu*`. -/
def MenuComponent.select (s : State) (self : Ptr) : Option (State × Option Ptr) :=
  match s.objs[self]? with
  | none => none
  | some c =>
    match c.kind with
    | .menuItem => some (MenuComponent.base_select s self c, none)
    | .numericDisplayMenuItem _ => some (MenuComponent.base_select s self c, none)
    | .backMenuItem ms =>
      let s1 := MenuComponent.base_select s self c
      if ms then
        match MenuSystem.back s1 with
        | none => none
        | some (s2, _) => some (s2, none)
      else some (s1, none)
    | .numericMenuItem _ =>
      let c1 := { c with has_focus := !c.has_focus }
      let s1 := s.store self c1
      some (if c1.has_focus = false then MenuComponent.base_select s1 self c1 else s1, none)
    | .toggleMenuItem st =>
      let c1 := { c with kind := .toggleMenuItem (!st) }
      some (MenuComponent.base_select (s.store self c1) self c1, none)
    | .textEditMenuItem t =>
      let r := TextEditMenuItem.select c.has_focus t
      let c1 := { c with has_focus := r.1, kind := .textEditMenuItem r.2 }
      let s1 := s.store self c1
      some (if c1.has_focus = false then MenuComponent.base_select s1 self c1 else s1, none)
    | .menu _ => some (MenuComponent.base_select s self c, some self)

/-- Embeds `Menu::activate`. -/
def Menu.activate (s : State) (self : Ptr) : Option (State × Option Ptr) :=
  match s.menuAt self with
  | none => none
  | some m =>
    if m.num_components = 0 then some (s, none)
    else
      match m.menu_components[m.current_component_num]? with
      | none => none
      | some none => some (s, none)
      | some (some c) => MenuComponent.select s c

/-- The virtual call `_menu_components[i]->reset()` of the loop of
`Menu::reset`, given the reset of a `Menu`: every item class inherits the
empty `MenuItem::reset`. -/
def MenuComponent.reset (menu_reset : State → Ptr → Option State) (s : State)
    (p : Option (Option Ptr)) : Option State :=
  match p with
  | some (some c) =>
    match s.objs[c]? with
    | none => none
    | some comp =>
      match comp.kind with
      | .menu _ => menu_reset s c
      | _ => some s
  | _ => none

/-- Embeds `Menu::reset`.  The recursion of the source follows the pointers of the
heap; `fuel` bounds its depth, and `none` is also the result when it runs
out. -/
def Menu.reset : Nat → State → Ptr → Option State
  | 0, _, _ => none
  | fuel + 1, s, self =>
    match s.menuAt self with
    | none => none
    | some m =>
      match (List.range m.num_components).foldlM
          (fun st i => MenuComponent.reset (Menu.reset fuel) st m.menu_components[i]?) s with
      | none => none
      | some s1 =>
        match s1.menuAt self with
        | none => none
        | some m1 =>
          match MenuComponent.set_current s1 m1.p_current_component false with
          | none => none
          | some s2 =>
            if m1.num_components ≠ 0 then
              match m1.menu_components[0]? with
              | none => none
              | some p0 =>
                MenuComponent.set_current
                  (s2.setMenu self { m1 with previous_component_num := 0,
                                             current_component_num := 0,
                                             p_current_component := p0 }) p0 true
            else
              MenuComponent.set_current
                (s2.setMenu self { m1 with previous_component_num := 0,
                                           current_component_num := 0,
                                           p_current_component := none }) none true

/-- Embeds `MenuSystem::reset`. -/
def MenuSystem.reset (fuel : Nat) (s : State) : Option State :=
  Menu.reset fuel { s with p_curr_menu := some s.p_root_menu } s.p_root_menu

/-- Embeds `MenuSystem::next`. -/
def MenuSystem.next (s : State) (loop : Bool) : Option (State × Bool) :=
  match s.p_curr_menu with
  | none => none
  | some a =>
    match s.menuAt a with
    | none => none
    | some m =>
      match m.p_current_component with
      | none => none
      | some c =>
        match s.objs[c]? with
        | none => none
        | some comp =>
          if comp.has_focus then MenuComponent.next s c loop else Menu.next s a loop

/-- Embeds `MenuSystem::prev`. -/
def MenuSystem.prev (s : State) (loop : Bool) : Option (State × Bool) :=
  match s.p_curr_menu with
  | none => none
  | some a =>
    match s.menuAt a with
    | none => none
    | some m =>
      match m.p_current_component with
      | none => none
      | some c =>
        match s.objs[c]? with
        | none => none
        | some comp =>
          if comp.has_focus then MenuComponent.prev s c loop else Menu.prev s a loop

/-- Embeds `MenuSystem::select`. -/
def MenuSystem.select (fuel : Nat) (s : State) (reset : Bool) : Option State :=
  match s.p_curr_menu with
  | none => none
  | some a =>
    match Menu.activate s a with
    | none => none
    | some (s1, some b) => some { s1 with p_curr_menu := some b }
    | some (s1, none) => if reset then MenuSystem.reset fuel s1 else some s1

/-! ## Auxiliary definitions: heap access, well-formed menus, callers and the
concrete states used below -/

/-- Apply `f` to the object at address `a`, when there is one. -/
def State.mapAt (s : State) (a : Ptr) (f : MenuComponent → MenuComponent) : State :=
  match s.objs[a]? with
  | some c => s.store a (f c)
  | none => s

/-- The pointer is the address of an object of the heap. -/
def State.valid (s : State) : Option Ptr → Prop
  | some a => a < s.objs.length
  | none => False

instance State.decValid (s : State) : (p : Option Ptr) → Decidable (s.valid p)
  | some a => inferInstanceAs (Decidable (a < s.objs.length))
  | none => inferInstanceAs (Decidable False)

/-- The menu is in a state that `add_item`/`add_menu` with live components
and `next`/`prev` produce: the counter is the length of the array and fits
`uint8_t`, the current index is inside a non-empty array, and every entry
of the array is the address of an object. -/
def Menu.wf (s : State) (m : Menu) : Prop :=
  m.num_components = m.menu_components.length ∧ m.num_components < 256 ∧
  (m.num_components ≠ 0 → m.current_component_num < m.num_components) ∧
  ∀ e ∈ m.menu_components, s.valid e

instance Menu.decWf (s : State) (m : Menu) : Decidable (m.wf s) := by
  unfold Menu.wf; infer_instance

/-- The component with its `_is_current` set to `b`. -/
def MenuComponent.with_current (b : Bool) (c : MenuComponent) : MenuComponent :=
  { c with is_current := b }

/-- The state after the shared block of `Menu::next`/`Menu::prev` ran on the
menu `m` at `self`, moving from the child at `pp` to index `idx`, child `pc`. -/
def Menu.moved (s : State) (self : Ptr) (m : Menu) (idx : Nat) (pc pp : Ptr) : State :=
  ((s.setMenu self { m with current_component_num := idx,
                            p_current_component := some pc }).mapAt pc
      (MenuComponent.with_current true)).mapAt pp (MenuComponent.with_current false)

/-- The caller making `k` successive calls of `op`; the results are listed
in the order of the calls. -/
def calls (op : State → Option (State × Bool)) : Nat → State → Option (State × List Bool)
  | 0, s => some (s, [])
  | k + 1, s =>
    match op s with
    | none => none
    | some (s1, r) =>
      match calls op k s1 with
      | none => none
      | some (s2, rs) => some (s2, r :: rs)

/-- The fields of a root menu holding the three components at addresses 1, 2
and 3, the first of them current. -/
def Menu.three : Menu :=
  { p_current_component := some 1, menu_components := [some 1, some 2, some 3],
    p_parent := none, num_components := 3, current_component_num := 0,
    previous_component_num := 0 }

/-- A system whose root menu holds three plain items, the first one current:
the state after three calls of `add_item` on the root of a new system. -/
def State.three_items : State :=
  { objs := [{ Menu.new false with kind := .menu Menu.three },
             { MenuItem.new false with is_current := true },
             MenuItem.new false, MenuItem.new true],
    fired := [], p_root_menu := 0, p_curr_menu := some 0 }

/-- The value of `is_current()` of the object at address `x`. -/
def State.is_current (s : State) (x : Ptr) : Option Bool :=
  (s.objs[x]?).map (fun c => c.is_current)

/-- The `is_current()` of the children of the menu at `self`, in the order of
the array. -/
def Menu.children_current (s : State) (self : Ptr) : Option (List (Option Bool)) :=
  (s.menuAt self).map (fun m =>
    (m.menu_components.take m.num_components).map (fun e =>
      match e with
      | some a => s.is_current a
      | none => none))

/-- The fields of a root menu holding the single component at address 1. -/
def Menu.one : Menu :=
  { p_current_component := some 1, menu_components := [some 1], p_parent := none,
    num_components := 1, current_component_num := 0, previous_component_num := 0 }

/-- A system whose root menu holds one plain item: the state after one call
of `add_item` on the root of a new system. -/
def State.one_item : State :=
  { objs := [{ Menu.new false with kind := .menu Menu.one },
             { MenuItem.new false with is_current := true }],
    fired := [], p_root_menu := 0, p_curr_menu := some 0 }

/-- The fields of a root menu holding the components at addresses 1 and 2,
with current index `cur` and previous index `prev`. -/
def Menu.two (cur prev : Nat) : Menu :=
  { p_current_component := some (cur + 1), menu_components := [some 1, some 2],
    p_parent := none, num_components := 2, current_component_num := cur,
    previous_component_num := prev }

/-- The state after `add_item(a)`, `next(true)`, `add_item(b)` on the root of
a new system, `a` and `b` being plain items at addresses 1 and 2. -/
def State.two_items_late : State :=
  { objs := [{ Menu.new false with kind := .menu (Menu.two 0 0) },
             MenuItem.new false, MenuItem.new false],
    fired := [], p_root_menu := 0, p_curr_menu := some 0 }

/-- The fields of the sub-menu B of the scenario. -/
def Menu.scenario_B : Menu :=
  { p_current_component := some 3, menu_components := [some 3, some 4],
    p_parent := some 0, num_components := 2, current_component_num := 0,
    previous_component_num := 0 }

/-- The scenario of the specification: the root menu (address 0) holds the
plain item A (1) and the sub-menu B (2); B holds a back item (3) bound to the
system and the plain item C (4), which has a callback.  `cur` and `prev` are
the current and the previous index of the root menu and `active` is the
active menu. -/
def State.scenario (cur prev : Nat) (active : Ptr) : State :=
  { objs := [{ Menu.new false with kind := .menu (Menu.two cur prev) },
             { MenuItem.new false with is_current := decide (cur = 0) },
             { Menu.new false with is_current := decide (cur = 1),
                                   kind := .menu Menu.scenario_B },
             { MenuComponent.new false (.backMenuItem true) with is_current := true },
             MenuItem.new true],
    fired := [], p_root_menu := 0, p_curr_menu := some active }

/-- A system whose root menu holds one numeric item that has focus, with
value 9, range 0 to 10 and increment 2. -/
def State.numeric_focused : State :=
  { objs := [{ Menu.new false with kind := .menu Menu.one },
             { has_focus := true, is_current := true, select_fn := false,
               kind := .numericMenuItem
                 { value := 9, min_value := 0, max_value := 10, increment := 2 } }],
    fired := [], p_root_menu := 0, p_curr_menu := some 0 }

/-- A new system with a new `Menu` placed at address 1. -/
def State.with_new_menu : State :=
  (MenuSystem.new.alloc (Menu.new false)).1

/-- The invariant of the specification on the flags of the children of a
menu: the child at the current index has `is_current` true and every other
child has it false. -/
def Menu.marks_current (s : State) (m : Menu) : Prop :=
  ∀ i, i < m.num_components →
    (match m.menu_components[i]? with
      | some (some a) => s.is_current a
      | _ => none) = some (decide (i = m.current_component_num))

instance Menu.decMarksCurrent (s : State) (m : Menu) : Decidable (m.marks_current s) := by
  unfold Menu.marks_current; infer_instance

/-- What an operation that only moves the current-child markers keeps of a
component: the focus flag, the callback, the class, and for a `Menu` the
array of children, their number and the parent. -/
def MenuComponent.kept (c c' : MenuComponent) : Prop :=
  c'.has_focus = c.has_focus ∧ c'.select_fn = c.select_fn ∧
  match c.kind with
  | .menu m => ∃ m', c'.kind = .menu m' ∧ m'.menu_components = m.menu_components ∧
      m'.num_components = m.num_components ∧ m'.p_parent = m.p_parent
  | k => c'.kind = k

/-- The heap of `s'` has the objects of the heap of `s`, each of them kept
in the sense of `MenuComponent.kept`. -/
def State.same_items (s s' : State) : Prop :=
  s'.objs.length = s.objs.length ∧
  ∀ (x : Ptr) (comp : MenuComponent), s.objs[x]? = some comp →
    ∃ comp', s'.objs[x]? = some comp' ∧ comp.kept comp'

/-- Embeds `NumericMenuItem::NumericMenuItem`: the increment is made
non-negative and the two bounds are swapped when the minimum is above the
maximum. -/
def NumericMenuItem.new (value min_value max_value increment : Float32) :
    NumericMenuItem :=
  let inc := if increment < 0 then -increment else increment
  if min_value > max_value then
    { value := value, min_value := max_value, max_value := min_value, increment := inc }
  else
    { value := value, min_value := min_value, max_value := max_value, increment := inc }

/-- Embeds `NumericMenuItem::set_value`. -/
def NumericMenuItem.set_value (n : NumericMenuItem) (value : Float32) :
    NumericMenuItem :=
  { n with value := value }

/-- Embeds `NumericMenuItem::set_min_value`. -/
def NumericMenuItem.set_min_value (n : NumericMenuItem) (value : Float32) :
    NumericMenuItem :=
  { n with min_value := value }

/-- Embeds `NumericMenuItem::set_max_value`. -/
def NumericMenuItem.set_max_value (n : NumericMenuItem) (value : Float32) :
    NumericMenuItem :=
  { n with max_value := value }

/-- The caller making `k` successive calls of `select()` on the component at
address `c`, dropping the returned pointers. -/
def MenuComponent.select_times : Nat → State → Ptr → Option State
  | 0, s, _ => some s
  | k + 1, s, c =>
    match MenuComponent.select s c with
    | none => none
    | some (s1, _) => MenuComponent.select_times k s1 c

/-- A system whose root menu holds one numeric item without focus and with a
callback, with value 9, range 0 to 10 and increment 2. -/
def State.numeric_fresh : State :=
  { objs := [{ Menu.new false with kind := .menu Menu.one },
             { has_focus := false, is_current := true, select_fn := true,
               kind := .numericMenuItem
                 { value := 9, min_value := 0, max_value := 10, increment := 2 } }],
    fired := [], p_root_menu := 0, p_curr_menu := some 0 }

/-- The caller making `k` successive calls of `TextEditMenuItem::next`. -/
def TextEditMenuItem.next_times : Nat → TextEditMenuItem → Bool → Option TextEditMenuItem
  | 0, t, _ => some t
  | k + 1, t, loop =>
    match t.next loop with
    | none => none
    | some t1 => TextEditMenuItem.next_times k t1 loop

/-- A text item over a buffer of 255 spaces, declared with size 255, with the
cursor at `pos` in the sub-state `st`. -/
def TextEditMenuItem.full (st : EDITING_STATE) (pos : Nat) : TextEditMenuItem :=
  { editing_state := st, value := List.replicate 255 32, size := 255, pos := pos }

/-- A system whose root menu holds one toggle item in the state off, with a
callback. -/
def State.toggle_item : State :=
  { objs := [{ Menu.new false with kind := .menu Menu.one },
             { has_focus := false, is_current := true, select_fn := true,
               kind := .toggleMenuItem false }],
    fired := [], p_root_menu := 0, p_curr_menu := some 0 }

/-- A system whose root menu holds one text item over the buffer "AB" of
size 2, with a callback, with the given focus flag, sub-state and cursor. -/
def State.text_item (focus : Bool) (st : EDITING_STATE) (pos : Nat) : State :=
  { objs := [{ Menu.new false with kind := .menu Menu.one },
             { has_focus := focus, is_current := true, select_fn := true,
               kind := .textEditMenuItem
                 { editing_state := st, value := [65, 66], size := 2, pos := pos } }],
    fired := [], p_root_menu := 0, p_curr_menu := some 0 }

/-- The system of `State.numeric_fresh` after one `select()`: the numeric
item, the only child of the root menu, has focus. -/
def State.numeric_entered : State :=
  { objs := [{ Menu.new false with kind := .menu Menu.one },
             { has_focus := true, is_current := true, select_fn := true,
               kind := .numericMenuItem
                 { value := 9, min_value := 0, max_value := 10, increment := 2 } }],
    fired := [], p_root_menu := 0, p_curr_menu := some 0 }

/-- The value of `has_focus()` of the object at address `x`. -/
def State.has_focus (s : State) (x : Ptr) : Option Bool :=
  (s.objs[x]?).map (fun c => c.has_focus)

/-- What `add_item`/`add_menu`, `next`, `prev` and `reset` keep true of a menu
with distinct live children: it is well formed, no child is held twice, a
non-empty menu has one of its children as current component, and a child
with `is_current` true is the current component. -/
def Menu.sound (s : State) (m : Menu) : Prop :=
  m.wf s ∧ m.menu_components.Nodup ∧
  (m.num_components ≠ 0 → m.p_current_component ∈ m.menu_components) ∧
  ∀ e ∈ m.menu_components, ∀ y ∈ e,
    s.is_current y = some true → m.p_current_component = some y

instance Menu.decSound (s : State) (m : Menu) : Decidable (m.sound s) := by
  unfold Menu.sound; infer_instance

/-- The menus at `x1` and `x2`, when there are two, have no child in common. -/
def State.apart (s : State) (x1 x2 : Ptr) : Prop :=
  ∀ m1 ∈ s.menuAt x1, ∀ m2 ∈ s.menuAt x2,
    ∀ e ∈ m1.menu_components, e ∉ m2.menu_components

instance State.decApart (s : State) (x1 x2 : Ptr) : Decidable (s.apart x1 x2) := by
  unfold State.apart; infer_instance

/-- The menus of the heap are sound and no component is a child of two
menus: each component is attached to one menu at most. -/
def State.forest (s : State) : Prop :=
  (∀ x, x < s.objs.length → ∀ m ∈ s.menuAt x, m.sound s) ∧
  ∀ x1, x1 < s.objs.length → ∀ x2, x2 < s.objs.length → x1 ≠ x2 → s.apart x1 x2

instance State.decForest (s : State) : Decidable s.forest := by
  unfold State.forest; infer_instance

/-- The part of the heap below `a` has depth at most `d` and each menu in it
has a child: a component that is not a menu fits every depth, a menu fits
depth `d + 1` when it is not empty and its children fit depth `d`. -/
def State.fits : Nat → State → Ptr → Prop
  | 0, s, a => s.menuAt a = none
  | d + 1, s, a =>
    ∀ m ∈ s.menuAt a, m.num_components ≠ 0 ∧
      ∀ e ∈ m.menu_components, ∀ c ∈ e, State.fits d s c

instance State.decFits : (d : Nat) → (s : State) → (a : Ptr) → Decidable (State.fits d s a)
  | 0, s, a => inferInstanceAs (Decidable (s.menuAt a = none))
  | d + 1, s, a =>
    have : ∀ c, Decidable (State.fits d s c) := fun c => State.decFits d s c
    inferInstanceAs (Decidable (∀ m ∈ s.menuAt a, m.num_components ≠ 0 ∧
      ∀ e ∈ m.menu_components, ∀ c ∈ e, State.fits d s c))

/-- The component at `x` is `a` or is reached from `a` through the arrays of
the menus in at most `d` steps. -/
def State.below : Nat → State → Ptr → Ptr → Prop
  | 0, _, a, x => x = a
  | d + 1, s, a, x =>
    x = a ∨ ∃ m ∈ s.menuAt a, ∃ e ∈ m.menu_components, ∃ c ∈ e, State.below d s c x

/-- The menu at `x`, when there is one, is as `Menu::reset` leaves it: current
and previous index 0, the first child with `is_current` true and every other
child with `is_current` false. -/
def State.rewound (s : State) (x : Ptr) : Prop :=
  ∀ m ∈ s.menuAt x, m.current_component_num = 0 ∧ m.previous_component_num = 0 ∧
    m.marks_current s

/-- The state after the statements of `Menu::reset` that follow the loop, run
on the menu `m` at `a` whose current component is `pc` and whose first child
is `p0`. -/
def Menu.rewind (s : State) (a : Ptr) (m : Menu) (pc p0 : Ptr) : State :=
  ((s.mapAt pc (MenuComponent.with_current false)).setMenu a
      { m with previous_component_num := 0, current_component_num := 0,
               p_current_component := some p0 }).mapAt p0
    (MenuComponent.with_current true)

/-- A system whose root menu holds the plain item A (address 1) and a numeric
item (address 2) that has focus; `cur` is the current index of the root. -/
def State.plain_and_numeric (cur : Nat) : State :=
  { objs := [{ Menu.new false with kind := .menu (Menu.two cur 0) },
             { MenuItem.new false with is_current := decide (cur = 0) },
             { has_focus := true, is_current := decide (cur = 1), select_fn := true,
               kind := .numericMenuItem
                 { value := 9, min_value := 0, max_value := 10, increment := 2 } }],
    fired := [], p_root_menu := 0, p_curr_menu := some 0 }

/-- The text item `t` with the character `x` written at the position before
the cursor. -/
def TextEditMenuItem.written (t : TextEditMenuItem) (x : Int) : TextEditMenuItem :=
  { t with value := t.value.set (t.pos - 1) x }

/-- A system whose root menu holds one focused text item in the sub-state
EDITING, the cursor at 1, over a buffer of size 1 that holds the character
`ch`. -/
def State.text_char (ch : Int) : State :=
  { objs := [{ Menu.new false with kind := .menu Menu.one },
             { has_focus := true, is_current := true, select_fn := false,
               kind := .textEditMenuItem
                 { editing_state := .EDITING, value := [ch], size := 1, pos := 1 } }],
    fired := [], p_root_menu := 0, p_curr_menu := some 0 }

/-- One call made on a component by its user. -/
inductive Call where
  | next (loop : Bool)
  | prev (loop : Bool)
  | select
  deriving DecidableEq

/-- The virtual call `k` on the component at address `c`, dropping the
result. -/
def MenuComponent.call (s : State) (c : Ptr) : Call → Option State
  | .next loop => (MenuComponent.next s c loop).map (fun r => r.1)
  | .prev loop => (MenuComponent.prev s c loop).map (fun r => r.1)
  | .select => (MenuComponent.select s c).map (fun r => r.1)

/-- The caller making the calls of the list, in order, on the component at
address `c`. -/
def MenuComponent.run : List Call → State → Ptr → Option State
  | [], s, _ => some s
  | k :: ks, s, c =>
    match MenuComponent.call s c k with
    | none => none
    | some s1 => MenuComponent.run ks s1 c

/-- A system whose root menu holds one text item over an empty buffer,
declared with size 0, with the given focus flag, sub-state and cursor. -/
def State.text_empty (focus : Bool) (st : EDITING_STATE) (pos : Nat) : State :=
  { objs := [{ Menu.new false with kind := .menu Menu.one },
             { has_focus := focus, is_current := true, select_fn := false,
               kind := .textEditMenuItem
                 { editing_state := st, value := [], size := 0, pos := pos } }],
    fired := [], p_root_menu := 0, p_curr_menu := some 0 }

/-- The cursor of a focused text item is inside the buffer: it is at most the
declared size, which the buffer has, the sub-state is SELECTION or EDITING,
and in EDITING the cursor is at least 1. -/
def TextEditMenuItem.inside (t : TextEditMenuItem) : Prop :=
  t.pos ≤ t.size ∧ t.size ≤ t.value.length ∧ t.editing_state ≠ .FOCUSED ∧
  (t.editing_state = .EDITING → 1 ≤ t.pos)

instance TextEditMenuItem.decInside (t : TextEditMenuItem) : Decidable t.inside := by
  unfold TextEditMenuItem.inside; infer_instance

/-- The menu at `a` lies `d` steps of `_p_parent` away from the root menu:
depth 0 is the root menu itself, and a menu at depth `d + 1` is not the root
and has a parent at depth `d`. -/
def State.chain : Nat → State → Ptr → Prop
  | 0, s, a => a = s.p_root_menu ∧ s.menuAt a ≠ none
  | d + 1, s, a =>
    a ≠ s.p_root_menu ∧ ∃ m ∈ s.menuAt a, ∃ p ∈ m.p_parent, State.chain d s p

instance State.decChain : (d : Nat) → (s : State) → (a : Ptr) → Decidable (State.chain d s a)
  | 0, s, a => inferInstanceAs (Decidable (a = s.p_root_menu ∧ s.menuAt a ≠ none))
  | d + 1, s, a =>
    have : ∀ p, Decidable (State.chain d s p) := fun p => State.decChain d s p
    inferInstanceAs (Decidable (a ≠ s.p_root_menu ∧
      ∃ m ∈ s.menuAt a, ∃ p ∈ m.p_parent, State.chain d s p))

/-- The menus are attached as `add_menu` attaches them in a tree: a menu held
in the array of the menu at `a` has `a` as its parent (so it is held by no
other menu) and is not the root menu. -/
def State.attached (s : State) : Prop :=
  ∀ a, a < s.objs.length → ∀ m ∈ s.menuAt a, ∀ e ∈ m.menu_components, ∀ b ∈ e,
    ∀ mb ∈ s.menuAt b, mb.p_parent = some a ∧ b ≠ s.p_root_menu

instance State.decAttached (s : State) : Decidable s.attached := by
  unfold State.attached; infer_instance

/-- The active menu is in the tree: the menus are attached as in a tree and
the active menu is at some depth below the root menu. -/
def State.in_tree (s : State) : Prop :=
  s.attached ∧ ∃ a d, s.p_curr_menu = some a ∧ State.chain d s a

/-- The state `s'` has the root menu and the menus of `s`, each with the
array of children and the parent it has in `s`. -/
def State.same_tree (s s' : State) : Prop :=
  s'.p_root_menu = s.p_root_menu ∧ s'.objs.length = s.objs.length ∧
  ∀ a, (∀ m, s.menuAt a = some m → ∃ m', s'.menuAt a = some m' ∧
          m'.menu_components = m.menu_components ∧ m'.p_parent = m.p_parent) ∧
       (∀ m', s'.menuAt a = some m' → ∃ m, s.menuAt a = some m ∧
          m'.menu_components = m.menu_components ∧ m'.p_parent = m.p_parent)

/-- One call made on the menu system by its user. -/
inductive Action where
  | next (loop : Bool)
  | prev (loop : Bool)
  | select (reset : Bool)
  | back
  | reset
  deriving DecidableEq

/-- The call `k` on the menu system, dropping the result. -/
def MenuSystem.act (fuel : Nat) (s : State) : Action → Option State
  | .next loop => (MenuSystem.next s loop).map (fun r => r.1)
  | .prev loop => (MenuSystem.prev s loop).map (fun r => r.1)
  | .select reset => MenuSystem.select fuel s reset
  | .back => (MenuSystem.back s).map (fun r => r.1)
  | .reset => MenuSystem.reset fuel s

/-- The caller making the calls of the list, in order, on the menu system. -/
def MenuSystem.run (fuel : Nat) : List Action → State → Option State
  | [], s => some s
  | k :: ks, s =>
    match MenuSystem.act fuel s k with
    | none => none
    | some s1 => MenuSystem.run fuel ks s1

/-- A system whose root menu holds the plain item A (address 1) and the
empty sub-menu E (address 2), reached by `next()` and entered by `select()`:
E is the current child of the root and the active menu. -/
def State.empty_sub_menu : State :=
  { objs := [{ Menu.new false with kind := .menu (Menu.two 1 0) },
             MenuItem.new false,
             { Menu.new false with
                 is_current := true,
                 kind := .menu { p_current_component := none, menu_components := [],
                                 p_parent := some 0, num_components := 0,
                                 current_component_num := 0,
                                 previous_component_num := 0 } }],
    fired := [], p_root_menu := 0, p_curr_menu := some 2 }

/-! ## Theorems -/

theorem State.objs_mapAt (s : State) (a : Ptr) (f : MenuComponent → MenuComponent) (x : Ptr) :
    (s.mapAt a f).objs[x]? = if x = a then (s.objs[x]?).map f else s.objs[x]? := by
  unfold State.mapAt
  cases h : s.objs[a]? with
  | none =>
    by_cases hx : x = a
    · subst hx; simp [h]
    · simp [hx]
  | some c =>
    have hlt : a < s.objs.length := (List.getElem?_eq_some.mp h).1
    by_cases hx : x = a
    · subst hx; simp [State.store, h, hlt]
    · have : a ≠ x := fun e => hx e.symm
      simp [State.store, hx, this]

@[simp] theorem State.length_mapAt (s : State) (a : Ptr) (f : MenuComponent → MenuComponent) :
    (s.mapAt a f).objs.length = s.objs.length := by
  unfold State.mapAt
  cases h : s.objs[a]? <;> simp [State.store]

@[simp] theorem State.fired_mapAt (s : State) (a : Ptr) (f : MenuComponent → MenuComponent) :
    (s.mapAt a f).fired = s.fired := by
  unfold State.mapAt
  cases h : s.objs[a]? <;> simp [State.store]

@[simp] theorem State.root_mapAt (s : State) (a : Ptr) (f : MenuComponent → MenuComponent) :
    (s.mapAt a f).p_root_menu = s.p_root_menu := by
  unfold State.mapAt
  cases h : s.objs[a]? <;> simp [State.store]

@[simp] theorem State.curr_mapAt (s : State) (a : Ptr) (f : MenuComponent → MenuComponent) :
    (s.mapAt a f).p_curr_menu = s.p_curr_menu := by
  unfold State.mapAt
  cases h : s.objs[a]? <;> simp [State.store]

theorem State.setMenu_eq (s : State) (a : Ptr) (m : Menu) :
    s.setMenu a m = s.mapAt a (fun c => { c with kind := .menu m }) := rfl

theorem MenuComponent.set_current_eq (s : State) (a : Ptr) (b : Bool)
    (h : a < s.objs.length) :
    MenuComponent.set_current s (some a) b
      = some (s.mapAt a (fun c => { c with is_current := b })) := by
  unfold MenuComponent.set_current State.mapAt
  simp [List.getElem?_eq_getElem h]

theorem State.menuAt_mapAt_kind (s : State) (a x : Ptr) (f : MenuComponent → MenuComponent)
    (hf : ∀ c, (f c).kind = c.kind) : (s.mapAt a f).menuAt x = s.menuAt x := by
  unfold State.menuAt
  rw [State.objs_mapAt]
  by_cases hx : x = a
  · simp only [hx, if_true]
    cases h : s.objs[a]? <;> simp [hf]
  · simp [hx]

theorem State.menuAt_setMenu (s : State) (a x : Ptr) (m : Menu) :
    (s.setMenu a m).menuAt x
      = if x = a then (s.objs[x]?).map (fun _ => m) else s.menuAt x := by
  unfold State.menuAt
  rw [State.setMenu_eq, State.objs_mapAt]
  by_cases hx : x = a
  · simp only [hx, if_true]
    cases h : s.objs[a]? <;> simp
  · simp [hx]

theorem State.menuAt_setMenu_self (s : State) (a : Ptr) (m m' : Menu)
    (h : s.menuAt a = some m) : (s.setMenu a m').menuAt a = some m' := by
  rw [State.menuAt_setMenu]
  unfold State.menuAt at h
  cases h' : s.objs[a]? with
  | none => simp [h'] at h
  | some c => simp

theorem Menu.wf_entry {s : State} {m : Menu} (h : m.wf s) {i : Nat}
    (hi : i < m.num_components) :
    ∃ a, m.menu_components[i]? = some (some a) ∧ a < s.objs.length := by
  obtain ⟨hlen, _, _, hall⟩ := h
  have hi' : i < m.menu_components.length := hlen ▸ hi
  have hmem : m.menu_components[i] ∈ m.menu_components := List.getElem_mem hi'
  have hv := hall _ hmem
  cases he : m.menu_components[i] with
  | none => rw [he] at hv; exact absurd hv (by simp [State.valid])
  | some a =>
    rw [he] at hv
    exact ⟨a, by rw [List.getElem?_eq_getElem hi', he], hv⟩

theorem MenuComponent.set_current_eq' (s : State) (a : Ptr) (b : Bool)
    (h : a < s.objs.length) :
    MenuComponent.set_current s (some a) b
      = some (s.mapAt a (MenuComponent.with_current b)) :=
  MenuComponent.set_current_eq s a b h

theorem State.menuAt_with_current (s : State) (a x : Ptr) (b : Bool) :
    (s.mapAt a (MenuComponent.with_current b)).menuAt x = s.menuAt x :=
  State.menuAt_mapAt_kind s a x _ (fun _ => rfl)

theorem State.mapAt_mapAt (s : State) (a : Ptr) (f g : MenuComponent → MenuComponent) :
    (s.mapAt a f).mapAt a g = s.mapAt a (fun c => g (f c)) := by
  have hobjs : ((s.mapAt a f).mapAt a g).objs = (s.mapAt a (fun c => g (f c))).objs := by
    apply List.ext_getElem?
    intro x
    simp only [State.objs_mapAt]
    by_cases hx : x = a
    · simp [hx, Function.comp_def]
    · simp [hx]
  cases h1 : (s.mapAt a f).mapAt a g with
  | mk o1 f1 r1 c1 =>
    cases h2 : s.mapAt a (fun c => g (f c)) with
    | mk o2 f2 r2 c2 =>
      have e1 := congrArg State.fired h1
      have e2 := congrArg State.fired h2
      have e3 := congrArg State.p_root_menu h1
      have e4 := congrArg State.p_root_menu h2
      have e5 := congrArg State.p_curr_menu h1
      have e6 := congrArg State.p_curr_menu h2
      rw [h1, h2] at hobjs
      simp at e1 e2 e3 e4 e5 e6 hobjs
      simp [hobjs, ← e1, ← e2, ← e3, ← e4, ← e5, ← e6]

theorem State.setMenu_setMenu (s : State) (a : Ptr) (m1 m2 : Menu) :
    (s.setMenu a m1).setMenu a m2 = s.setMenu a m2 := by
  rw [State.setMenu_eq, State.setMenu_eq, State.setMenu_eq, State.mapAt_mapAt]

theorem Menu.move_eq (s : State) (self : Ptr) (m : Menu) (idx : Nat) (pc pp : Ptr)
    (hm : s.menuAt self = some m)
    (hidx : m.menu_components[idx]? = some (some pc)) (hpc : pc < s.objs.length)
    (hprev : m.menu_components[m.previous_component_num]? = some (some pp))
    (hpp : pp < s.objs.length) :
    Menu.move s self idx = some (Menu.moved s self m idx pc pp, true) := by
  unfold Menu.move Menu.moved
  simp only [hm, hidx, hprev]
  rw [MenuComponent.set_current_eq' _ _ _ (by rw [State.setMenu_eq]; simpa using hpc)]
  simp only
  rw [MenuComponent.set_current_eq' _ _ _ (by rw [State.setMenu_eq]; simpa using hpp)]

theorem Menu.menuAt_moved (s : State) (self : Ptr) (m m0 : Menu) (idx : Nat) (pc pp : Ptr)
    (hm : s.menuAt self = some m0) :
    (Menu.moved s self m idx pc pp).menuAt self
      = some { m with current_component_num := idx, p_current_component := some pc } := by
  unfold Menu.moved
  rw [State.menuAt_with_current, State.menuAt_with_current]
  exact State.menuAt_setMenu_self _ _ _ _ hm

@[simp] theorem Menu.length_moved (s : State) (self : Ptr) (m : Menu) (idx : Nat)
    (pc pp : Ptr) : (Menu.moved s self m idx pc pp).objs.length = s.objs.length := by
  simp [Menu.moved, State.setMenu_eq]

theorem Menu.wf_transfer {s s' : State} {m m' : Menu} (h : m.wf s)
    (hlen : s'.objs.length = s.objs.length)
    (harr : m'.menu_components = m.menu_components)
    (hnum : m'.num_components = m.num_components)
    (hcur : m'.num_components ≠ 0 → m'.current_component_num < m'.num_components) :
    m'.wf s' := by
  obtain ⟨h1, h2, _, h4⟩ := h
  refine ⟨by rw [hnum, harr]; exact h1, by rw [hnum]; exact h2, hcur, ?_⟩
  intro e he
  rw [harr] at he
  have := h4 e he
  cases e with
  | none => exact this
  | some a =>
    show a < s'.objs.length
    rw [hlen]
    exact this

theorem Menu.next_eq_stay (s : State) (self : Ptr) (m : Menu)
    (hm : s.menuAt self = some m) (hn : m.num_components ≠ 0)
    (hcur : m.current_component_num = m.num_components - 1) :
    Menu.next s self false
      = some (s.setMenu self { m with previous_component_num := m.current_component_num },
              false) := by
  unfold Menu.next
  simp [hm, hn, hcur]

theorem Menu.prev_eq_stay (s : State) (self : Ptr) (m : Menu)
    (hm : s.menuAt self = some m) (hn : m.num_components ≠ 0)
    (hcur : m.current_component_num = 0) :
    Menu.prev s self false
      = some (s.setMenu self { m with previous_component_num := m.current_component_num },
              false) := by
  unfold Menu.prev
  simp [hm, hn, hcur]

theorem Menu.next_eq_moved (s : State) (self : Ptr) (m : Menu) (loop : Bool)
    (hm : s.menuAt self = some m) (hwf : m.wf s) (hn : m.num_components ≠ 0)
    (hmove : m.current_component_num ≠ m.num_components - 1 ∨ loop = true) :
    ∃ pc pp,
      m.menu_components[if m.current_component_num ≠ m.num_components - 1
        then m.current_component_num + 1 else 0]? = some (some pc) ∧ pc < s.objs.length ∧
      m.menu_components[m.current_component_num]? = some (some pp) ∧ pp < s.objs.length ∧
      Menu.next s self loop
        = some (Menu.moved s self { m with previous_component_num := m.current_component_num }
            (if m.current_component_num ≠ m.num_components - 1
              then m.current_component_num + 1 else 0) pc pp, true) := by
  have hcur : m.current_component_num < m.num_components := hwf.2.2.1 hn
  have h256 : m.num_components < 256 := hwf.2.1
  obtain ⟨pp, hpp, hppv⟩ := Menu.wf_entry hwf hcur
  have hidx : (if m.current_component_num ≠ m.num_components - 1
      then m.current_component_num + 1 else 0) < m.num_components := by
    split <;> omega
  obtain ⟨pc, hpc, hpcv⟩ := Menu.wf_entry hwf hidx
  refine ⟨pc, pp, hpc, hpcv, hpp, hppv, ?_⟩
  have hm1 : (s.setMenu self
      { m with previous_component_num := m.current_component_num }).menuAt self
      = some { m with previous_component_num := m.current_component_num } :=
    State.menuAt_setMenu_self _ _ _ _ hm
  have hlen : (s.setMenu self
      { m with previous_component_num := m.current_component_num }).objs.length
      = s.objs.length := by simp [State.setMenu_eq]
  have hmv := Menu.move_eq _ self _ _ pc pp hm1 hpc (by rw [hlen]; exact hpcv) hpp
    (by rw [hlen]; exact hppv)
  unfold Menu.next
  simp only [hm, hn, if_false]
  by_cases hc : m.current_component_num = m.num_components - 1
  · have hl : loop = true := by
      cases hmove with
      | inl h => exact absurd hc h
      | inr h => exact h
    simp only [hc, ne_eq, not_true_eq_false, if_false, hl, if_true] at hmv ⊢
    rw [hmv]
    simp [Menu.moved, State.setMenu_setMenu]
  · have hmod : (m.current_component_num + 1) % 256 = m.current_component_num + 1 :=
      Nat.mod_eq_of_lt (by omega)
    simp only [ne_eq, hc, not_false_eq_true, if_true, hmod] at hmv ⊢
    rw [hmv]
    simp [Menu.moved, State.setMenu_setMenu]

theorem Menu.prev_eq_moved (s : State) (self : Ptr) (m : Menu) (loop : Bool)
    (hm : s.menuAt self = some m) (hwf : m.wf s) (hn : m.num_components ≠ 0)
    (hmove : m.current_component_num ≠ 0 ∨ loop = true) :
    ∃ pc pp,
      m.menu_components[if m.current_component_num ≠ 0
        then m.current_component_num - 1 else m.num_components - 1]? = some (some pc) ∧
      pc < s.objs.length ∧
      m.menu_components[m.current_component_num]? = some (some pp) ∧ pp < s.objs.length ∧
      Menu.prev s self loop
        = some (Menu.moved s self { m with previous_component_num := m.current_component_num }
            (if m.current_component_num ≠ 0
              then m.current_component_num - 1 else m.num_components - 1) pc pp, true) := by
  have hcur : m.current_component_num < m.num_components := hwf.2.2.1 hn
  obtain ⟨pp, hpp, hppv⟩ := Menu.wf_entry hwf hcur
  have hidx : (if m.current_component_num ≠ 0
      then m.current_component_num - 1 else m.num_components - 1) < m.num_components := by
    split <;> omega
  obtain ⟨pc, hpc, hpcv⟩ := Menu.wf_entry hwf hidx
  refine ⟨pc, pp, hpc, hpcv, hpp, hppv, ?_⟩
  have hm1 : (s.setMenu self
      { m with previous_component_num := m.current_component_num }).menuAt self
      = some { m with previous_component_num := m.current_component_num } :=
    State.menuAt_setMenu_self _ _ _ _ hm
  have hlen : (s.setMenu self
      { m with previous_component_num := m.current_component_num }).objs.length
      = s.objs.length := by simp [State.setMenu_eq]
  have hmv := Menu.move_eq _ self _ _ pc pp hm1 hpc (by rw [hlen]; exact hpcv) hpp
    (by rw [hlen]; exact hppv)
  unfold Menu.prev
  simp only [hm, hn, if_false]
  by_cases hc : m.current_component_num = 0
  · have hl : loop = true := by
      cases hmove with
      | inl h => exact absurd hc h
      | inr h => exact h
    simp only [hc, ne_eq, not_true_eq_false, if_false, hl, if_true] at hmv ⊢
    rw [hmv]
    simp [Menu.moved, State.setMenu_setMenu]
  · simp only [ne_eq, hc, not_false_eq_true, if_true] at hmv ⊢
    rw [hmv]
    simp [Menu.moved, State.setMenu_setMenu]

theorem Menu.next_step (s : State) (self : Ptr) (m : Menu) (loop : Bool)
    (hm : s.menuAt self = some m) (hwf : m.wf s) (hn : m.num_components ≠ 0) :
    ∃ s' m', Menu.next s self loop
        = some (s', decide (m.current_component_num ≠ m.num_components - 1) || loop) ∧
      s'.menuAt self = some m' ∧ m'.wf s' ∧
      m'.num_components = m.num_components ∧
      m'.menu_components = m.menu_components ∧
      m'.previous_component_num = m.current_component_num ∧
      m'.current_component_num
        = (if m.current_component_num ≠ m.num_components - 1 then m.current_component_num + 1
           else if loop then 0 else m.current_component_num) := by
  have hcur : m.current_component_num < m.num_components := hwf.2.2.1 hn
  by_cases hmove : m.current_component_num ≠ m.num_components - 1 ∨ loop = true
  · obtain ⟨pc, pp, _, _, _, _, hnext⟩ := Menu.next_eq_moved s self m loop hm hwf hn hmove
    have hmenu := Menu.menuAt_moved s self
      { m with previous_component_num := m.current_component_num } m
      (if m.current_component_num ≠ m.num_components - 1 then m.current_component_num + 1 else 0) pc pp hm
    refine ⟨_, _, ?_, hmenu, ?_, rfl, rfl, rfl, ?_⟩
    · rw [hnext]
      cases hmove with
      | inl h => simp [h]
      | inr h => simp [h]
    · refine Menu.wf_transfer hwf (Menu.length_moved _ _ _ _ _ _) rfl rfl ?_
      intro _
      show (if m.current_component_num ≠ m.num_components - 1
        then m.current_component_num + 1 else 0) < m.num_components
      split <;> omega
    · show (if m.current_component_num ≠ m.num_components - 1
        then m.current_component_num + 1 else 0) = _
      cases hmove with
      | inl h => simp [h]
      | inr h => simp [h]
  · have hc : m.current_component_num = m.num_components - 1 := by
      by_contra h; exact hmove (Or.inl h)
    have hl : loop = false := by
      cases loop with
      | false => rfl
      | true => exact absurd (Or.inr rfl) hmove
    subst hl
    refine ⟨_, { m with previous_component_num := m.current_component_num }, ?_,
      State.menuAt_setMenu_self _ _ _ _ hm, ?_, rfl, rfl, rfl, ?_⟩
    · rw [Menu.next_eq_stay s self m hm hn hc]; simp [hc]
    · exact Menu.wf_transfer hwf (by simp [State.setMenu_eq]) rfl rfl (fun _ => hcur)
    · simp [hc]

theorem Menu.prev_step (s : State) (self : Ptr) (m : Menu) (loop : Bool)
    (hm : s.menuAt self = some m) (hwf : m.wf s) (hn : m.num_components ≠ 0) :
    ∃ s' m', Menu.prev s self loop
        = some (s', decide (m.current_component_num ≠ 0) || loop) ∧
      s'.menuAt self = some m' ∧ m'.wf s' ∧
      m'.num_components = m.num_components ∧
      m'.menu_components = m.menu_components ∧
      m'.previous_component_num = m.current_component_num ∧
      m'.current_component_num
        = (if m.current_component_num ≠ 0 then m.current_component_num - 1
           else if loop then m.num_components - 1 else m.current_component_num) := by
  have hcur : m.current_component_num < m.num_components := hwf.2.2.1 hn
  by_cases hmove : m.current_component_num ≠ 0 ∨ loop = true
  · obtain ⟨pc, pp, _, _, _, _, hprev⟩ := Menu.prev_eq_moved s self m loop hm hwf hn hmove
    have hmenu := Menu.menuAt_moved s self
      { m with previous_component_num := m.current_component_num } m
      (if m.current_component_num ≠ 0 then m.current_component_num - 1 else m.num_components - 1) pc pp hm
    refine ⟨_, _, ?_, hmenu, ?_, rfl, rfl, rfl, ?_⟩
    · rw [hprev]
      cases hmove with
      | inl h => simp [h]
      | inr h => simp [h]
    · refine Menu.wf_transfer hwf (Menu.length_moved _ _ _ _ _ _) rfl rfl ?_
      intro _
      show (if m.current_component_num ≠ 0
        then m.current_component_num - 1 else m.num_components - 1) < m.num_components
      split <;> omega
    · show (if m.current_component_num ≠ 0
        then m.current_component_num - 1 else m.num_components - 1) = _
      cases hmove with
      | inl h => simp [h]
      | inr h => simp [h]
  · have hc : m.current_component_num = 0 := by
      by_contra h; exact hmove (Or.inl h)
    have hl : loop = false := by
      cases loop with
      | false => rfl
      | true => exact absurd (Or.inr rfl) hmove
    subst hl
    refine ⟨_, { m with previous_component_num := m.current_component_num }, ?_,
      State.menuAt_setMenu_self _ _ _ _ hm, ?_, rfl, rfl, rfl, ?_⟩
    · rw [Menu.prev_eq_stay s self m hm hn hc]; simp [hc]
    · exact Menu.wf_transfer hwf (by simp [State.setMenu_eq]) rfl rfl (fun _ => hcur)
    · simp [hc]

theorem Menu.next_pinned_from (self : Ptr) (k : Nat) :
    ∀ (s : State) (m : Menu), s.menuAt self = some m → m.wf s → m.num_components ≠ 0 →
    ∃ s' m', calls (fun t => Menu.next t self false) k s
        = some (s', List.replicate
              (min k (m.num_components - 1 - m.current_component_num)) true
            ++ List.replicate
              (k - (m.num_components - 1 - m.current_component_num)) false) ∧
      s'.menuAt self = some m' ∧
      m'.current_component_num = min (m.current_component_num + k) (m.num_components - 1) := by
  induction k with
  | zero =>
    intro s m hm hwf hn
    have hcur : m.current_component_num < m.num_components := hwf.2.2.1 hn
    refine ⟨s, m, by simp [calls], hm, ?_⟩
    simp; omega
  | succ k ih =>
    intro s m hm hwf hn
    have hcur : m.current_component_num < m.num_components := hwf.2.2.1 hn
    obtain ⟨s1, m1, hnext, hm1, hwf1, hnum1, _, _, hcur1⟩ :=
      Menu.next_step s self m false hm hwf hn
    obtain ⟨s2, m2, hcalls, hm2, hcur2⟩ := ih s1 m1 hm1 hwf1 (by rw [hnum1]; exact hn)
    refine ⟨s2, m2, ?_, hm2, ?_⟩
    · simp only [calls, hnext, hcalls]
      rw [hnum1, hcur1]
      by_cases hc : m.current_component_num = m.num_components - 1
      · have h0 : m.num_components - 1 - m.current_component_num = 0 := by omega
        simp [hc, List.replicate_succ]
      · have hd : m.num_components - 1 - m.current_component_num
            = (m.num_components - 1 - (m.current_component_num + 1)) + 1 := by omega
        simp only [ne_eq, hc, not_false_eq_true, decide_True, Bool.or_false, if_true]
        rw [hd, Nat.succ_min_succ, List.replicate_succ, Nat.add_sub_add_right]
        simp
    · rw [hcur2, hnum1, hcur1]
      by_cases hc : m.current_component_num = m.num_components - 1
      · simp [hc]
      · simp only [ne_eq, hc, not_false_eq_true, if_true]
        omega

theorem State.three_items_built :
    (((Menu.add_item (((MenuSystem.new.alloc (MenuItem.new false)).1.alloc
        (MenuItem.new false)).1.alloc (MenuItem.new true)).1 0 (some 1) true).bind
      (fun s => Menu.add_item s 0 (some 2) true)).bind
      (fun s => Menu.add_item s 0 (some 3) true)) = some State.three_items := by
  decide

theorem Menu.next_loop_from (self : Ptr) (k : Nat) :
    ∀ (s : State) (m : Menu), s.menuAt self = some m → m.wf s → m.num_components ≠ 0 →
    ∃ s' m', calls (fun t => Menu.next t self true) k s
        = some (s', List.replicate k true) ∧
      s'.menuAt self = some m' ∧
      m'.current_component_num = (m.current_component_num + k) % m.num_components := by
  induction k with
  | zero =>
    intro s m hm hwf hn
    have hcur : m.current_component_num < m.num_components := hwf.2.2.1 hn
    exact ⟨s, m, by simp [calls], hm, by simp [Nat.mod_eq_of_lt hcur]⟩
  | succ k ih =>
    intro s m hm hwf hn
    have hcur : m.current_component_num < m.num_components := hwf.2.2.1 hn
    obtain ⟨s1, m1, hnext, hm1, hwf1, hnum1, _, _, hcur1⟩ :=
      Menu.next_step s self m true hm hwf hn
    obtain ⟨s2, m2, hcalls, hm2, hcur2⟩ := ih s1 m1 hm1 hwf1 (by rw [hnum1]; exact hn)
    refine ⟨s2, m2, ?_, hm2, ?_⟩
    · simp [calls, hnext, hcalls, List.replicate_succ]
    · rw [hcur2, hnum1, hcur1]
      by_cases hc : m.current_component_num = m.num_components - 1
      · have e : m.current_component_num + (k + 1) = k + m.num_components := by omega
        simp only [hc, ne_eq, not_true_eq_false, if_false, if_true]
        rw [← hc, e]
        simp
      · simp only [ne_eq, hc, not_false_eq_true, if_true]
        congr 1
        omega

theorem Menu.prev_loop_from (self : Ptr) (k : Nat) :
    ∀ (s : State) (m : Menu), s.menuAt self = some m → m.wf s → m.num_components ≠ 0 →
    ∃ s' m', calls (fun t => Menu.prev t self true) k s
        = some (s', List.replicate k true) ∧
      s'.menuAt self = some m' ∧
      m'.current_component_num
        = (m.current_component_num + k * (m.num_components - 1)) % m.num_components := by
  induction k with
  | zero =>
    intro s m hm hwf hn
    have hcur : m.current_component_num < m.num_components := hwf.2.2.1 hn
    exact ⟨s, m, by simp [calls], hm, by simp [Nat.mod_eq_of_lt hcur]⟩
  | succ k ih =>
    intro s m hm hwf hn
    have hcur : m.current_component_num < m.num_components := hwf.2.2.1 hn
    obtain ⟨s1, m1, hprev, hm1, hwf1, hnum1, _, _, hcur1⟩ :=
      Menu.prev_step s self m true hm hwf hn
    obtain ⟨s2, m2, hcalls, hm2, hcur2⟩ := ih s1 m1 hm1 hwf1 (by rw [hnum1]; exact hn)
    refine ⟨s2, m2, ?_, hm2, ?_⟩
    · simp [calls, hprev, hcalls, List.replicate_succ]
    · rw [hcur2, hnum1, hcur1]
      by_cases hc : m.current_component_num = 0
      · simp only [hc, ne_eq, not_true_eq_false, if_false, if_true, Nat.zero_add]
        congr 1
        rw [Nat.succ_mul]; omega
      · simp only [ne_eq, hc, not_false_eq_true, if_true]
        have e : m.current_component_num + (k + 1) * (m.num_components - 1)
            = (m.current_component_num - 1 + k * (m.num_components - 1))
              + m.num_components := by
          rw [Nat.succ_mul]; omega
        rw [e, Nat.add_mod_right]

/-- C2: on a menu with n >= 1 children, `next(false)` at the last index
returns false and leaves the current index at n-1; from index 0, k calls of
`next(false)` return true min(k, n-1) times, then false, and leave the
current index at min(k, n-1); `prev(false)` at index 0 returns false and
leaves the current index at 0. -/
theorem Menu.next_prev_pinned_without_loop (s : State) (self : Ptr) (m : Menu)
    (hm : s.menuAt self = some m) (hwf : m.wf s) (hn : 1 ≤ m.num_components) :
    (m.current_component_num = m.num_components - 1 →
      ∃ s' m', Menu.next s self false = some (s', false) ∧ s'.menuAt self = some m' ∧
        m'.current_component_num = m.num_components - 1) ∧
    (m.current_component_num = 0 → ∀ k : Nat,
      ∃ s' m', calls (fun t => Menu.next t self false) k s
          = some (s', List.replicate (min k (m.num_components - 1)) true
              ++ List.replicate (k - (m.num_components - 1)) false) ∧
        s'.menuAt self = some m' ∧
        m'.current_component_num = min k (m.num_components - 1)) ∧
    (m.current_component_num = 0 →
      ∃ s' m', Menu.prev s self false = some (s', false) ∧ s'.menuAt self = some m' ∧
        m'.current_component_num = 0) := by
  have hn0 : m.num_components ≠ 0 := by omega
  refine ⟨?_, ?_, ?_⟩
  · intro hc
    obtain ⟨s', m', h1, h2, _, _, _, _, h3⟩ := Menu.next_step s self m false hm hwf hn0
    exact ⟨s', m', by simpa [hc] using h1, h2, by simpa [hc] using h3⟩
  · intro hc k
    obtain ⟨s', m', h1, h2, h3⟩ := Menu.next_pinned_from self k s m hm hwf hn0
    exact ⟨s', m', by simpa [hc] using h1, h2, by simpa [hc] using h3⟩
  · intro hc
    obtain ⟨s', m', h1, h2, _, _, _, _, h3⟩ := Menu.prev_step s self m false hm hwf hn0
    exact ⟨s', m', by simpa [hc] using h1, h2, by simpa [hc] using h3⟩

theorem Menu.next_prev_pinned_without_loop_witness :
    ∃ s' m', calls (fun t => Menu.next t 0 false) 5 State.three_items
        = some (s', [true, true, false, false, false]) ∧
      s'.menuAt 0 = some m' ∧ m'.current_component_num = 2 :=
  (Menu.next_prev_pinned_without_loop State.three_items 0 Menu.three rfl (by decide)
    (by decide)).2.1 rfl 5

/-- C4: on a menu with n >= 1 children and current index i, `next(true)`
returns true and moves to (i+1) mod n, and n calls of it return true each
and come back to i; `prev(true)` returns true and moves to (i+n-1) mod n,
and n calls of it return true each and come back to i. -/
theorem Menu.next_prev_loop_cycle (s : State) (self : Ptr) (m : Menu)
    (hm : s.menuAt self = some m) (hwf : m.wf s) (hn : 1 ≤ m.num_components) :
    (∃ s' m', Menu.next s self true = some (s', true) ∧ s'.menuAt self = some m' ∧
        m'.current_component_num = (m.current_component_num + 1) % m.num_components) ∧
    (∃ s' m', calls (fun t => Menu.next t self true) m.num_components s
          = some (s', List.replicate m.num_components true) ∧
        s'.menuAt self = some m' ∧ m'.current_component_num = m.current_component_num) ∧
    (∃ s' m', Menu.prev s self true = some (s', true) ∧ s'.menuAt self = some m' ∧
        m'.current_component_num
          = (m.current_component_num + m.num_components - 1) % m.num_components) ∧
    (∃ s' m', calls (fun t => Menu.prev t self true) m.num_components s
          = some (s', List.replicate m.num_components true) ∧
        s'.menuAt self = some m' ∧ m'.current_component_num = m.current_component_num) := by
  have hn0 : m.num_components ≠ 0 := by omega
  have hcur : m.current_component_num < m.num_components := hwf.2.2.1 hn0
  refine ⟨?_, ?_, ?_, ?_⟩
  · obtain ⟨s', m', h1, h2, _, _, _, _, h3⟩ := Menu.next_step s self m true hm hwf hn0
    refine ⟨s', m', by simpa using h1, h2, ?_⟩
    rw [h3]
    by_cases hc : m.current_component_num = m.num_components - 1
    · have e : m.current_component_num + 1 = m.num_components := by omega
      simp [hc, e]
      rw [← hc, e]; simp
    · simp only [ne_eq, hc, not_false_eq_true, if_true]
      exact (Nat.mod_eq_of_lt (by omega)).symm
  · obtain ⟨s', m', h1, h2, h3⟩ := Menu.next_loop_from self m.num_components s m hm hwf hn0
    exact ⟨s', m', h1, h2, by rw [h3, Nat.add_mod_right, Nat.mod_eq_of_lt hcur]⟩
  · obtain ⟨s', m', h1, h2, _, _, _, _, h3⟩ := Menu.prev_step s self m true hm hwf hn0
    refine ⟨s', m', by simpa using h1, h2, ?_⟩
    rw [h3]
    by_cases hc : m.current_component_num = 0
    · simp only [hc, ne_eq, not_true_eq_false, if_false, if_true, Nat.zero_add]
      exact (Nat.mod_eq_of_lt (by omega)).symm
    · simp only [ne_eq, hc, not_false_eq_true, if_true]
      have e : m.current_component_num + m.num_components - 1
          = (m.current_component_num - 1) + m.num_components := by omega
      rw [e, Nat.add_mod_right]
      exact (Nat.mod_eq_of_lt (by omega)).symm
  · obtain ⟨s', m', h1, h2, h3⟩ := Menu.prev_loop_from self m.num_components s m hm hwf hn0
    exact ⟨s', m', h1, h2, by rw [h3, Nat.add_mul_mod_self_left, Nat.mod_eq_of_lt hcur]⟩

theorem Menu.next_prev_loop_cycle_witness :
    ∃ s' m', calls (fun t => Menu.next t 0 true) 3 State.three_items
        = some (s', [true, true, true]) ∧
      s'.menuAt 0 = some m' ∧ m'.current_component_num = 0 :=
  (Menu.next_prev_loop_cycle State.three_items 0 Menu.three rfl (by decide)
    (by decide)).2.1

theorem State.is_current_setMenu (s : State) (a x : Ptr) (m : Menu) :
    (s.setMenu a m).is_current x = s.is_current x := by
  unfold State.is_current
  rw [State.setMenu_eq, State.objs_mapAt]
  by_cases hx : x = a
  · simp only [hx, if_true]
    cases s.objs[a]? <;> rfl
  · simp [hx]

theorem State.is_current_with_current (s : State) (a x : Ptr) (b : Bool) :
    (s.mapAt a (MenuComponent.with_current b)).is_current x
      = if x = a then (s.is_current x).map (fun _ => b) else s.is_current x := by
  unfold State.is_current
  rw [State.objs_mapAt]
  by_cases hx : x = a
  · simp only [hx, if_true]
    cases s.objs[a]? <;> rfl
  · simp [hx]

theorem State.objs_setMenu_ne (s : State) (a x : Ptr) (m : Menu) (hx : x ≠ a) :
    (s.setMenu a m).objs[x]? = s.objs[x]? := by
  rw [State.setMenu_eq, State.objs_mapAt]; simp [hx]

theorem State.menuAt_setMenu_ne (s : State) (a x : Ptr) (m : Menu) (hx : x ≠ a) :
    (s.setMenu a m).menuAt x = s.menuAt x := by
  rw [State.menuAt_setMenu]; simp [hx]

theorem State.menuAt_lt {s : State} {a : Ptr} {m : Menu} (h : s.menuAt a = some m) :
    a < s.objs.length := by
  unfold State.menuAt at h
  cases h' : s.objs[a]? with
  | none => simp [h'] at h
  | some c => exact (List.getElem?_eq_some.mp h').1

theorem Menu.add_component_eq (s : State) (self c : Ptr) (m : Menu)
    (hm : s.menuAt self = some m)
    (hlen : m.num_components = m.menu_components.length)
    (hk : m.num_components < 255) (hc : c < s.objs.length) :
    Menu.add_component s self (some c) true
      = some (if m.num_components = 0 then
          ((s.setMenu self { m with menu_components := m.menu_components ++ [some c],
                                    p_current_component := some c }).mapAt c
              (MenuComponent.with_current true)).setMenu self
            { m with menu_components := m.menu_components ++ [some c],
                     p_current_component := some c,
                     num_components := m.num_components + 1 }
        else
          s.setMenu self { m with menu_components := m.menu_components ++ [some c],
                                  num_components := m.num_components + 1 }) := by
  have hmod : (m.num_components + 1) % 256 = m.num_components + 1 :=
    Nat.mod_eq_of_lt (by omega)
  have htake : List.take m.num_components m.menu_components = m.menu_components := by
    rw [hlen]; exact List.take_length _
  have hsub : m.num_components - m.menu_components.length = 0 := by omega
  unfold Menu.add_component
  simp only [hm, hmod, htake, hsub, List.replicate_zero, List.append_nil,
    State.setMenu_setMenu]
  by_cases h0 : m.num_components = 0
  · simp only [h0, if_true]
    rw [MenuComponent.set_current_eq' _ _ _ (by rw [State.setMenu_eq]; simpa using hc)]
    simp
  · simp [h0]

theorem Menu.add_component_menuAt_ne (s : State) (self c x : Ptr) (m : Menu)
    (hm : s.menuAt self = some m)
    (hlen : m.num_components = m.menu_components.length)
    (hk : m.num_components < 255) (hc : c < s.objs.length) (hx : x ≠ self) :
    ∃ s1, Menu.add_component s self (some c) true = some s1 ∧ s1.menuAt x = s.menuAt x := by
  refine ⟨_, Menu.add_component_eq s self c m hm hlen hk hc, ?_⟩
  split
  · rw [State.menuAt_setMenu_ne _ _ _ _ hx, State.menuAt_with_current,
      State.menuAt_setMenu_ne _ _ _ _ hx]
  · rw [State.menuAt_setMenu_ne _ _ _ _ hx]

theorem Menu.add_menu_eq (s s1 : State) (self c : Ptr) (mc : Menu)
    (hadd : Menu.add_component s self (some c) true = some s1)
    (hmc : s1.menuAt c = some mc) :
    Menu.add_menu s self (some c) true
      = some (s1.setMenu c { mc with p_parent := some self }) := by
  unfold Menu.add_menu
  rw [hadd]
  simp only [hmc]

/-- C7: with `realloc` succeeding, `add_item`/`add_menu` of a live component
`c` on a menu with k < 255 children appends: the menu then has k+1 children,
child k is `c`, the children 0..k-1, the current index, the previous index and
the parent are unchanged; if k = 0 then `c` is the current component and its
`is_current` is true, if k > 0 the current component and every `is_current`
are unchanged; no object besides the menu and `c` changes.  `add_menu` does
the same and sets the parent of the added menu to the receiving menu. -/
theorem Menu.add_item_add_menu_append (s : State) (self c : Ptr) (m : Menu)
    (hm : s.menuAt self = some m)
    (hlen : m.num_components = m.menu_components.length)
    (hk : m.num_components < 255) (hc : c < s.objs.length) :
    (∃ s' m', Menu.add_item s self (some c) true = some s' ∧
      s'.menuAt self = some m' ∧
      m'.num_components = m.num_components + 1 ∧
      m'.menu_components.length = m.num_components + 1 ∧
      m'.menu_components[m.num_components]? = some (some c) ∧
      (∀ i, i < m.num_components → m'.menu_components[i]? = m.menu_components[i]?) ∧
      m'.current_component_num = m.current_component_num ∧
      m'.previous_component_num = m.previous_component_num ∧
      m'.p_parent = m.p_parent ∧
      (m.num_components = 0 →
        m'.p_current_component = some c ∧ s'.is_current c = some true ∧
        ∀ x, x ≠ c → s'.is_current x = s.is_current x) ∧
      (m.num_components ≠ 0 →
        m'.p_current_component = m.p_current_component ∧
        ∀ x, s'.is_current x = s.is_current x) ∧
      (∀ x, x ≠ self → x ≠ c → s'.objs[x]? = s.objs[x]?)) ∧
    (∀ mc, s.menuAt c = some mc → c ≠ self →
      ∃ s1 s', Menu.add_item s self (some c) true = some s1 ∧
        Menu.add_menu s self (some c) true = some s' ∧
        s'.menuAt c = some { mc with p_parent := some self } ∧
        s'.menuAt self = s1.menuAt self ∧
        (∀ x, s'.is_current x = s1.is_current x) ∧
        (∀ x, x ≠ c → s'.objs[x]? = s1.objs[x]?)) := by
  have hadd := Menu.add_component_eq s self c m hm hlen hk hc
  have hget : (m.menu_components ++ [some c])[m.num_components]? = some (some c) := by
    rw [hlen]; exact List.getElem?_concat_length _ _
  have hpre : ∀ i, i < m.num_components →
      (m.menu_components ++ [some c])[i]? = m.menu_components[i]? := by
    intro i hi
    exact List.getElem?_append_left (by omega)
  have hcl : (s.is_current c).map (fun _ => true) = some true := by
    unfold State.is_current
    rw [List.getElem?_eq_getElem hc]; rfl
  refine ⟨?_, ?_⟩
  · by_cases h0 : m.num_components = 0
    · rw [if_pos h0] at hadd
      have hmid : ((s.setMenu self
          { m with menu_components := m.menu_components ++ [some c],
                   p_current_component := some c }).mapAt c
          (MenuComponent.with_current true)).menuAt self
          = some { m with menu_components := m.menu_components ++ [some c],
                          p_current_component := some c } := by
        rw [State.menuAt_with_current]
        exact State.menuAt_setMenu_self _ _ _ _ hm
      have hself := State.menuAt_setMenu_self _ self _
        { m with menu_components := m.menu_components ++ [some c],
                 p_current_component := some c,
                 num_components := m.num_components + 1 } hmid
      refine ⟨_, _, hadd, hself, rfl, by simp [hlen], hget, hpre, rfl, rfl, rfl,
        fun _ => ⟨rfl, ?_, ?_⟩, fun h => absurd h0 h, ?_⟩
      · rw [State.is_current_setMenu, State.is_current_with_current,
          State.is_current_setMenu, if_pos rfl]
        exact hcl
      · intro x hx
        rw [State.is_current_setMenu, State.is_current_with_current,
          State.is_current_setMenu, if_neg hx]
      · intro x hxs hxc
        rw [State.objs_setMenu_ne _ _ _ _ hxs, State.objs_mapAt, if_neg hxc,
          State.objs_setMenu_ne _ _ _ _ hxs]
    · rw [if_neg h0] at hadd
      have hself := State.menuAt_setMenu_self s self m
        { m with menu_components := m.menu_components ++ [some c],
                 num_components := m.num_components + 1 } hm
      exact ⟨_, _, hadd, hself, rfl, by simp [hlen], hget, hpre, rfl, rfl, rfl,
        fun h => absurd h h0,
        fun _ => ⟨rfl, fun x => State.is_current_setMenu _ _ _ _⟩,
        fun x hxs _ => State.objs_setMenu_ne _ _ _ _ hxs⟩
  · intro mc hmc hcs
    obtain ⟨s1, hs1, hs1c⟩ := Menu.add_component_menuAt_ne s self c c m hm hlen hk hc hcs
    rw [hmc] at hs1c
    exact ⟨s1, s1.setMenu c { mc with p_parent := some self }, hs1,
      Menu.add_menu_eq s s1 self c mc hs1 hs1c,
      State.menuAt_setMenu_self _ _ _ _ hs1c,
      State.menuAt_setMenu_ne _ _ _ _ (fun e => hcs e.symm),
      fun x => State.is_current_setMenu _ _ _ _,
      fun x hx => State.objs_setMenu_ne _ _ _ _ hx⟩

theorem MenuComponent.set_current_sys {s s' : State} {p : Option Ptr} {b : Bool}
    (h : MenuComponent.set_current s p b = some s') :
    s'.fired = s.fired ∧ s'.p_root_menu = s.p_root_menu ∧ s'.p_curr_menu = s.p_curr_menu := by
  unfold MenuComponent.set_current at h
  cases p with
  | none => simp at h
  | some a =>
    cases ho : s.objs[a]? with
    | none => simp [ho] at h
    | some c =>
      simp only [ho, Option.some.injEq] at h
      subst h
      simp [State.store]

theorem State.setMenu_sys (s : State) (a : Ptr) (m : Menu) :
    (s.setMenu a m).fired = s.fired ∧ (s.setMenu a m).p_root_menu = s.p_root_menu ∧
    (s.setMenu a m).p_curr_menu = s.p_curr_menu := by
  rw [State.setMenu_eq]; simp

theorem Menu.move_sys {s s' : State} {self : Ptr} {idx : Nat} {r : Bool}
    (h : Menu.move s self idx = some (s', r)) :
    s'.fired = s.fired ∧ s'.p_root_menu = s.p_root_menu ∧ s'.p_curr_menu = s.p_curr_menu := by
  unfold Menu.move at h
  cases hm : s.menuAt self with
  | none => simp [hm] at h
  | some m =>
    simp only [hm] at h
    cases hi : m.menu_components[idx]? with
    | none => simp [hi] at h
    | some pc =>
      simp only [hi] at h
      cases h3 : MenuComponent.set_current
          (s.setMenu self { m with current_component_num := idx,
                                   p_current_component := pc }) pc true with
      | none => simp [h3] at h
      | some s3 =>
        simp only [h3] at h
        cases hp : m.menu_components[m.previous_component_num]? with
        | none => simp [hp] at h
        | some pp =>
          simp only [hp] at h
          cases h4 : MenuComponent.set_current s3 pp false with
          | none => simp [h4] at h
          | some s4 =>
            simp only [h4, Option.some.injEq, Prod.mk.injEq] at h
            obtain ⟨e1, e2, e3⟩ := MenuComponent.set_current_sys h3
            obtain ⟨f1, f2, f3⟩ := MenuComponent.set_current_sys h4
            obtain ⟨g1, g2, g3⟩ := State.setMenu_sys s self
              { m with current_component_num := idx, p_current_component := pc }
            rw [← h.1]
            exact ⟨by rw [f1, e1, g1], by rw [f2, e2, g2], by rw [f3, e3, g3]⟩

theorem Menu.next_sys {s s' : State} {self : Ptr} {loop r : Bool}
    (h : Menu.next s self loop = some (s', r)) :
    s'.fired = s.fired ∧ s'.p_root_menu = s.p_root_menu ∧ s'.p_curr_menu = s.p_curr_menu := by
  unfold Menu.next at h
  cases hm : s.menuAt self with
  | none => simp [hm] at h
  | some m =>
    simp only [hm] at h
    obtain ⟨g1, g2, g3⟩ := State.setMenu_sys s self
      { m with previous_component_num := m.current_component_num }
    split at h
    · simp only [Option.some.injEq, Prod.mk.injEq] at h
      rw [← h.1]; exact ⟨g1, g2, g3⟩
    · split at h
      · obtain ⟨e1, e2, e3⟩ := Menu.move_sys h
        exact ⟨by rw [e1, g1], by rw [e2, g2], by rw [e3, g3]⟩
      · split at h
        · obtain ⟨e1, e2, e3⟩ := Menu.move_sys h
          exact ⟨by rw [e1, g1], by rw [e2, g2], by rw [e3, g3]⟩
        · simp only [Option.some.injEq, Prod.mk.injEq] at h
          rw [← h.1]; exact ⟨g1, g2, g3⟩

theorem Menu.prev_sys {s s' : State} {self : Ptr} {loop r : Bool}
    (h : Menu.prev s self loop = some (s', r)) :
    s'.fired = s.fired ∧ s'.p_root_menu = s.p_root_menu ∧ s'.p_curr_menu = s.p_curr_menu := by
  unfold Menu.prev at h
  cases hm : s.menuAt self with
  | none => simp [hm] at h
  | some m =>
    simp only [hm] at h
    obtain ⟨g1, g2, g3⟩ := State.setMenu_sys s self
      { m with previous_component_num := m.current_component_num }
    split at h
    · simp only [Option.some.injEq, Prod.mk.injEq] at h
      rw [← h.1]; exact ⟨g1, g2, g3⟩
    · split at h
      · obtain ⟨e1, e2, e3⟩ := Menu.move_sys h
        exact ⟨by rw [e1, g1], by rw [e2, g2], by rw [e3, g3]⟩
      · split at h
        · obtain ⟨e1, e2, e3⟩ := Menu.move_sys h
          exact ⟨by rw [e1, g1], by rw [e2, g2], by rw [e3, g3]⟩
        · simp only [Option.some.injEq, Prod.mk.injEq] at h
          rw [← h.1]; exact ⟨g1, g2, g3⟩

theorem MenuComponent.virtual_next_sys {s s' : State} {self : Ptr} {loop r : Bool}
    (h : MenuComponent.next s self loop = some (s', r)) :
    s'.fired = s.fired ∧ s'.p_root_menu = s.p_root_menu ∧ s'.p_curr_menu = s.p_curr_menu := by
  unfold MenuComponent.next at h
  cases ho : s.objs[self]? with
  | none => simp [ho] at h
  | some c =>
    simp only [ho] at h
    split at h
    all_goals first
      | exact Menu.next_sys h
      | (simp only [Option.some.injEq, Prod.mk.injEq] at h
         rw [← h.1]; simp [State.store])
      | (split at h
         · simp at h
         · simp only [Option.some.injEq, Prod.mk.injEq] at h
           rw [← h.1]; simp [State.store])

theorem MenuComponent.virtual_prev_sys {s s' : State} {self : Ptr} {loop r : Bool}
    (h : MenuComponent.prev s self loop = some (s', r)) :
    s'.fired = s.fired ∧ s'.p_root_menu = s.p_root_menu ∧ s'.p_curr_menu = s.p_curr_menu := by
  unfold MenuComponent.prev at h
  cases ho : s.objs[self]? with
  | none => simp [ho] at h
  | some c =>
    simp only [ho] at h
    split at h
    all_goals first
      | exact Menu.prev_sys h
      | (simp only [Option.some.injEq, Prod.mk.injEq] at h
         rw [← h.1]; simp [State.store])
      | (split at h
         · simp at h
         · simp only [Option.some.injEq, Prod.mk.injEq] at h
           rw [← h.1]; simp [State.store])

/-- The state change of `next`/`prev` on a component that is not a `Menu`
stays inside the fields of its own class. -/
theorem MenuComponent.next_prev_frame (s s' : State) (c : Ptr) (comp : MenuComponent)
    (loop r : Bool) (hcomp : s.objs[c]? = some comp) (hk : ∀ mc, comp.kind ≠ .menu mc)
    (h : MenuComponent.next s c loop = some (s', r)
      ∨ MenuComponent.prev s c loop = some (s', r)) :
    ∃ k, (∀ mc, k ≠ .menu mc) ∧ s' = s.store c { comp with kind := k } := by
  have hself : s = s.store c { comp with kind := comp.kind } := by
    cases s with
    | mk objs fired root curr =>
      simp only [State.store, State.mk.injEq, and_true]
      apply List.ext_getElem?
      intro x
      rw [List.getElem?_set]
      by_cases hx : c = x
      · subst hx
        simp only at hcomp
        simp [hcomp, (List.getElem?_eq_some.mp hcomp).1]
      · simp [hx]
  unfold MenuComponent.next MenuComponent.prev at h
  simp only [hcomp] at h
  cases hkind : comp.kind with
  | menu mc => exact absurd hkind (hk mc)
  | menuItem =>
    simp only [hkind, Option.some.injEq, Prod.mk.injEq, or_self] at h
    exact ⟨.menuItem, by simp, by rw [← h.1, ← hkind]; exact hself⟩
  | backMenuItem ms =>
    simp only [hkind, Option.some.injEq, Prod.mk.injEq, or_self] at h
    exact ⟨.backMenuItem ms, by simp, by rw [← h.1, ← hkind]; exact hself⟩
  | numericDisplayMenuItem v =>
    simp only [hkind, Option.some.injEq, Prod.mk.injEq, or_self] at h
    exact ⟨.numericDisplayMenuItem v, by simp, by rw [← h.1, ← hkind]; exact hself⟩
  | toggleMenuItem st =>
    simp only [hkind, Option.some.injEq, Prod.mk.injEq, or_self] at h
    exact ⟨.toggleMenuItem st, by simp, by rw [← h.1, ← hkind]; exact hself⟩
  | numericMenuItem n =>
    simp only [hkind, Option.some.injEq, Prod.mk.injEq] at h
    cases h with
    | inl h => exact ⟨_, by simp, h.1.symm⟩
    | inr h => exact ⟨_, by simp, h.1.symm⟩
  | textEditMenuItem t =>
    simp only [hkind] at h
    cases h with
    | inl h =>
      cases ht : t.next loop with
      | none => simp [ht] at h
      | some t1 =>
        simp only [ht, Option.some.injEq, Prod.mk.injEq] at h
        exact ⟨_, by simp, h.1.symm⟩
    | inr h =>
      cases ht : t.prev loop with
      | none => simp [ht] at h
      | some t1 =>
        simp only [ht, Option.some.injEq, Prod.mk.injEq] at h
        exact ⟨_, by simp, h.1.symm⟩

theorem MenuSystem.next_eq (s : State) (a c : Ptr) (m : Menu) (comp : MenuComponent)
    (loop : Bool) (ha : s.p_curr_menu = some a) (hm : s.menuAt a = some m)
    (hc : m.p_current_component = some c) (hcomp : s.objs[c]? = some comp) :
    MenuSystem.next s loop
      = if comp.has_focus then MenuComponent.next s c loop else Menu.next s a loop := by
  unfold MenuSystem.next
  simp only [ha, hm, hc, hcomp]

theorem MenuSystem.prev_eq (s : State) (a c : Ptr) (m : Menu) (comp : MenuComponent)
    (loop : Bool) (ha : s.p_curr_menu = some a) (hm : s.menuAt a = some m)
    (hc : m.p_current_component = some c) (hcomp : s.objs[c]? = some comp) :
    MenuSystem.prev s loop
      = if comp.has_focus then MenuComponent.prev s c loop else Menu.prev s a loop := by
  unfold MenuSystem.prev
  simp only [ha, hm, hc, hcomp]

/-- C8: when the current component of the active menu has focus,
`MenuSystem::next`/`prev` is the call of `next`/`prev` on that component, and
for a component that is not a `Menu` the only change is inside the fields of
the class of that component (for a numeric item the stepped value): the
fields of the active menu, every `is_current` and every other object are
unchanged; when it has no focus the call is `Menu::next`/`prev` on the active
menu; in both cases the active menu and the root pointer are unchanged. -/
theorem MenuSystem.next_prev_routing (s : State) (a c : Ptr) (m : Menu)
    (comp : MenuComponent) (loop : Bool)
    (ha : s.p_curr_menu = some a) (hm : s.menuAt a = some m)
    (hc : m.p_current_component = some c) (hcomp : s.objs[c]? = some comp) :
    (comp.has_focus = true →
      MenuSystem.next s loop = MenuComponent.next s c loop ∧
      MenuSystem.prev s loop = MenuComponent.prev s c loop ∧
      (∀ n, comp.kind = .numericMenuItem n →
        MenuSystem.next s loop
          = some (s.store c { comp with kind := .numericMenuItem (n.next loop) }, true) ∧
        MenuSystem.prev s loop
          = some (s.store c { comp with kind := .numericMenuItem (n.prev loop) }, true)) ∧
      ((∀ mc, comp.kind ≠ .menu mc) → ∀ s' r,
        (MenuSystem.next s loop = some (s', r) ∨ MenuSystem.prev s loop = some (s', r)) →
        s'.menuAt a = some m ∧ (∀ x, s'.is_current x = s.is_current x) ∧
        (∀ x, x ≠ c → s'.objs[x]? = s.objs[x]?) ∧ s'.fired = s.fired)) ∧
    (comp.has_focus = false →
      MenuSystem.next s loop = Menu.next s a loop ∧
      MenuSystem.prev s loop = Menu.prev s a loop) ∧
    (∀ s' r,
      (MenuSystem.next s loop = some (s', r) ∨ MenuSystem.prev s loop = some (s', r)) →
      s'.p_curr_menu = s.p_curr_menu ∧ s'.p_root_menu = s.p_root_menu) := by
  have hnext := MenuSystem.next_eq s a c m comp loop ha hm hc hcomp
  have hprev := MenuSystem.prev_eq s a c m comp loop ha hm hc hcomp
  refine ⟨?_, ?_, ?_⟩
  · intro hf
    rw [hf, if_pos rfl] at hnext hprev
    refine ⟨hnext, hprev, ?_, ?_⟩
    · intro n hn
      rw [hnext, hprev]
      unfold MenuComponent.next MenuComponent.prev
      simp only [hcomp, hn, and_self]
    · intro hk s' r h
      rw [hnext, hprev] at h
      obtain ⟨k, hk', hs'⟩ := MenuComponent.next_prev_frame s s' c comp loop r hcomp hk h
      have hca : c ≠ a := by
        intro e
        subst e
        unfold State.menuAt at hm
        rw [hcomp] at hm
        cases hkind : comp.kind with
        | menu mc => exact hk mc hkind
        | _ => simp [hkind] at hm
      have hlt : c < s.objs.length := (List.getElem?_eq_some.mp hcomp).1
      subst hs'
      refine ⟨?_, ?_, ?_, rfl⟩
      · unfold State.menuAt State.store
        simp only
        rw [List.getElem?_set_ne hca]
        exact hm
      · intro x
        unfold State.is_current State.store
        simp only
        rw [List.getElem?_set]
        by_cases hx : c = x
        · subst hx; simp [hlt, hcomp]
        · simp [hx]
      · intro x hx
        unfold State.store
        simp only
        rw [List.getElem?_set_ne (fun e => hx e.symm)]
  · intro hf
    rw [hf] at hnext hprev
    exact ⟨hnext, hprev⟩
  · intro s' r h
    rw [hnext, hprev] at h
    cases hfoc : comp.has_focus with
    | true =>
      simp only [hfoc, if_true] at h
      cases h with
      | inl h => exact ⟨(MenuComponent.virtual_next_sys h).2.2, (MenuComponent.virtual_next_sys h).2.1⟩
      | inr h => exact ⟨(MenuComponent.virtual_prev_sys h).2.2, (MenuComponent.virtual_prev_sys h).2.1⟩
    | false =>
      simp only [hfoc] at h
      cases h with
      | inl h => exact ⟨(Menu.next_sys h).2.2, (Menu.next_sys h).2.1⟩
      | inr h => exact ⟨(Menu.prev_sys h).2.2, (Menu.prev_sys h).2.1⟩

/-- C10: `MenuSystem::back` on a system whose active menu is not the root
makes the parent of the active menu the active menu and returns true; on a
system whose active menu is the root it returns false and leaves the state
as it is; in both cases every object of the heap is unchanged. -/
theorem MenuSystem.back_to_parent (s : State) (a : Ptr) (m : Menu)
    (ha : s.p_curr_menu = some a) (hm : s.menuAt a = some m) :
    (a ≠ s.p_root_menu →
      MenuSystem.back s = some ({ s with p_curr_menu := m.p_parent }, true)) ∧
    (a = s.p_root_menu → MenuSystem.back s = some (s, false)) ∧
    (∀ s' r, MenuSystem.back s = some (s', r) →
      s'.objs = s.objs ∧ s'.fired = s.fired ∧ s'.p_root_menu = s.p_root_menu) := by
  refine ⟨?_, ?_, ?_⟩
  · intro hne
    unfold MenuSystem.back
    simp [ha, hm, hne]
  · intro he
    unfold MenuSystem.back
    simp [ha, he]
  · intro s' r h
    unfold MenuSystem.back at h
    simp only [ha, hm] at h
    split at h
    · simp only [Option.some.injEq, Prod.mk.injEq] at h
      rw [← h.1]; simp
    · simp only [Option.some.injEq, Prod.mk.injEq] at h
      rw [← h.1]; simp

theorem foldlM_option_inv {α : Type} (f : State → α → Option State) (P : State → Prop)
    (hf : ∀ st i st', f st i = some st' → P st → P st') :
    ∀ (l : List α) (s s' : State), l.foldlM f s = some s' → P s → P s' := by
  intro l
  induction l with
  | nil =>
    intro s s' h hp
    simp only [List.foldlM_nil, Option.pure_def, Option.some.injEq] at h
    rw [← h]; exact hp
  | cons i l ih =>
    intro s s' h hp
    simp only [List.foldlM_cons, Option.bind_eq_bind] at h
    cases h1 : f s i with
    | none => simp [h1] at h
    | some s1 =>
      simp only [h1, Option.some_bind] at h
      exact ih s1 s' h (hf s i s1 h1 hp)

theorem MenuComponent.virtual_reset_sys (menu_reset : State → Ptr → Option State) (x : Option Ptr)
    (y : Ptr)
    (hmr : ∀ st c st', menu_reset st c = some st' →
      (st.p_curr_menu = x ∧ st.p_root_menu = y) →
      (st'.p_curr_menu = x ∧ st'.p_root_menu = y))
    (st : State) (p : Option (Option Ptr)) (st' : State)
    (h : MenuComponent.reset menu_reset st p = some st')
    (hp : st.p_curr_menu = x ∧ st.p_root_menu = y) :
    st'.p_curr_menu = x ∧ st'.p_root_menu = y := by
  unfold MenuComponent.reset at h
  split at h
  · rename_i c
    cases ho : st.objs[c]? with
    | none => simp [ho] at h
    | some comp =>
      simp only [ho] at h
      split at h
      · exact hmr _ _ _ h hp
      · simp only [Option.some.injEq] at h
        rw [← h]; exact hp
  · simp at h

theorem Menu.reset_sys (fuel : Nat) :
    ∀ (s s' : State) (self : Ptr), Menu.reset fuel s self = some s' →
      s'.p_curr_menu = s.p_curr_menu ∧ s'.p_root_menu = s.p_root_menu := by
  induction fuel with
  | zero => intro s s' self h; simp [Menu.reset] at h
  | succ fuel ih =>
    intro s s' self h
    unfold Menu.reset at h
    cases hm : s.menuAt self with
    | none => simp [hm] at h
    | some m =>
      simp only [hm] at h
      cases hl : (List.range m.num_components).foldlM
          (fun st i => MenuComponent.reset (Menu.reset fuel) st m.menu_components[i]?) s with
      | none => simp [hl] at h
      | some s1 =>
        simp only [hl] at h
        have h1 : s1.p_curr_menu = s.p_curr_menu ∧ s1.p_root_menu = s.p_root_menu := by
          refine foldlM_option_inv _
            (fun st => st.p_curr_menu = s.p_curr_menu ∧ st.p_root_menu = s.p_root_menu)
            ?_ _ s s1 hl ⟨rfl, rfl⟩
          intro st i st' hstep hp
          refine MenuComponent.virtual_reset_sys _ _ _ ?_ st _ st' hstep hp
          intro t c t' ht htp
          obtain ⟨e1, e2⟩ := ih t t' c ht
          exact ⟨by rw [e1]; exact htp.1, by rw [e2]; exact htp.2⟩
        cases hm1 : s1.menuAt self with
        | none => simp [hm1] at h
        | some m1 =>
          simp only [hm1] at h
          cases h2 : MenuComponent.set_current s1 m1.p_current_component false with
          | none => simp [h2] at h
          | some s2 =>
            simp only [h2] at h
            obtain ⟨_, e2, e3⟩ := MenuComponent.set_current_sys h2
            split at h
            · cases h0 : m1.menu_components[0]? with
              | none => simp [h0] at h
              | some p0 =>
                simp only [h0] at h
                obtain ⟨_, f2, f3⟩ := MenuComponent.set_current_sys h
                obtain ⟨_, g2, g3⟩ := State.setMenu_sys s2 self
                  { m1 with previous_component_num := 0, current_component_num := 0,
                            p_current_component := p0 }
                exact ⟨by rw [f3, g3, e3, h1.1], by rw [f2, g2, e2, h1.2]⟩
            · simp [MenuComponent.set_current] at h

theorem MenuSystem.reset_curr {fuel : Nat} {s s' : State}
    (h : MenuSystem.reset fuel s = some s') :
    s'.p_curr_menu = some s.p_root_menu ∧ s'.p_root_menu = s.p_root_menu := by
  unfold MenuSystem.reset at h
  exact Menu.reset_sys fuel _ s' _ h

theorem MenuSystem.back_root {s s' : State} {r : Bool}
    (h : MenuSystem.back s = some (s', r)) : s'.p_root_menu = s.p_root_menu := by
  unfold MenuSystem.back at h
  split at h
  · cases ha : s.p_curr_menu with
    | none => simp [ha] at h
    | some a =>
      simp only [ha] at h
      cases hm : s.menuAt a with
      | none => simp [hm] at h
      | some m =>
        simp only [hm, Option.some.injEq, Prod.mk.injEq] at h
        rw [← h.1]
  · simp only [Option.some.injEq, Prod.mk.injEq] at h
    rw [← h.1]

theorem MenuComponent.base_select_sys (s : State) (self : Ptr) (c : MenuComponent) :
    (MenuComponent.base_select s self c).p_root_menu = s.p_root_menu ∧
    (MenuComponent.base_select s self c).p_curr_menu = s.p_curr_menu ∧
    (MenuComponent.base_select s self c).objs = s.objs := by
  unfold MenuComponent.base_select
  split <;> simp

theorem MenuComponent.select_root {s s' : State} {self : Ptr} {r : Option Ptr}
    (h : MenuComponent.select s self = some (s', r)) : s'.p_root_menu = s.p_root_menu := by
  unfold MenuComponent.select at h
  cases ho : s.objs[self]? with
  | none => simp [ho] at h
  | some c =>
    simp only [ho] at h
    split at h
    · simp only [Option.some.injEq, Prod.mk.injEq] at h
      rw [← h.1]; exact (MenuComponent.base_select_sys _ _ _).1
    · simp only [Option.some.injEq, Prod.mk.injEq] at h
      rw [← h.1]; exact (MenuComponent.base_select_sys _ _ _).1
    · split at h
      · cases hb : MenuSystem.back (MenuComponent.base_select s self c) with
        | none => simp [hb] at h
        | some p =>
          obtain ⟨s2, b⟩ := p
          simp only [hb, Option.some.injEq, Prod.mk.injEq] at h
          rw [← h.1, MenuSystem.back_root hb]
          exact (MenuComponent.base_select_sys _ _ _).1
      · simp only [Option.some.injEq, Prod.mk.injEq] at h
        rw [← h.1]; exact (MenuComponent.base_select_sys _ _ _).1
    · simp only [Option.some.injEq, Prod.mk.injEq] at h
      rw [← h.1]
      split
      · rw [(MenuComponent.base_select_sys _ _ _).1]; rfl
      · rfl
    · simp only [Option.some.injEq, Prod.mk.injEq] at h
      rw [← h.1, (MenuComponent.base_select_sys _ _ _).1]; rfl
    · simp only [Option.some.injEq, Prod.mk.injEq] at h
      rw [← h.1]
      split
      · rw [(MenuComponent.base_select_sys _ _ _).1]; rfl
      · rfl
    · simp only [Option.some.injEq, Prod.mk.injEq] at h
      rw [← h.1]; exact (MenuComponent.base_select_sys _ _ _).1

theorem Menu.activate_root {s s' : State} {self : Ptr} {r : Option Ptr}
    (h : Menu.activate s self = some (s', r)) : s'.p_root_menu = s.p_root_menu := by
  unfold Menu.activate at h
  cases hm : s.menuAt self with
  | none => simp [hm] at h
  | some m =>
    simp only [hm] at h
    split at h
    · simp only [Option.some.injEq, Prod.mk.injEq] at h
      rw [← h.1]
    · split at h
      · simp at h
      · simp only [Option.some.injEq, Prod.mk.injEq] at h
        rw [← h.1]
      · exact MenuComponent.select_root h

theorem State.one_item_built :
    Menu.add_item (MenuSystem.new.alloc (MenuItem.new false)).1 0 (some 1) true
      = some State.one_item := by
  decide

theorem State.two_items_late_built :
    ((Menu.add_item ((MenuSystem.new.alloc (MenuItem.new false)).1.alloc
        (MenuItem.new false)).1 0 (some 1) true).bind
      (fun s => (MenuSystem.next s true).bind
        (fun r => Menu.add_item r.1 0 (some 2) true))) = some State.two_items_late := by
  decide

theorem State.scenario_built :
    ((((Menu.add_item ((((MenuSystem.new.alloc (MenuItem.new false)).1.alloc
        (Menu.new false)).1.alloc (MenuComponent.new false (.backMenuItem true))).1.alloc
        (MenuItem.new true)).1 2 (some 3) true).bind
      (fun s => Menu.add_item s 2 (some 4) true)).bind
      (fun s => Menu.add_item s 0 (some 1) true)).bind
      (fun s => Menu.add_menu s 0 (some 2) true)) = some (State.scenario 0 0 0) ∧
    MenuSystem.next (State.scenario 0 0 0) false = some (State.scenario 1 0 0, true) := by
  decide

/-- C1, at the failing input: on a menu whose only child is current,
`next(true)` (which `MenuSystem::next` passes on to the menu) returns true,
leaves the current index at 0 and leaves no child with `is_current` true. -/
theorem Menu.next_loop_single_child_no_current :
    MenuSystem.next State.one_item true = Menu.next State.one_item 0 true ∧
    Menu.children_current State.one_item 0 = some [some true] ∧
    (Menu.next State.one_item 0 true).map
        (fun r => (r.2, (r.1.menuAt 0).map (fun m => m.current_component_num),
          Menu.children_current r.1 0))
      = some (true, some 0, some [some false]) := by
  decide

/-- C6, at the failing input: on a menu whose only child is current,
`prev(true)` (which `MenuSystem::prev` passes on to the menu) returns true
with current index 0 and previous index 0, and the child at the current index
has `is_current` false afterwards. -/
theorem Menu.prev_loop_single_child_not_current :
    MenuSystem.prev State.one_item true = Menu.prev State.one_item 0 true ∧
    Menu.children_current State.one_item 0 = some [some true] ∧
    (Menu.prev State.one_item 0 true).map
        (fun r => (r.2, (r.1.menuAt 0).map (fun m =>
            (m.current_component_num, m.previous_component_num, m.num_components)),
          Menu.children_current r.1 0))
      = some (true, some (0, 0, 1), some [some false]) := by
  decide

/-- C5, refuted as stated: after `add_item(a)`, `next(true)`, `add_item(b)`
the menu has two children, current index 0 and no child with `is_current`
true; `next(false)` followed by `prev(false)` brings the current index back
to 0 and leaves `a` with `is_current` true, which it did not have before. -/
theorem Menu.next_then_prev_sets_stale_flag :
    State.two_items_late.menuAt 0 = some (Menu.two 0 0) ∧
    Menu.children_current State.two_items_late 0 = some [some false, some false] ∧
    ((Menu.next State.two_items_late 0 false).bind
        (fun r => Menu.prev r.1 0 false)).map
        (fun r => (r.2, (r.1.menuAt 0).map (fun m => m.current_component_num),
          Menu.children_current r.1 0))
      = some (true, some 0, some [some true, some false]) := by
  decide

/-- C3, refuted as stated: on a menu with one child, at index 0 (the first
and last index), `next(false)` and `prev(false)` leave the current index at 0
and return false. -/
theorem Menu.next_prev_boundary_returns_false :
    State.one_item.menuAt 0 = some Menu.one ∧ Menu.one.num_components = 1 ∧
    (Menu.next State.one_item 0 false).map
        (fun r => (r.2, (r.1.menuAt 0).map (fun m => m.current_component_num)))
      = some (false, some 0) ∧
    (Menu.prev State.one_item 0 false).map
        (fun r => (r.2, (r.1.menuAt 0).map (fun m => m.current_component_num)))
      = some (false, some 0) := by
  decide

theorem MenuComponent.select_menu_result {s s1 : State} {c b : Ptr}
    (h : MenuComponent.select s c = some (s1, some b)) :
    b = c ∧ ∃ comp mc, s.objs[c]? = some comp ∧ comp.kind = .menu mc ∧
      s1 = MenuComponent.base_select s c comp := by
  unfold MenuComponent.select at h
  cases ho : s.objs[c]? with
  | none => simp [ho] at h
  | some comp =>
    simp only [ho] at h
    split at h
    case h_7 mc hk =>
      simp only [Option.some.injEq, Prod.mk.injEq] at h
      exact ⟨h.2.symm, comp, mc, rfl, hk, h.1.symm⟩
    case h_3 =>
      split at h
      · split at h
        · simp at h
        · simp at h
      · simp at h
    all_goals simp at h

theorem MenuComponent.select_leaf (s : State) (c : Ptr) (comp : MenuComponent)
    (hcomp : s.objs[c]? = some comp)
    (hk : comp.kind = .menuItem ∨ (∃ n, comp.kind = .numericMenuItem n) ∨
      (∃ v, comp.kind = .numericDisplayMenuItem v) ∨ (∃ b, comp.kind = .toggleMenuItem b) ∨
      (∃ t, comp.kind = .textEditMenuItem t)) :
    ∃ s1, MenuComponent.select s c = some (s1, none) ∧ s1.p_curr_menu = s.p_curr_menu := by
  unfold MenuComponent.select
  simp only [hcomp]
  rcases hk with h | ⟨n, h⟩ | ⟨v, h⟩ | ⟨b, h⟩ | ⟨t, h⟩
  · simp only [h]
    exact ⟨_, rfl, (MenuComponent.base_select_sys _ _ _).2.1⟩
  · simp only [h]
    refine ⟨_, rfl, ?_⟩
    split
    · rw [(MenuComponent.base_select_sys _ _ _).2.1]; rfl
    · rfl
  · simp only [h]
    exact ⟨_, rfl, (MenuComponent.base_select_sys _ _ _).2.1⟩
  · simp only [h]
    exact ⟨_, rfl, by rw [(MenuComponent.base_select_sys _ _ _).2.1]; rfl⟩
  · simp only [h]
    refine ⟨_, rfl, ?_⟩
    split
    · rw [(MenuComponent.base_select_sys _ _ _).2.1]; rfl
    · rfl

/-- What `MenuSystem::select` does with the result of `Menu::activate`:
`Menu::activate` on the active menu yields null for an empty menu and
otherwise the result of `select()` on the child at the current index, which
is a menu exactly when that child is a `Menu` (then it is that child, and the
call only ran its callback).  `MenuSystem::select(reset)`: a returned menu
becomes the active menu for both values of `reset`; on null with `reset`
true the call is `MenuSystem::reset` on the state the child left, after which
the active menu is the root; on null with `reset` false the state is the one
the child left, whose active menu is unchanged for plain, numeric,
numeric-display, toggle and text-edit items. -/
theorem MenuSystem.select_by_activate_result (fuel : Nat) (s : State) (a : Ptr) (m : Menu)
    (ha : s.p_curr_menu = some a) (hm : s.menuAt a = some m) :
    (m.num_components = 0 → Menu.activate s a = some (s, none)) ∧
    (∀ c, m.num_components ≠ 0 →
      m.menu_components[m.current_component_num]? = some (some c) →
      Menu.activate s a = MenuComponent.select s c ∧
      (∀ comp mc, s.objs[c]? = some comp → comp.kind = .menu mc →
        ∀ reset, MenuSystem.select fuel s reset
          = some { MenuComponent.base_select s c comp with p_curr_menu := some c }) ∧
      (∀ s1 b, Menu.activate s a = some (s1, some b) →
        b = c ∧ ∃ comp mc, s.objs[c]? = some comp ∧ comp.kind = .menu mc) ∧
      (∀ comp, s.objs[c]? = some comp →
        (comp.kind = .menuItem ∨ (∃ n, comp.kind = .numericMenuItem n) ∨
          (∃ v, comp.kind = .numericDisplayMenuItem v) ∨
          (∃ b, comp.kind = .toggleMenuItem b) ∨
          (∃ t, comp.kind = .textEditMenuItem t)) →
        ∃ s1, MenuSystem.select fuel s false = some s1 ∧
          s1.p_curr_menu = s.p_curr_menu)) ∧
    (∀ s1 b reset, Menu.activate s a = some (s1, some b) →
      MenuSystem.select fuel s reset = some { s1 with p_curr_menu := some b }) ∧
    (∀ s1, Menu.activate s a = some (s1, none) →
      MenuSystem.select fuel s false = some s1 ∧
      MenuSystem.select fuel s true = MenuSystem.reset fuel s1 ∧
      ∀ s', MenuSystem.select fuel s true = some s' →
        s'.p_curr_menu = some s.p_root_menu) := by
  have hsome : ∀ s1 b reset, Menu.activate s a = some (s1, some b) →
      MenuSystem.select fuel s reset = some { s1 with p_curr_menu := some b } := by
    intro s1 b reset h
    unfold MenuSystem.select
    simp only [ha, h]
  have hnone : ∀ s1 reset, Menu.activate s a = some (s1, none) →
      MenuSystem.select fuel s reset
        = if reset then MenuSystem.reset fuel s1 else some s1 := by
    intro s1 reset h
    unfold MenuSystem.select
    simp only [ha, h]
  refine ⟨?_, ?_, hsome, ?_⟩
  · intro h0
    unfold Menu.activate
    simp [hm, h0]
  · intro c hn hc
    have hact : Menu.activate s a = MenuComponent.select s c := by
      unfold Menu.activate
      simp only [hm, hn, if_false, hc]
    refine ⟨hact, ?_, ?_, ?_⟩
    · intro comp mc hcomp hk reset
      refine hsome _ c reset ?_
      rw [hact]
      unfold MenuComponent.select
      simp only [hcomp, hk]
    · intro s1 b h
      rw [hact] at h
      obtain ⟨e, comp, mc, h1, h2, _⟩ := MenuComponent.select_menu_result h
      exact ⟨e, comp, mc, h1, h2⟩
    · intro comp hcomp hk
      obtain ⟨s1, h1, h2⟩ := MenuComponent.select_leaf s c comp hcomp hk
      rw [← hact] at h1
      exact ⟨s1, by rw [hnone s1 false h1]; rfl, h2⟩
  · intro s1 h
    refine ⟨by rw [hnone s1 false h]; rfl, by rw [hnone s1 true h]; rfl, ?_⟩
    intro s' hs'
    rw [hnone s1 true h] at hs'
    simp only [if_true] at hs'
    rw [(MenuSystem.reset_curr hs').1, Menu.activate_root h]

theorem MenuSystem.select_by_activate_result_witness :
    MenuSystem.select 2 (State.scenario 1 0 0) true
        = some { State.scenario 1 0 0 with p_curr_menu := some 2 } ∧
      MenuSystem.select 2 (State.scenario 0 0 2) false = some (State.scenario 0 0 0) ∧
      MenuSystem.select 2 (State.scenario 0 0 2) true = some (State.scenario 0 0 0) :=
  ⟨(MenuSystem.select_by_activate_result 2 (State.scenario 1 0 0) 0 (Menu.two 1 0)
      rfl rfl).2.2.1 (State.scenario 1 0 0) 2 true (by decide),
   ((MenuSystem.select_by_activate_result 2 (State.scenario 0 0 2) 2 Menu.scenario_B
      rfl rfl).2.2.2 (State.scenario 0 0 0) (by decide)).1,
   (((MenuSystem.select_by_activate_result 2 (State.scenario 0 0 2) 2 Menu.scenario_B
      rfl rfl).2.2.2 (State.scenario 0 0 0) (by decide)).2.1).trans (by decide)⟩

theorem MenuSystem.back_to_parent_witness :
    MenuSystem.back (State.scenario 1 0 2) = some (State.scenario 1 0 0, true) ∧
    MenuSystem.back (State.scenario 1 0 0) = some (State.scenario 1 0 0, false) :=
  ⟨(MenuSystem.back_to_parent (State.scenario 1 0 2) 2 Menu.scenario_B rfl rfl).1
      (by decide),
   (MenuSystem.back_to_parent (State.scenario 1 0 0) 0 (Menu.two 1 0) rfl rfl).2.1 rfl⟩

/-- C3, amended: `next`/`prev` return false when the menu has no child and
when the call is at the boundary with `loop` false (`next` at the last index,
`prev` at index 0), and true in every other case; a call that returns false
leaves the current index unchanged. -/
theorem Menu.next_prev_false_cases (s : State) (self : Ptr) (m : Menu) (loop : Bool)
    (hm : s.menuAt self = some m) (hwf : m.wf s) :
    (∃ s' m' r, Menu.next s self loop = some (s', r) ∧ s'.menuAt self = some m' ∧
      (r = false ↔ (m.num_components = 0 ∨
        (m.current_component_num = m.num_components - 1 ∧ loop = false))) ∧
      (r = false → m'.current_component_num = m.current_component_num)) ∧
    (∃ s' m' r, Menu.prev s self loop = some (s', r) ∧ s'.menuAt self = some m' ∧
      (r = false ↔ (m.num_components = 0 ∨
        (m.current_component_num = 0 ∧ loop = false))) ∧
      (r = false → m'.current_component_num = m.current_component_num)) := by
  by_cases hn : m.num_components = 0
  · have hself := State.menuAt_setMenu_self s self m
      { m with previous_component_num := m.current_component_num } hm
    refine ⟨⟨_, _, false, ?_, hself, by simp [hn], fun _ => rfl⟩,
      ⟨_, _, false, ?_, hself, by simp [hn], fun _ => rfl⟩⟩
    · unfold Menu.next; simp [hm, hn]
    · unfold Menu.prev; simp [hm, hn]
  · obtain ⟨s1, m1, h1, h2, _, _, _, _, h3⟩ := Menu.next_step s self m loop hm hwf hn
    obtain ⟨s2, m2, k1, k2, _, _, _, _, k3⟩ := Menu.prev_step s self m loop hm hwf hn
    refine ⟨⟨s1, m1, _, h1, h2, ?_, ?_⟩, ⟨s2, m2, _, k1, k2, ?_, ?_⟩⟩
    · cases loop <;> simp [hn]
    · intro hr
      rw [h3]
      cases loop <;> simp_all
    · cases loop <;> simp [hn]
    · intro hr
      rw [k3]
      cases loop <;> simp_all

theorem Menu.next_prev_false_cases_witness :
    ∃ s' m' r, Menu.next State.three_items 0 false = some (s', r) ∧
      s'.menuAt 0 = some m' ∧
      (r = false ↔ (Menu.three.num_components = 0 ∨
        (Menu.three.current_component_num = Menu.three.num_components - 1 ∧
          false = false))) ∧
      (r = false → m'.current_component_num = Menu.three.current_component_num) :=
  (Menu.next_prev_false_cases State.three_items 0 Menu.three false rfl (by decide)).1

theorem Menu.add_item_add_menu_append_witness :
    ∃ s', Menu.add_menu State.with_new_menu 0 (some 1) true = some s' ∧
      (s'.menuAt 1).map (fun m => m.p_parent) = some (some 0) := by
  obtain ⟨_, s', _, h, hp, _⟩ :=
    (Menu.add_item_add_menu_append State.with_new_menu 0 1
      { p_current_component := none, menu_components := [], p_parent := none,
        num_components := 0, current_component_num := 0, previous_component_num := 0 }
      rfl rfl (by decide) (by decide)).2 _ rfl (by decide)
  exact ⟨s', h, by rw [hp]; rfl⟩

theorem MenuSystem.next_prev_routing_witness :
    MenuSystem.next State.numeric_focused false
      = some (State.numeric_focused.store 1
          { has_focus := true, is_current := true, select_fn := false,
            kind := .numericMenuItem (NumericMenuItem.next
              { value := 9, min_value := 0, max_value := 10, increment := 2 } false) },
          true) :=
  (((MenuSystem.next_prev_routing State.numeric_focused 0 1 Menu.one
      { has_focus := true, is_current := true, select_fn := false,
        kind := .numericMenuItem
          { value := 9, min_value := 0, max_value := 10, increment := 2 } }
      false rfl rfl rfl rfl).1 rfl).2.2.1 _ rfl).1

theorem Menu.is_current_moved (s : State) (self : Ptr) (m : Menu) (idx : Nat)
    (pc pp x : Ptr) :
    (Menu.moved s self m idx pc pp).is_current x
      = if x = pp then (if x = pc then (s.is_current x).map (fun _ => true)
            else s.is_current x).map (fun _ => false)
        else if x = pc then (s.is_current x).map (fun _ => true) else s.is_current x := by
  unfold Menu.moved
  rw [State.is_current_with_current, State.is_current_with_current,
    State.is_current_setMenu]

theorem Menu.marks_current_entry {s : State} {m : Menu} (h : m.marks_current s)
    {i : Nat} {a : Ptr} (hi : i < m.num_components)
    (ha : m.menu_components[i]? = some (some a)) :
    s.is_current a = some (decide (i = m.current_component_num)) := by
  have := h i hi
  rw [ha] at this
  exact this

theorem Menu.marks_current_moved (s : State) (self : Ptr) (m m' : Menu) (idx : Nat)
    (pc pp : Ptr) (hwf : m.wf s) (hnd : m.menu_components.Nodup)
    (hinv : m.marks_current s) (hn : m.num_components ≠ 0)
    (hidx : m.menu_components[idx]? = some (some pc)) (hlt : idx < m.num_components)
    (hcur : m.menu_components[m.current_component_num]? = some (some pp))
    (hne : idx ≠ m.current_component_num)
    (harr : m'.menu_components = m.menu_components)
    (hnum : m'.num_components = m.num_components)
    (hc' : m'.current_component_num = idx) (m0 : Menu) :
    m'.marks_current (Menu.moved s self m0 idx pc pp) := by
  have hcurlt : m.current_component_num < m.num_components := hwf.2.2.1 hn
  have hlen : m.num_components = m.menu_components.length := hwf.1
  have hpcpp : pc ≠ pp := by
    intro e
    rw [e, ← hcur] at hidx
    exact hne (List.getElem?_inj (by omega) hnd hidx)
  have hfpc := Menu.marks_current_entry hinv hlt hidx
  have hfpp := Menu.marks_current_entry hinv hcurlt hcur
  intro i hi
  rw [hnum] at hi
  obtain ⟨a, ha, _⟩ := Menu.wf_entry hwf hi
  rw [harr, ha, hc']
  simp only
  rw [Menu.is_current_moved]
  have hfa := Menu.marks_current_entry hinv hi ha
  by_cases hi1 : i = idx
  · have hapc : a = pc := by
      rw [hi1, hidx] at ha
      simpa using ha.symm
    subst hapc
    simp [hpcpp, hfpc, hi1]
  · by_cases hi2 : i = m.current_component_num
    · have happ : a = pp := by
        rw [hi2, hcur] at ha
        simpa using ha.symm
      subst happ
      simp [hfpp, hi1]
    · have hapc : a ≠ pc := by
        intro e
        rw [e, ← hidx] at ha
        exact hi1 (List.getElem?_inj (by omega) hnd ha)
      have happ : a ≠ pp := by
        intro e
        rw [e, ← hcur] at ha
        exact hi2 (List.getElem?_inj (by omega) hnd ha)
      simp [hapc, happ, hfa, hi1, hi2]

/-- The invariant on the flags is kept by `next` and `prev` on a menu with
distinct children, as long as the menu has at least two children or the
call does not loop. -/
theorem Menu.marks_current_next_prev (s : State) (self : Ptr) (m : Menu) (loop : Bool)
    (hm : s.menuAt self = some m) (hwf : m.wf s) (hnd : m.menu_components.Nodup)
    (hinv : m.marks_current s) (hn : m.num_components ≠ 0)
    (h2 : 2 ≤ m.num_components ∨ loop = false) :
    (∃ s' m' r, Menu.next s self loop = some (s', r) ∧ s'.menuAt self = some m' ∧
      m'.wf s' ∧ m'.menu_components = m.menu_components ∧ m'.marks_current s') ∧
    (∃ s' m' r, Menu.prev s self loop = some (s', r) ∧ s'.menuAt self = some m' ∧
      m'.wf s' ∧ m'.menu_components = m.menu_components ∧ m'.marks_current s') := by
  have hcur : m.current_component_num < m.num_components := hwf.2.2.1 hn
  have hstay : Menu.marks_current
      (s.setMenu self { m with previous_component_num := m.current_component_num })
      { m with previous_component_num := m.current_component_num } := by
    intro i hi
    have := hinv i hi
    cases he : m.menu_components[i]? with
    | none => rw [he] at this; simp at this
    | some e =>
      cases e with
      | none => rw [he] at this; simp at this
      | some a =>
        rw [he] at this
        simp only [he]
        rw [State.is_current_setMenu]
        exact this
  have hstaywf : Menu.wf
      (s.setMenu self { m with previous_component_num := m.current_component_num })
      { m with previous_component_num := m.current_component_num } :=
    Menu.wf_transfer hwf (by simp [State.setMenu_eq]) rfl rfl (fun _ => hcur)
  have hstaym := State.menuAt_setMenu_self s self m
    { m with previous_component_num := m.current_component_num } hm
  refine ⟨?_, ?_⟩
  · by_cases hmove : m.current_component_num ≠ m.num_components - 1 ∨ loop = true
    · obtain ⟨pc, pp, hpc, _, hpp, _, hnext⟩ :=
        Menu.next_eq_moved s self m loop hm hwf hn hmove
      have hidxlt : (if m.current_component_num ≠ m.num_components - 1
          then m.current_component_num + 1 else 0) < m.num_components := by
        split <;> omega
      have hidxne : (if m.current_component_num ≠ m.num_components - 1
          then m.current_component_num + 1 else 0) ≠ m.current_component_num := by
        split
        · omega
        · cases h2 with
          | inl h => omega
          | inr h =>
            cases hmove with
            | inl h' => omega
            | inr h' => rw [h] at h'; cases h'
      have hmenu := Menu.menuAt_moved s self
        { m with previous_component_num := m.current_component_num } m
        (if m.current_component_num ≠ m.num_components - 1
          then m.current_component_num + 1 else 0) pc pp hm
      exact ⟨_, _, true, hnext, hmenu,
        Menu.wf_transfer hwf (Menu.length_moved _ _ _ _ _ _) rfl rfl (fun _ => hidxlt), rfl,
        Menu.marks_current_moved s self m
          { m with previous_component_num := m.current_component_num,
                   current_component_num := (if m.current_component_num ≠ m.num_components - 1
                     then m.current_component_num + 1 else 0),
                   p_current_component := some pc }
          (if m.current_component_num ≠ m.num_components - 1
            then m.current_component_num + 1 else 0) pc pp hwf hnd hinv hn hpc hidxlt hpp hidxne
          rfl rfl rfl _⟩
    · have hc : m.current_component_num = m.num_components - 1 := by
        by_contra h; exact hmove (Or.inl h)
      have hl : loop = false := by
        cases loop with
        | false => rfl
        | true => exact absurd (Or.inr rfl) hmove
      subst hl
      exact ⟨_, _, false, Menu.next_eq_stay s self m hm hn hc, hstaym, hstaywf, rfl, hstay⟩
  · by_cases hmove : m.current_component_num ≠ 0 ∨ loop = true
    · obtain ⟨pc, pp, hpc, _, hpp, _, hprev⟩ :=
        Menu.prev_eq_moved s self m loop hm hwf hn hmove
      have hidxlt : (if m.current_component_num ≠ 0
          then m.current_component_num - 1 else m.num_components - 1)
          < m.num_components := by
        split <;> omega
      have hidxne : (if m.current_component_num ≠ 0
          then m.current_component_num - 1 else m.num_components - 1)
          ≠ m.current_component_num := by
        split
        · omega
        · cases h2 with
          | inl h => omega
          | inr h =>
            cases hmove with
            | inl h' => omega
            | inr h' => rw [h] at h'; cases h'
      have hmenu := Menu.menuAt_moved s self
        { m with previous_component_num := m.current_component_num } m
        (if m.current_component_num ≠ 0
          then m.current_component_num - 1 else m.num_components - 1) pc pp hm
      exact ⟨_, _, true, hprev, hmenu,
        Menu.wf_transfer hwf (Menu.length_moved _ _ _ _ _ _) rfl rfl (fun _ => hidxlt), rfl,
        Menu.marks_current_moved s self m
          { m with previous_component_num := m.current_component_num,
                   current_component_num := (if m.current_component_num ≠ 0
                     then m.current_component_num - 1 else m.num_components - 1),
                   p_current_component := some pc }
          (if m.current_component_num ≠ 0
            then m.current_component_num - 1 else m.num_components - 1) pc pp hwf hnd hinv hn hpc hidxlt hpp hidxne
          rfl rfl rfl _⟩
    · have hc : m.current_component_num = 0 := by
        by_contra h; exact hmove (Or.inl h)
      have hl : loop = false := by
        cases loop with
        | false => rfl
        | true => exact absurd (Or.inr rfl) hmove
      subst hl
      exact ⟨_, _, false, Menu.prev_eq_stay s self m hm hn hc, hstaym, hstaywf, rfl, hstay⟩

/-- Away from the boundary and on a menu with distinct children whose flags
satisfy the invariant, `next(false)` followed by `prev(false)` restores the
current index and every `is_current`. -/
theorem Menu.next_then_prev_restores (s : State) (self : Ptr) (m : Menu)
    (hm : s.menuAt self = some m) (hwf : m.wf s) (hnd : m.menu_components.Nodup)
    (hinv : m.marks_current s)
    (hi : m.current_component_num + 1 < m.num_components) :
    ∃ s1 s2 m2, Menu.next s self false = some (s1, true) ∧
      Menu.prev s1 self false = some (s2, true) ∧ s2.menuAt self = some m2 ∧
      m2.current_component_num = m.current_component_num ∧
      m2.menu_components = m.menu_components ∧
      m2.num_components = m.num_components ∧
      ∀ x, s2.is_current x = s.is_current x := by
  have hn : m.num_components ≠ 0 := by omega
  have hlen : m.num_components = m.menu_components.length := hwf.1
  have hne : m.current_component_num ≠ m.num_components - 1 := by omega
  obtain ⟨pc, pp, hpc, _, hpp, _, hnext⟩ :=
    Menu.next_eq_moved s self m false hm hwf hn (Or.inl hne)
  simp only [ne_eq, hne, not_false_eq_true, if_true] at hpc hnext
  have hm1 := Menu.menuAt_moved s self
    { m with previous_component_num := m.current_component_num } m
    (m.current_component_num + 1) pc pp hm
  have hwf1 : Menu.wf (Menu.moved s self
      { m with previous_component_num := m.current_component_num }
      (m.current_component_num + 1) pc pp)
      { m with previous_component_num := m.current_component_num,
               current_component_num := m.current_component_num + 1,
               p_current_component := some pc } :=
    Menu.wf_transfer hwf (Menu.length_moved _ _ _ _ _ _) rfl rfl (fun _ => hi)
  obtain ⟨pc', pp', hpc', _, hpp', _, hprev⟩ :=
    Menu.prev_eq_moved _ self _ false hm1 hwf1 hn (Or.inl (Nat.succ_ne_zero _))
  simp only [ne_eq, Nat.succ_ne_zero, not_false_eq_true, if_true,
    Nat.add_sub_cancel] at hpc' hpp' hprev
  have e1 : pc' = pp := by
    rw [hpp] at hpc'
    simpa using hpc'.symm
  have e2 : pp' = pc := by
    rw [hpc] at hpp'
    simpa using hpp'.symm
  subst e1 e2
  have hpcpp : pp' ≠ pc' := by
    intro e
    rw [e, ← hpp] at hpc
    have := List.getElem?_inj (by omega) hnd hpc
    omega
  have hfpc := Menu.marks_current_entry hinv hi hpc
  have hfpp := Menu.marks_current_entry hinv (by omega) hpp
  have hm2 := Menu.menuAt_moved _ self
    { m with previous_component_num := m.current_component_num + 1,
             current_component_num := m.current_component_num + 1,
             p_current_component := some pp' }
    _ m.current_component_num pc' pp' hm1
  refine ⟨_, _, _, hnext, hprev, hm2, rfl, rfl, rfl, ?_⟩
  intro x
  rw [Menu.is_current_moved, Menu.is_current_moved]
  by_cases hx1 : x = pp'
  · subst hx1
    simp [hpcpp, hfpc]
  · by_cases hx2 : x = pc'
    · subst hx2
      simp [hx1, hfpp]
    · simp [hx1, hx2]

/-- Away from the boundary and on a menu with distinct children whose flags
satisfy the invariant, `prev(false)` followed by `next(false)` restores the
current index and every `is_current`. -/
theorem Menu.prev_then_next_restores (s : State) (self : Ptr) (m : Menu)
    (hm : s.menuAt self = some m) (hwf : m.wf s) (hnd : m.menu_components.Nodup)
    (hinv : m.marks_current s) (hn : m.num_components ≠ 0)
    (hi : 0 < m.current_component_num) :
    ∃ s1 s2 m2, Menu.prev s self false = some (s1, true) ∧
      Menu.next s1 self false = some (s2, true) ∧ s2.menuAt self = some m2 ∧
      m2.current_component_num = m.current_component_num ∧
      m2.menu_components = m.menu_components ∧
      m2.num_components = m.num_components ∧
      ∀ x, s2.is_current x = s.is_current x := by
  have hcur : m.current_component_num < m.num_components := hwf.2.2.1 hn
  have hlen : m.num_components = m.menu_components.length := hwf.1
  have hne : m.current_component_num ≠ 0 := by omega
  obtain ⟨pc, pp, hpc, _, hpp, _, hprev⟩ :=
    Menu.prev_eq_moved s self m false hm hwf hn (Or.inl hne)
  simp only [ne_eq, hne, not_false_eq_true, if_true] at hpc hprev
  have hm1 := Menu.menuAt_moved s self
    { m with previous_component_num := m.current_component_num } m
    (m.current_component_num - 1) pc pp hm
  have hwf1 : Menu.wf (Menu.moved s self
      { m with previous_component_num := m.current_component_num }
      (m.current_component_num - 1) pc pp)
      { m with previous_component_num := m.current_component_num,
               current_component_num := m.current_component_num - 1,
               p_current_component := some pc } :=
    Menu.wf_transfer hwf (Menu.length_moved _ _ _ _ _ _) rfl rfl
      (fun _ => show m.current_component_num - 1 < m.num_components by omega)
  have hne1 : m.current_component_num - 1 ≠ m.num_components - 1 := by omega
  obtain ⟨pc', pp', hpc', _, hpp', _, hnext⟩ :=
    Menu.next_eq_moved _ self _ false hm1 hwf1 hn (Or.inl hne1)
  have hback : m.current_component_num - 1 + 1 = m.current_component_num := by omega
  simp only [ne_eq, hne1, not_false_eq_true, if_true, hback] at hpc' hpp' hnext
  have e1 : pc' = pp := by
    rw [hpp] at hpc'
    simpa using hpc'.symm
  have e2 : pp' = pc := by
    rw [hpc] at hpp'
    simpa using hpp'.symm
  subst e1 e2
  have hpcpp : pp' ≠ pc' := by
    intro e
    rw [e, ← hpp] at hpc
    have := List.getElem?_inj (by omega) hnd hpc
    omega
  have hfpc := Menu.marks_current_entry hinv (by omega) hpc
  have hfpp := Menu.marks_current_entry hinv hcur hpp
  have hm2 := Menu.menuAt_moved _ self
    { m with previous_component_num := m.current_component_num - 1,
             current_component_num := m.current_component_num - 1,
             p_current_component := some pp' }
    _ m.current_component_num pc' pp' hm1
  refine ⟨_, _, _, hprev, hnext, hm2, rfl, rfl, rfl, ?_⟩
  intro x
  rw [Menu.is_current_moved, Menu.is_current_moved]
  by_cases hx1 : x = pp'
  · subst hx1
    have : ¬ m.current_component_num - 1 = m.current_component_num := by omega
    simp [hpcpp, hfpc, this]
  · by_cases hx2 : x = pc'
    · subst hx2
      simp [hx1, hfpp]
    · simp [hx1, hx2]

/-- C5, amended: on a menu with n >= 2 distinct children in which the child
at the current index i is the only one with `is_current` true, `next(false)`
followed by `prev(false)` (for i < n-1), and `prev(false)` followed by
`next(false)` (for i > 0), return true twice, restore the current index to i
and restore the `is_current` of every object. -/
theorem Menu.next_prev_round_trip (s : State) (self : Ptr) (m : Menu)
    (hm : s.menuAt self = some m) (hwf : m.wf s) (hnd : m.menu_components.Nodup)
    (hinv : m.marks_current s) (hn : 2 ≤ m.num_components) :
    (m.current_component_num + 1 < m.num_components →
      ∃ s1 s2 m2, Menu.next s self false = some (s1, true) ∧
        Menu.prev s1 self false = some (s2, true) ∧ s2.menuAt self = some m2 ∧
        m2.current_component_num = m.current_component_num ∧
        m2.menu_components = m.menu_components ∧
        m2.num_components = m.num_components ∧
        ∀ x, s2.is_current x = s.is_current x) ∧
    (0 < m.current_component_num →
      ∃ s1 s2 m2, Menu.prev s self false = some (s1, true) ∧
        Menu.next s1 self false = some (s2, true) ∧ s2.menuAt self = some m2 ∧
        m2.current_component_num = m.current_component_num ∧
        m2.menu_components = m.menu_components ∧
        m2.num_components = m.num_components ∧
        ∀ x, s2.is_current x = s.is_current x) :=
  ⟨fun hi => Menu.next_then_prev_restores s self m hm hwf hnd hinv hi,
   fun hi => Menu.prev_then_next_restores s self m hm hwf hnd hinv (by omega) hi⟩

theorem Menu.next_prev_round_trip_witness :
    ∃ s1 s2 m2, Menu.next State.three_items 0 false = some (s1, true) ∧
      Menu.prev s1 0 false = some (s2, true) ∧ s2.menuAt 0 = some m2 ∧
      m2.current_component_num = 0 ∧
      m2.menu_components = [some 1, some 2, some 3] ∧
      m2.num_components = 3 ∧
      ∀ x, s2.is_current x = State.three_items.is_current x :=
  (Menu.next_prev_round_trip State.three_items 0 Menu.three rfl (by decide) (by decide)
    (by decide) (by decide)).1 (by decide)

theorem MenuSystem.select_sub_menu (fuel : Nat) (s : State) (p b : Ptr) (mp mb : Menu)
    (reset : Bool) (hp : s.p_curr_menu = some p) (hmp : s.menuAt p = some mp)
    (hn : mp.num_components ≠ 0)
    (hb : mp.menu_components[mp.current_component_num]? = some (some b))
    (hmb : s.menuAt b = some mb) :
    ∃ comp, s.objs[b]? = some comp ∧
      MenuSystem.select fuel s reset
        = some { MenuComponent.base_select s b comp with p_curr_menu := some b } := by
  unfold State.menuAt at hmb
  cases ho : s.objs[b]? with
  | none => simp [ho] at hmb
  | some comp =>
    rw [ho] at hmb
    cases hk : comp.kind with
    | menu m =>
      refine ⟨comp, rfl, ?_⟩
      unfold MenuSystem.select Menu.activate MenuComponent.select
      simp only [hp, hmp, hn, if_false, hb, ho, hk]
    | _ => simp [hk] at hmb

/-- C11: when the current child of the active menu P is a menu B whose parent
is P and which is not the root, `MenuSystem::select` makes B the active menu
and changes no object of the heap (so the current index of B and of P stay
as they are), and a following `MenuSystem::back` returns true and makes P the
active menu again, the heap still unchanged. -/
theorem MenuSystem.select_back_round_trip (fuel : Nat) (s : State) (p b : Ptr)
    (mp mb : Menu) (reset : Bool)
    (hp : s.p_curr_menu = some p) (hmp : s.menuAt p = some mp)
    (hn : mp.num_components ≠ 0)
    (hb : mp.menu_components[mp.current_component_num]? = some (some b))
    (hmb : s.menuAt b = some mb) (hpar : mb.p_parent = some p)
    (hroot : b ≠ s.p_root_menu) :
    ∃ s1, MenuSystem.select fuel s reset = some s1 ∧
      s1.p_curr_menu = some b ∧ s1.objs = s.objs ∧ s1.menuAt b = some mb ∧
      s1.menuAt p = some mp ∧
      ∃ s2, MenuSystem.back s1 = some (s2, true) ∧
        s2.p_curr_menu = some p ∧ s2.objs = s.objs ∧ s2.menuAt p = some mp ∧
        s2.menuAt b = some mb ∧ s2.p_root_menu = s.p_root_menu := by
  obtain ⟨comp, _, hsel⟩ :=
    MenuSystem.select_sub_menu fuel s p b mp mb reset hp hmp hn hb hmb
  obtain ⟨hr, _, ho⟩ := MenuComponent.base_select_sys s b comp
  have hmenu : ∀ x, State.menuAt
      { MenuComponent.base_select s b comp with p_curr_menu := some b } x = s.menuAt x := by
    intro x
    unfold State.menuAt
    simp only [ho]
  have hback := (MenuSystem.back_to_parent
    { MenuComponent.base_select s b comp with p_curr_menu := some b } b mb rfl
    (by rw [hmenu]; exact hmb)).1 (by simpa [hr] using hroot)
  refine ⟨_, hsel, rfl, ho, by rw [hmenu]; exact hmb, by rw [hmenu]; exact hmp,
    _, hback, hpar, ho, ?_, ?_, hr⟩
  · unfold State.menuAt
    simp only [ho]
    exact hmp
  · unfold State.menuAt
    simp only [ho]
    exact hmb

theorem MenuSystem.select_back_round_trip_witness :
    MenuSystem.next (State.scenario 0 0 0) false = some (State.scenario 1 0 0, true) ∧
    ∃ s1, MenuSystem.select 0 (State.scenario 1 0 0) false = some s1 ∧
      s1.p_curr_menu = some 2 ∧ s1.objs = (State.scenario 1 0 0).objs ∧
      s1.menuAt 2 = some Menu.scenario_B ∧ s1.menuAt 0 = some (Menu.two 1 0) ∧
      ∃ s2, MenuSystem.back s1 = some (s2, true) ∧
        s2.p_curr_menu = some 0 ∧ s2.objs = (State.scenario 1 0 0).objs ∧
        s2.menuAt 0 = some (Menu.two 1 0) ∧ s2.menuAt 2 = some Menu.scenario_B ∧
        s2.p_root_menu = 0 :=
  ⟨by decide,
   MenuSystem.select_back_round_trip 0 (State.scenario 1 0 0) 0 2 (Menu.two 1 0)
    Menu.scenario_B false rfl rfl (by decide) rfl rfl rfl (by decide)⟩

theorem MenuComponent.kept_refl (c : MenuComponent) : c.kept c := by
  refine ⟨rfl, rfl, ?_⟩
  cases h : c.kind <;> simp

theorem MenuComponent.kept_trans {a b c : MenuComponent} (h1 : a.kept b) (h2 : b.kept c) :
    a.kept c := by
  obtain ⟨f1, g1, k1⟩ := h1
  obtain ⟨f2, g2, k2⟩ := h2
  refine ⟨f2.trans f1, g2.trans g1, ?_⟩
  cases ha : a.kind with
  | menu m =>
    rw [ha] at k1
    obtain ⟨m', hm', e1, e2, e3⟩ := k1
    rw [hm'] at k2
    obtain ⟨m'', hm'', d1, d2, d3⟩ := k2
    exact ⟨m'', hm'', d1.trans e1, d2.trans e2, d3.trans e3⟩
  | menuItem => rw [ha] at k1; simp only at k1; rw [k1] at k2; exact k2
  | backMenuItem ms => rw [ha] at k1; simp only at k1; rw [k1] at k2; exact k2
  | numericMenuItem n => rw [ha] at k1; simp only at k1; rw [k1] at k2; exact k2
  | numericDisplayMenuItem v => rw [ha] at k1; simp only at k1; rw [k1] at k2; exact k2
  | toggleMenuItem st => rw [ha] at k1; simp only at k1; rw [k1] at k2; exact k2
  | textEditMenuItem t => rw [ha] at k1; simp only at k1; rw [k1] at k2; exact k2

theorem MenuComponent.kept_with_current (c : MenuComponent) (b : Bool) :
    c.kept (MenuComponent.with_current b c) := by
  refine ⟨rfl, rfl, ?_⟩
  cases h : c.kind <;> simp [MenuComponent.with_current, h]

theorem State.same_items_refl (s : State) : s.same_items s :=
  ⟨rfl, fun _ comp h => ⟨comp, h, MenuComponent.kept_refl comp⟩⟩

theorem State.same_items_trans {s1 s2 s3 : State} (h1 : s1.same_items s2)
    (h2 : s2.same_items s3) : s1.same_items s3 := by
  refine ⟨h2.1.trans h1.1, ?_⟩
  intro x comp hx
  obtain ⟨c2, hc2, k2⟩ := h1.2 x comp hx
  obtain ⟨c3, hc3, k3⟩ := h2.2 x c2 hc2
  exact ⟨c3, hc3, MenuComponent.kept_trans k2 k3⟩

theorem State.same_items_mapAt (s : State) (a : Ptr) (f : MenuComponent → MenuComponent)
    (hf : ∀ c, s.objs[a]? = some c → c.kept (f c)) : s.same_items (s.mapAt a f) := by
  refine ⟨State.length_mapAt s a f, ?_⟩
  intro x comp hx
  rw [State.objs_mapAt]
  by_cases h : x = a
  · subst h
    simp only [if_true, hx, Option.map_some']
    exact ⟨_, rfl, hf comp hx⟩
  · simp only [h, if_false]
    exact ⟨comp, hx, MenuComponent.kept_refl comp⟩

theorem State.same_items_with_current (s : State) (a : Ptr) (b : Bool) :
    s.same_items (s.mapAt a (MenuComponent.with_current b)) :=
  State.same_items_mapAt s a _ (fun c _ => MenuComponent.kept_with_current c b)

theorem State.same_items_setMenu (s : State) (a : Ptr) (m m' : Menu)
    (hm : s.menuAt a = some m) (h1 : m'.menu_components = m.menu_components)
    (h2 : m'.num_components = m.num_components) (h3 : m'.p_parent = m.p_parent) :
    s.same_items (s.setMenu a m') := by
  rw [State.setMenu_eq]
  refine State.same_items_mapAt s a _ ?_
  intro c hc
  unfold State.menuAt at hm
  rw [hc] at hm
  cases hk : c.kind with
  | menu m0 =>
    simp only [hk, Option.some.injEq] at hm
    subst hm
    refine ⟨rfl, rfl, ?_⟩
    rw [hk]
    exact ⟨m', rfl, h1, h2, h3⟩
  | _ => simp [hk] at hm

theorem MenuComponent.same_items_set_current {s s' : State} {p : Option Ptr} {b : Bool}
    (h : MenuComponent.set_current s p b = some s') : s.same_items s' := by
  unfold MenuComponent.set_current at h
  cases p with
  | none => simp at h
  | some a =>
    cases ho : s.objs[a]? with
    | none => simp [ho] at h
    | some c =>
      have hlt : a < s.objs.length := (List.getElem?_eq_some.mp ho).1
      have := MenuComponent.set_current_eq' s a b hlt
      unfold MenuComponent.set_current at this
      rw [this] at h
      simp only [Option.some.injEq] at h
      rw [← h]
      exact State.same_items_with_current s a b

theorem State.menuAt_same_items {s s' : State} (h : s.same_items s') {x : Ptr} {m : Menu}
    (hm : s.menuAt x = some m) :
    ∃ m', s'.menuAt x = some m' ∧ m'.menu_components = m.menu_components ∧
      m'.num_components = m.num_components ∧ m'.p_parent = m.p_parent := by
  unfold State.menuAt at hm
  cases ho : s.objs[x]? with
  | none => simp [ho] at hm
  | some c =>
    rw [ho] at hm
    cases hk : c.kind with
    | menu m0 =>
      simp only [hk, Option.some.injEq] at hm
      subst hm
      obtain ⟨c', hc', _, _, hkept⟩ := h.2 x c ho
      rw [hk] at hkept
      obtain ⟨m', hm', e1, e2, e3⟩ := hkept
      exact ⟨m', by unfold State.menuAt; simp [hc', hm'], e1, e2, e3⟩
    | _ => simp [hk] at hm

theorem Menu.same_items_move {s s' : State} {self : Ptr} {idx : Nat} {r : Bool}
    (h : Menu.move s self idx = some (s', r)) : s.same_items s' := by
  unfold Menu.move at h
  cases hm : s.menuAt self with
  | none => simp [hm] at h
  | some m =>
    simp only [hm] at h
    cases hi : m.menu_components[idx]? with
    | none => simp [hi] at h
    | some pc =>
      simp only [hi] at h
      cases h3 : MenuComponent.set_current
          (s.setMenu self { m with current_component_num := idx,
                                   p_current_component := pc }) pc true with
      | none => simp [h3] at h
      | some s3 =>
        simp only [h3] at h
        cases hp : m.menu_components[m.previous_component_num]? with
        | none => simp [hp] at h
        | some pp =>
          simp only [hp] at h
          cases h4 : MenuComponent.set_current s3 pp false with
          | none => simp [h4] at h
          | some s4 =>
            simp only [h4, Option.some.injEq, Prod.mk.injEq] at h
            rw [← h.1]
            have e1 := State.same_items_setMenu s self m
              { m with current_component_num := idx, p_current_component := pc }
              hm rfl rfl rfl
            exact State.same_items_trans
              (State.same_items_trans e1 (MenuComponent.same_items_set_current h3))
              (MenuComponent.same_items_set_current h4)

theorem Menu.same_items_next {s s' : State} {self : Ptr} {loop r : Bool}
    (h : Menu.next s self loop = some (s', r)) : s.same_items s' := by
  unfold Menu.next at h
  cases hm : s.menuAt self with
  | none => simp [hm] at h
  | some m =>
    simp only [hm] at h
    have h1 := State.same_items_setMenu s self m
      { m with previous_component_num := m.current_component_num } hm rfl rfl rfl
    split at h
    · simp only [Option.some.injEq, Prod.mk.injEq] at h
      rw [← h.1]; exact h1
    · split at h
      · exact State.same_items_trans h1 (Menu.same_items_move h)
      · split at h
        · exact State.same_items_trans h1 (Menu.same_items_move h)
        · simp only [Option.some.injEq, Prod.mk.injEq] at h
          rw [← h.1]; exact h1

theorem Menu.same_items_prev {s s' : State} {self : Ptr} {loop r : Bool}
    (h : Menu.prev s self loop = some (s', r)) : s.same_items s' := by
  unfold Menu.prev at h
  cases hm : s.menuAt self with
  | none => simp [hm] at h
  | some m =>
    simp only [hm] at h
    have h1 := State.same_items_setMenu s self m
      { m with previous_component_num := m.current_component_num } hm rfl rfl rfl
    split at h
    · simp only [Option.some.injEq, Prod.mk.injEq] at h
      rw [← h.1]; exact h1
    · split at h
      · exact State.same_items_trans h1 (Menu.same_items_move h)
      · split at h
        · exact State.same_items_trans h1 (Menu.same_items_move h)
        · simp only [Option.some.injEq, Prod.mk.injEq] at h
          rw [← h.1]; exact h1

theorem Float32.shiftAux_spec : ∀ (fuel k : Nat), k ≤ fuel →
    k / 2 ^ Float32.shiftAux fuel k < 2 ^ 24 ∧
    (Float32.shiftAux fuel k ≠ 0 → 2 ^ 23 ≤ k / 2 ^ Float32.shiftAux fuel k) := by
  intro fuel
  induction fuel with
  | zero =>
    intro k hk
    have : k = 0 := by omega
    subst this
    simp [Float32.shiftAux]
  | succ fuel ih =>
    intro k hk
    unfold Float32.shiftAux
    by_cases h : k < 2 ^ 24
    · simp only [h, if_true, pow_zero, Nat.div_one, ne_eq, not_true_eq_false, false_implies,
        and_true]
    · simp only [h, if_false]
      have h2 : k / 2 ≤ fuel := by
        have : (2 : Nat) ^ 24 = 16777216 := by norm_num
        omega
      obtain ⟨i1, i2⟩ := ih (k / 2) h2
      have e : k / 2 ^ (Float32.shiftAux fuel (k / 2) + 1)
          = k / 2 / 2 ^ Float32.shiftAux fuel (k / 2) := by
        rw [Nat.pow_succ, Nat.mul_comm, Nat.div_div_eq_div_mul]
      rw [e]
      refine ⟨i1, fun _ => ?_⟩
      by_cases h0 : Float32.shiftAux fuel (k / 2) = 0
      · rw [h0, pow_zero, Nat.div_one]
        have : (2 : Nat) ^ 24 = 16777216 := by norm_num
        have : (2 : Nat) ^ 23 = 8388608 := by norm_num
        omega
      · exact i2 h0

theorem Float32.shift_spec (k : Nat) :
    k / 2 ^ Float32.shift k < 2 ^ 24 ∧
    (Float32.shift k ≠ 0 → 2 ^ 23 ≤ k / 2 ^ Float32.shift k) :=
  Float32.shiftAux_spec k k (le_refl k)

theorem Float32.shift_lt (k : Nat) : k < 2 ^ (24 + Float32.shift k) := by
  have h := (Float32.shift_spec k).1
  rw [Nat.div_lt_iff_lt_mul (Nat.two_pow_pos _)] at h
  rw [Nat.pow_add]
  exact h

theorem Float32.shift_le (k : Nat) (h0 : Float32.shift k ≠ 0) :
    2 ^ (23 + Float32.shift k) ≤ k := by
  have h := (Float32.shift_spec k).2 h0
  rw [Nat.le_div_iff_mul_le (Nat.two_pow_pos _)] at h
  rw [Nat.pow_add]
  exact h

theorem Float32.shift_unique (k t : Nat) (h1 : k < 2 ^ (24 + t))
    (h2 : t ≠ 0 → 2 ^ (23 + t) ≤ k) : Float32.shift k = t := by
  rcases Nat.lt_trichotomy (Float32.shift k) t with h | h | h
  · have ht : t ≠ 0 := by omega
    have a := h2 ht
    have b := Float32.shift_lt k
    have : 23 + t < 24 + Float32.shift k :=
      (Nat.pow_lt_pow_iff_right (by norm_num)).mp (lt_of_le_of_lt a b)
    omega
  · exact h
  · have hs : Float32.shift k ≠ 0 := by omega
    have a := Float32.shift_le k hs
    have : 23 + Float32.shift k < 24 + t :=
      (Nat.pow_lt_pow_iff_right (by norm_num)).mp (lt_of_le_of_lt a h1)
    omega

theorem Float32.shift_mono {k1 k2 : Nat} (h : k1 ≤ k2) :
    Float32.shift k1 ≤ Float32.shift k2 := by
  by_contra hc
  have hs : Float32.shift k1 ≠ 0 := by omega
  have a := Float32.shift_le k1 hs
  have b := Float32.shift_lt k2
  have : 23 + Float32.shift k1 < 24 + Float32.shift k2 :=
    (Nat.pow_lt_pow_iff_right (by norm_num)).mp (lt_of_le_of_lt (le_trans a h) b)
  omega

theorem Float32.shift_eq_zero_iff (k : Nat) : Float32.shift k = 0 ↔ k < 2 ^ 24 := by
  constructor
  · intro h
    have := Float32.shift_lt k
    rw [h] at this
    exact this
  · intro h
    exact Float32.shift_unique k 0 h (fun h0 => absurd rfl h0)

/-- The rounded significand: `q` or `q + 1`. -/
theorem Float32.roundNat_bounds (k : Nat) :
    k / 2 ^ Float32.shift k * 2 ^ Float32.shift k ≤ Float32.roundNat k ∧
    Float32.roundNat k ≤ (k / 2 ^ Float32.shift k + 1) * 2 ^ Float32.shift k := by
  unfold Float32.roundNat
  simp only
  have hmod : k / 2 ^ Float32.shift k % 2 ≤ 1 := by omega
  split_ifs
  · exact ⟨le_refl _, Nat.mul_le_mul_right _ (Nat.le_succ _)⟩
  · exact ⟨Nat.mul_le_mul_right _ (Nat.le_succ _), le_refl _⟩
  · exact ⟨Nat.mul_le_mul_right _ (Nat.le_add_right _ _),
      Nat.mul_le_mul_right _ (Nat.add_le_add_left hmod _)⟩

theorem Float32.roundNat_of_valid (k : Nat) (h : k % 2 ^ Float32.shift k = 0) :
    Float32.roundNat k = k := by
  unfold Float32.roundNat
  simp only [h, Nat.mul_zero]
  have hp : 0 < 2 ^ Float32.shift k := Nat.two_pow_pos _
  simp only [hp, if_true]
  exact Nat.div_mul_cancel (Nat.dvd_of_mod_eq_zero h)

theorem Float32.roundNat_mul (k : Nat) :
    ∃ m, Float32.roundNat k = m * 2 ^ Float32.shift k :=
  ⟨_, rfl⟩

theorem Float32.roundNat_mono {k1 k2 : Nat} (h : k1 ≤ k2) :
    Float32.roundNat k1 ≤ Float32.roundNat k2 := by
  have hs := Float32.shift_mono h
  rcases Nat.lt_or_ge (Float32.shift k1) (Float32.shift k2) with hlt | hge
  · have hs2 : Float32.shift k2 ≠ 0 := by omega
    have a1 := (Float32.roundNat_bounds k1).2
    have a2 := (Float32.shift_spec k1).1
    have b1 := (Float32.roundNat_bounds k2).1
    have b2 := (Float32.shift_spec k2).2 hs2
    have c1 : (k1 / 2 ^ Float32.shift k1 + 1) * 2 ^ Float32.shift k1
        ≤ 2 ^ 24 * 2 ^ Float32.shift k1 := Nat.mul_le_mul_right _ a2
    have c2 : 2 ^ 23 * 2 ^ Float32.shift k2
        ≤ k2 / 2 ^ Float32.shift k2 * 2 ^ Float32.shift k2 := Nat.mul_le_mul_right _ b2
    have c3 : 2 ^ 24 * 2 ^ Float32.shift k1 ≤ 2 ^ 23 * 2 ^ Float32.shift k2 := by
      rw [← Nat.pow_add, ← Nat.pow_add]
      exact Nat.pow_le_pow_right (by norm_num) (by omega)
    exact le_trans a1 (le_trans c1 (le_trans c3 (le_trans c2 b1)))
  · have e : Float32.shift k1 = Float32.shift k2 := le_antisymm hs hge
    have hq : k1 / 2 ^ Float32.shift k2 ≤ k2 / 2 ^ Float32.shift k2 :=
      Nat.div_le_div_right h
    rcases Nat.lt_or_ge (k1 / 2 ^ Float32.shift k2) (k2 / 2 ^ Float32.shift k2) with hq1 | hq2
    · have a1 := (Float32.roundNat_bounds k1).2
      have b1 := (Float32.roundNat_bounds k2).1
      rw [e] at a1
      exact le_trans a1 (le_trans (Nat.mul_le_mul_right _ hq1) b1)
    · have eq : k1 / 2 ^ Float32.shift k2 = k2 / 2 ^ Float32.shift k2 := le_antisymm hq hq2
      have d1 := Nat.div_add_mod k1 (2 ^ Float32.shift k2)
      have d2 := Nat.div_add_mod k2 (2 ^ Float32.shift k2)
      have hr : k1 % 2 ^ Float32.shift k2 ≤ k2 % 2 ^ Float32.shift k2 := by
        rw [eq] at d1
        omega
      unfold Float32.roundNat
      simp only [e, eq]
      apply Nat.mul_le_mul_right
      generalize k1 % 2 ^ Float32.shift k2 = r1 at hr
      generalize k2 % 2 ^ Float32.shift k2 = r2 at hr
      generalize 2 ^ Float32.shift k2 = p
      generalize k2 / p = q
      split_ifs <;> omega

theorem Float32.roundNat_valid (k : Nat) :
    Float32.roundNat k % 2 ^ Float32.shift (Float32.roundNat k) = 0 := by
  by_cases h0 : Float32.shift k = 0
  · have hv : k % 2 ^ Float32.shift k = 0 := by rw [h0, pow_zero, Nat.mod_one]
    rw [Float32.roundNat_of_valid k hv]
    exact hv
  · obtain ⟨m, hm⟩ := Float32.roundNat_mul k
    have a1 := (Float32.roundNat_bounds k).1
    have a2 := (Float32.roundNat_bounds k).2
    have b1 := (Float32.shift_spec k).1
    have b2 := (Float32.shift_spec k).2 h0
    have lo : 2 ^ (23 + Float32.shift k) ≤ Float32.roundNat k := by
      rw [Nat.pow_add]
      exact le_trans (Nat.mul_le_mul_right _ b2) a1
    have hi : Float32.roundNat k ≤ 2 ^ (24 + Float32.shift k) := by
      rw [Nat.pow_add]
      exact le_trans a2 (Nat.mul_le_mul_right _ b1)
    rcases Nat.lt_or_ge (Float32.roundNat k) (2 ^ (24 + Float32.shift k)) with hlt | hge
    · rw [Float32.shift_unique _ _ hlt (fun _ => lo), hm]
      exact Nat.mul_mod_left _ _
    · have e : Float32.roundNat k = 2 ^ (24 + Float32.shift k) := le_antisymm hi hge
      have hsh : Float32.shift (Float32.roundNat k) = Float32.shift k + 1 := by
        apply Float32.shift_unique
        · rw [e]
          exact Nat.pow_lt_pow_right (by norm_num) (by omega)
        · intro _
          rw [e]
          exact Nat.pow_le_pow_right (by norm_num) (by omega)
      rw [hsh, e]
      have : 24 + Float32.shift k = 23 + (Float32.shift k + 1) := by omega
      rw [this, Nat.pow_add]
      exact Nat.mul_mod_left _ _

theorem Float32.roundNat_pos {k : Nat} (h : 0 < k) : 0 < Float32.roundNat k := by
  have h1 : Float32.roundNat 1 = 1 := by
    apply Float32.roundNat_of_valid
    have : Float32.shift 1 = 0 := (Float32.shift_eq_zero_iff 1).mpr (by norm_num)
    rw [this]
    rfl
  have := Float32.roundNat_mono (show 1 ≤ k from h)
  omega

theorem Float32.le_def (x y : Float32) : x ≤ y ↔ Float32.le x y = true := Iff.rfl

theorem Float32.lt_def (x y : Float32) : x < y ↔ Float32.lt x y = true := Iff.rfl

theorem Float32.add_def (x y : Float32) : x + y = Float32.add x y := rfl

theorem Float32.neg_def (x : Float32) : -x = Float32.neg x := rfl

theorem Float32.zero_def : (0 : Float32) = .fin false 0 := by decide

theorem Float32.valid_round (neg : Bool) (k : Nat) : (Float32.round neg k).valid := by
  unfold Float32.round
  split
  · next h => exact ⟨Float32.roundNat_valid k, h⟩
  · trivial

theorem Float32.valid_ofNat (n : Nat) : Float32.valid (OfNat.ofNat n) :=
  Float32.valid_round false _

theorem Float32.valid_neg (x : Float32) (h : x.valid) : (-x).valid := by
  cases x with
  | nan => trivial
  | inf a => trivial
  | fin a k => exact h

theorem Float32.ne_nan_of_lt {x y : Float32} (h : x < y) : x ≠ .nan ∧ y ≠ .nan := by
  rw [Float32.lt_def] at h
  cases x <;> cases y <;> simp_all [Float32.lt]

theorem Float32.le_of_not_lt {x y : Float32} (h : ¬ y < x) (hx : x ≠ .nan) (hy : y ≠ .nan) :
    x ≤ y := by
  rw [Float32.lt_def] at h
  rw [Float32.le_def]
  cases x <;> cases y <;> simp_all [Float32.le, Float32.lt, ← Bool.not_eq_true]
  tauto

theorem Float32.le_of_lt' {x y : Float32} (h : x < y) : x ≤ y := by
  rw [Float32.lt_def] at h
  rw [Float32.le_def]
  cases x <;> cases y <;> simp_all [Float32.le, Float32.lt, ← Bool.not_eq_true]
  omega

theorem Float32.add_fin_fin (a b : Bool) (k j : Nat) :
    Float32.fin a k + Float32.fin b j
      = if Float32.toInt a k + Float32.toInt b j = 0 then .fin (a && b) 0
        else if Float32.roundNat (Float32.toInt a k + Float32.toInt b j).natAbs
            < 2 ^ 139 * 2 ^ 138 then
          .fin (decide (Float32.toInt a k + Float32.toInt b j < 0))
            (Float32.roundNat (Float32.toInt a k + Float32.toInt b j).natAbs)
        else .inf (decide (Float32.toInt a k + Float32.toInt b j < 0)) := rfl

theorem Float32.add_exact (a b : Bool) (k j : Nat)
    (hz : Float32.toInt a k + Float32.toInt b j ≠ 0)
    (hv : (Float32.fin (decide (Float32.toInt a k + Float32.toInt b j < 0))
      (Float32.toInt a k + Float32.toInt b j).natAbs).valid) :
    Float32.fin a k + Float32.fin b j
      = Float32.fin (decide (Float32.toInt a k + Float32.toInt b j < 0))
          (Float32.toInt a k + Float32.toInt b j).natAbs := by
  obtain ⟨h1, h2⟩ := hv
  rw [Float32.add_def]
  simp only [Float32.add, hz, if_false, Float32.round, Float32.roundNat_of_valid _ h1, h2,
    if_true]

set_option maxRecDepth 100000 in
/-- The model on known sums of binary32: 16777216 + 1 is a tie and goes to
the even significand 16777216, while 16777216 + 3 goes up to 16777220; three
additions of 0.1f (13421773 * 2^-27) give 10066330 * 2^-25; the sum of the
largest `float` and half its last place overflows to infinity and just below
that it does not; infinity minus infinity is NaN; 5 - 5 is the positive zero
and the sum of two negative zeros is the negative zero. -/
theorem Float32.add_examples :
    (16777216 : Float32) + 1 = 16777216 ∧
    (16777216 : Float32) + 3 = 16777220 ∧
    (Float32.fin false (13421773 * 2 ^ 122) + Float32.fin false (13421773 * 2 ^ 122))
      + Float32.fin false (13421773 * 2 ^ 122) = Float32.fin false (10066330 * 2 ^ 124) ∧
    Float32.fin false ((2 ^ 24 - 1) * 2 ^ 253) + Float32.fin false (2 ^ 252)
      = Float32.inf false ∧
    Float32.fin false ((2 ^ 24 - 1) * 2 ^ 253) + Float32.fin false (2 ^ 252 - 1)
      = Float32.fin false ((2 ^ 24 - 1) * 2 ^ 253) ∧
    Float32.inf false - Float32.inf false = Float32.nan ∧
    (5 : Float32) - 5 = Float32.fin false 0 ∧
    Float32.fin true 0 + Float32.fin true 0 = Float32.fin true 0 := by
  decide

/-- C14, at the failing input: on a new system, whose root menu is empty,
`MenuSystem::next` and `MenuSystem::prev` dereference the null
`_p_current_component` for both values of `loop` (undefined behaviour, `none`
in the model), while `Menu::next`/`prev` on the root, which test
`_num_components` first, return false, as does `MenuSystem::back`. -/
theorem MenuSystem.next_prev_empty_null_dereference :
    MenuSystem.new.menuAt 0 = some
      { p_current_component := none, menu_components := [], p_parent := none,
        num_components := 0, current_component_num := 0, previous_component_num := 0 } ∧
    MenuSystem.next MenuSystem.new false = none ∧
    MenuSystem.next MenuSystem.new true = none ∧
    MenuSystem.prev MenuSystem.new false = none ∧
    MenuSystem.prev MenuSystem.new true = none ∧
    Menu.next MenuSystem.new 0 false = some (MenuSystem.new, false) ∧
    Menu.prev MenuSystem.new 0 true = some (MenuSystem.new, false) ∧
    MenuSystem.back MenuSystem.new = some (MenuSystem.new, false) := by
  decide

theorem Float32.toRat_neg (x : Float32) (q : ℚ) (h : x.toRat = some q) :
    (-x).toRat = some (-q) := by
  cases x with
  | nan => cases h
  | inf a => cases h
  | fin a k =>
    rw [Float32.neg_def]
    simp only [Float32.toRat, Float32.neg, Option.some.injEq] at h ⊢
    rw [← h]
    cases a <;> simp [Float32.toInt, neg_div]

theorem Float32.toInt_of_toRat {a : Bool} {k : Nat} {z : Int}
    (h : ((Float32.toInt a k : ℚ) / 2 ^ 149) = (z : ℚ) / 2 ^ 149) :
    Float32.toInt a k = z := by
  have hp : (2 : ℚ) ^ 149 ≠ 0 := by positivity
  have := (div_left_inj' hp).mp h
  exact_mod_cast this

theorem Float32.add_toRat (x y f : Float32) (q1 q2 : ℚ) (hx : x.toRat = some q1)
    (hy : y.toRat = some q2) (hf : f.valid) (hq : f.toRat = some (q1 + q2)) :
    (x + y).toRat = some (q1 + q2) := by
  cases x with
  | nan => cases hx
  | inf a => cases hx
  | fin a k =>
    cases y with
    | nan => cases hy
    | inf b => cases hy
    | fin b j =>
      cases f with
      | nan => cases hq
      | inf c => cases hq
      | fin c m =>
        simp only [Float32.toRat, Option.some.injEq] at hx hy hq
        have hz : Float32.toInt c m = Float32.toInt a k + Float32.toInt b j := by
          apply Float32.toInt_of_toRat
          rw [hq, ← hx, ← hy]
          push_cast
          ring
        rw [Float32.add_fin_fin]
        by_cases h0 : Float32.toInt a k + Float32.toInt b j = 0
        · rw [if_pos h0]
          simp only [Float32.toRat, Option.some.injEq]
          rw [← hx, ← hy, ← add_div]
          have : ((Float32.toInt a k : ℚ) + (Float32.toInt b j : ℚ)) = 0 := by
            exact_mod_cast h0
          rw [this]
          cases a <;> cases b <;> simp [Float32.toInt]
        · rw [if_neg h0]
          have hm : (Float32.toInt a k + Float32.toInt b j).natAbs = m := by
            rw [← hz]
            cases c <;> simp [Float32.toInt]
          obtain ⟨v1, v2⟩ := hf
          rw [hm, Float32.roundNat_of_valid m v1, if_pos v2]
          simp only [Float32.toRat, Option.some.injEq]
          rw [← hx, ← hy, ← add_div]
          congr 1
          have hc : Float32.toInt (decide (Float32.toInt a k + Float32.toInt b j < 0)) m
              = Float32.toInt a k + Float32.toInt b j := by
            rw [← hz]
            cases c
            · simp [Float32.toInt]
            · simp only [Float32.toInt, if_true] at hz h0 ⊢
              have : m ≠ 0 := by
                intro e
                rw [e] at hz
                simp at hz
                exact h0 hz.symm
              have : -(m : Int) < 0 := by omega
              simp [this]
          rw [hc]
          push_cast
          rfl

theorem Float32.lt_toRat (x y : Float32) (p q : ℚ) (hx : x.toRat = some p)
    (hy : y.toRat = some q) : x < y ↔ p < q := by
  cases x with
  | nan => cases hx
  | inf a => cases hx
  | fin a k =>
    cases y with
    | nan => cases hy
    | inf b => cases hy
    | fin b j =>
      simp only [Float32.toRat, Option.some.injEq] at hx hy
      rw [Float32.lt_def, ← hx, ← hy]
      simp only [Float32.lt, decide_eq_true_eq]
      rw [div_lt_div_iff_of_pos_right (by positivity)]
      exact Int.cast_lt.symm

/-- C15, amended: on a numeric item, `next(loop)` returns true and, with s
the `float` sum of the value and the increment, sets the value to s unless
s > max, and then to min when `loop` is true and to max when it is false;
`prev(loop)` returns true and, with d the `float` difference, sets the value
to d unless d < min, and then to max when `loop` is true and to min when it
is false; the bounds, the increment and the fields of `MenuComponent` (the
focus among them) are unchanged, and so is every other object.  When the
exact sum (difference) of the two rationals is itself a `float`, s (d) is
that number, and s > max (d < min) is the comparison of the rationals. -/
theorem NumericMenuItem.stepping (s : State) (c : Ptr) (comp : MenuComponent)
    (n : NumericMenuItem) (loop : Bool)
    (hcomp : s.objs[c]? = some comp) (hk : comp.kind = .numericMenuItem n) :
    (MenuComponent.next s c loop
        = some (s.store c { comp with kind := .numericMenuItem (n.next loop) }, true) ∧
      (n.next loop).value
        = (if n.value + n.increment > n.max_value then
             (if loop then n.min_value else n.max_value)
           else n.value + n.increment) ∧
      (n.next loop).min_value = n.min_value ∧ (n.next loop).max_value = n.max_value ∧
      (n.next loop).increment = n.increment) ∧
    (MenuComponent.prev s c loop
        = some (s.store c { comp with kind := .numericMenuItem (n.prev loop) }, true) ∧
      (n.prev loop).value
        = (if n.value - n.increment < n.min_value then
             (if loop then n.max_value else n.min_value)
           else n.value - n.increment) ∧
      (n.prev loop).min_value = n.min_value ∧ (n.prev loop).max_value = n.max_value ∧
      (n.prev loop).increment = n.increment) ∧
    ∀ (v i : ℚ) (f : Float32), n.value.toRat = some v → n.increment.toRat = some i →
      f.valid →
      (f.toRat = some (v + i) →
        (n.value + n.increment).toRat = some (v + i) ∧
        ∀ b, n.max_value.toRat = some b → (n.value + n.increment > n.max_value ↔ v + i > b)) ∧
      (f.toRat = some (v - i) →
        (n.value - n.increment).toRat = some (v - i) ∧
        ∀ b, n.min_value.toRat = some b → (n.value - n.increment < n.min_value ↔ v - i < b)) := by
  refine ⟨⟨?_, ?_, ?_, ?_, ?_⟩, ⟨?_, ?_, ?_, ?_, ?_⟩, ?_⟩
  · unfold MenuComponent.next
    simp only [hcomp, hk]
  · unfold NumericMenuItem.next
    simp only
    split_ifs <;> rfl
  · simp only [NumericMenuItem.next]
    split_ifs <;> rfl
  · simp only [NumericMenuItem.next]
    split_ifs <;> rfl
  · simp only [NumericMenuItem.next]
    split_ifs <;> rfl
  · unfold MenuComponent.prev
    simp only [hcomp, hk]
  · unfold NumericMenuItem.prev
    simp only
    split_ifs <;> rfl
  · simp only [NumericMenuItem.prev]
    split_ifs <;> rfl
  · simp only [NumericMenuItem.prev]
    split_ifs <;> rfl
  · simp only [NumericMenuItem.prev]
    split_ifs <;> rfl
  · intro v i f hv hi hf
    constructor
    · intro hq
      have hs := Float32.add_toRat n.value n.increment f v i hv hi hf hq
      exact ⟨hs, fun b hb => Float32.lt_toRat _ _ b (v + i) hb hs⟩
    · intro hq
      have hi' := Float32.toRat_neg n.increment i hi
      have hs : (n.value - n.increment).toRat = some (v - i) := by
        have := Float32.add_toRat n.value (-n.increment) f v (-i) hv hi' hf
          (by rw [hq]; ring_nf)
        rw [sub_eq_add_neg]
        exact this
      exact ⟨hs, fun b hb => Float32.lt_toRat _ _ (v - i) b hs hb⟩

set_option maxRecDepth 100000 in
theorem NumericMenuItem.stepping_witness :
    (NumericMenuItem.next
      { value := 9, min_value := 0, max_value := 10, increment := 2 } false).value = 10 ∧
    (NumericMenuItem.next
      { value := 9, min_value := 0, max_value := 10, increment := 2 } true).value = 0 := by
  have h1 := (NumericMenuItem.stepping State.numeric_focused 1
    { has_focus := true, is_current := true, select_fn := false,
      kind := .numericMenuItem
        { value := 9, min_value := 0, max_value := 10, increment := 2 } }
    { value := 9, min_value := 0, max_value := 10, increment := 2 } false rfl rfl).1.2.1
  have h2 := (NumericMenuItem.stepping State.numeric_focused 1
    { has_focus := true, is_current := true, select_fn := false,
      kind := .numericMenuItem
        { value := 9, min_value := 0, max_value := 10, increment := 2 } }
    { value := 9, min_value := 0, max_value := 10, increment := 2 } true rfl rfl).1.2.1
  constructor
  · rw [h1]; decide
  · rw [h2]; decide

set_option maxRecDepth 100000 in
/-- C15, refuted as stated: with value 16777216, increment 1, minimum 0 and
maximum 16777216 the exact sum 16777217 is above the maximum, but it is not a
`float`: the `float` sum is 16777216, the test `_value > _max_value` fails
and `next(true)` leaves the value at 16777216 instead of setting it to the
minimum 0. -/
theorem NumericMenuItem.next_rounds_the_sum :
    Float32.toRat 16777216 = some 16777216 ∧ Float32.toRat 1 = some 1 ∧
    Float32.toRat 0 = some 0 ∧ ¬ ((16777216 : ℚ) + 1 ≤ 16777216) ∧
    (16777216 : Float32) + 1 = 16777216 ∧
    (NumericMenuItem.next
      { value := 16777216, min_value := 0, max_value := 16777216, increment := 1 }
      true).value = 16777216 ∧
    (NumericMenuItem.next
      { value := 16777216, min_value := 0, max_value := 16777216, increment := 1 }
      true).value ≠ 0 := by
  have e1 : (16777216 : Float32) = .fin false (16777216 * 2 ^ 149) := by decide
  have e2 : (1 : Float32) = .fin false (2 ^ 149) := by decide
  have e3 : (0 : Float32) = .fin false 0 := by decide
  refine ⟨?_, ?_, ?_, by norm_num, by decide, by decide, by decide⟩
  · rw [e1]
    norm_num [Float32.toRat, Float32.toInt]
  · rw [e2]
    norm_num [Float32.toRat, Float32.toInt]
  · rw [e3]
    norm_num [Float32.toRat, Float32.toInt]

theorem Float32.neg_nonneg_of_lt {x : Float32} (h : x < 0) : 0 ≤ -x := by
  rw [Float32.zero_def] at h ⊢
  rw [Float32.lt_def] at h
  rw [Float32.le_def, Float32.neg_def]
  cases x with
  | nan => simp [Float32.lt] at h
  | inf a => cases a <;> simp_all [Float32.lt, Float32.le, Float32.neg]
  | fin a k =>
    cases a <;> simp_all [Float32.lt, Float32.le, Float32.neg, Float32.toInt]
    omega

theorem NumericMenuItem.new_normalised (value min_value max_value increment : Float32)
    (hmin : min_value ≠ .nan) (hmax : max_value ≠ .nan) (hinc : increment ≠ .nan) :
    (NumericMenuItem.new value min_value max_value increment).min_value
      ≤ (NumericMenuItem.new value min_value max_value increment).max_value ∧
    0 ≤ (NumericMenuItem.new value min_value max_value increment).increment := by
  have h0 : (0 : Float32) ≠ .nan := by rw [Float32.zero_def]; exact fun h => by cases h
  unfold NumericMenuItem.new
  constructor
  · by_cases h : min_value > max_value
    · simp only [h, if_true]; exact Float32.le_of_lt' h
    · simp only [h, if_false]; exact Float32.le_of_not_lt h hmin hmax
  · have hi : 0 ≤ (if increment < 0 then -increment else increment) := by
      split
      · next h => exact Float32.neg_nonneg_of_lt h
      · next h => exact Float32.le_of_not_lt h h0 hinc
    by_cases h : min_value > max_value
    · simp only [h, if_true]; exact hi
    · simp only [h, if_false]; exact hi

set_option maxRecDepth 100000 in
/-- C16, at the failing input: the item constructed with value 5, bounds 0
and 10 and increment 1 has min <= max, and after `set_min_value(20)` its
minimum 20 is above its maximum 10; after `set_max_value(-1)` its maximum is
below its minimum 0. -/
theorem NumericMenuItem.set_min_value_breaks_order :
    (NumericMenuItem.new 5 0 10 1).min_value ≤ (NumericMenuItem.new 5 0 10 1).max_value ∧
    ((NumericMenuItem.new 5 0 10 1).set_min_value 20).max_value
      < ((NumericMenuItem.new 5 0 10 1).set_min_value 20).min_value ∧
    ((NumericMenuItem.new 5 0 10 1).set_max_value (-1)).max_value
      < ((NumericMenuItem.new 5 0 10 1).set_max_value (-1)).min_value := by
  decide

theorem State.set_same {l : List MenuComponent} {c : Nat} {v : MenuComponent}
    (h : l[c]? = some v) : l.set c v = l := by
  apply List.ext_getElem?
  intro x
  rw [List.getElem?_set]
  by_cases hx : c = x
  · subst hx
    simp [h, (List.getElem?_eq_some.mp h).1]
  · simp [hx]

theorem MenuComponent.select_numeric (s : State) (c : Ptr) (comp : MenuComponent)
    (n : NumericMenuItem) (hcomp : s.objs[c]? = some comp)
    (hk : comp.kind = .numericMenuItem n) :
    MenuComponent.select s c
      = some ({ objs := s.objs.set c { comp with has_focus := !comp.has_focus },
                fired := if comp.has_focus = true ∧ comp.select_fn = true
                  then s.fired ++ [c] else s.fired,
                p_root_menu := s.p_root_menu, p_curr_menu := s.p_curr_menu }, none) := by
  unfold MenuComponent.select
  simp only [hcomp, hk]
  cases hf : comp.has_focus <;> cases hs : comp.select_fn <;>
    simp [MenuComponent.base_select, State.store, hs]

theorem MenuComponent.select_times_numeric (c : Ptr) (n : NumericMenuItem) (k : Nat) :
    ∀ (s : State) (comp : MenuComponent), s.objs[c]? = some comp →
      comp.kind = .numericMenuItem n →
      ∃ s', MenuComponent.select_times k s c = some s' ∧
        s'.fired = s.fired ++ List.replicate
          (if comp.select_fn then (k + (if comp.has_focus then 1 else 0)) / 2 else 0) c ∧
        s'.objs = s.objs.set c
          { comp with has_focus := xor comp.has_focus (decide (k % 2 = 1)) } ∧
        s'.p_root_menu = s.p_root_menu ∧ s'.p_curr_menu = s.p_curr_menu := by
  induction k with
  | zero =>
    intro s comp hcomp _
    refine ⟨s, rfl, ?_, ?_, rfl, rfl⟩
    · cases comp.select_fn <;> cases comp.has_focus <;> simp
    · have : ({ comp with has_focus := xor comp.has_focus (decide (0 % 2 = 1)) }
          : MenuComponent) = comp := by
        cases comp; simp
      rw [this, State.set_same hcomp]
  | succ k ih =>
    intro s comp hcomp hk
    have hlt : c < s.objs.length := (List.getElem?_eq_some.mp hcomp).1
    have hsel := MenuComponent.select_numeric s c comp n hcomp hk
    obtain ⟨s', h1, h2, h3, h4, h5⟩ := ih
      { objs := s.objs.set c { comp with has_focus := !comp.has_focus },
        fired := if comp.has_focus = true ∧ comp.select_fn = true
          then s.fired ++ [c] else s.fired,
        p_root_menu := s.p_root_menu, p_curr_menu := s.p_curr_menu }
      { comp with has_focus := !comp.has_focus }
      (by simp [hlt]) hk
    refine ⟨s', ?_, ?_, ?_, h4, h5⟩
    · simp only [MenuComponent.select_times, hsel]
      exact h1
    · rw [h2]
      cases hf : comp.has_focus <;> cases hs : comp.select_fn
      · simp
      · simp
      · simp
      · have e : (k + 1 + 1) / 2 = k / 2 + 1 := by omega
        simp [e, List.replicate_succ]
    · rw [h3]
      simp only [List.set_set]
      congr 2
      have hpar : decide ((k + 1) % 2 = 1) = !decide (k % 2 = 1) := by
        by_cases hk2 : k % 2 = 1
        · have : ¬ (k + 1) % 2 = 1 := by omega
          simp [hk2, this]
        · have : (k + 1) % 2 = 1 := by omega
          simp [hk2, this]
      rw [hpar]
      cases comp.has_focus <;> cases decide (k % 2 = 1) <;> rfl

/-- C17: `select()` on a numeric item returns null; on an unfocused item it
sets the focus and runs no callback; on a focused item it clears the focus and
runs the callback once (when one is set); nothing else of the item and no
other object changes.  Over k selects on an unfocused item the callback runs
k/2 times (rounded down), the focus ends up set exactly when k is odd, and
the value, the bounds and the increment are unchanged. -/
theorem NumericMenuItem.select_toggles_focus (s : State) (c : Ptr) (comp : MenuComponent)
    (n : NumericMenuItem) (hcomp : s.objs[c]? = some comp)
    (hk : comp.kind = .numericMenuItem n) :
    (comp.has_focus = false →
      MenuComponent.select s c = some (s.store c { comp with has_focus := true }, none)) ∧
    (comp.has_focus = true →
      MenuComponent.select s c
        = some ({ s.store c { comp with has_focus := false } with
            fired := if comp.select_fn then s.fired ++ [c] else s.fired }, none)) ∧
    (comp.has_focus = false → ∀ k : Nat,
      ∃ s', MenuComponent.select_times k s c = some s' ∧
        s'.fired = s.fired ++ List.replicate (if comp.select_fn then k / 2 else 0) c ∧
        s'.objs = s.objs.set c { comp with has_focus := decide (k % 2 = 1) } ∧
        s'.p_root_menu = s.p_root_menu ∧ s'.p_curr_menu = s.p_curr_menu) := by
  have hsel := MenuComponent.select_numeric s c comp n hcomp hk
  refine ⟨?_, ?_, ?_⟩
  · intro hf
    rw [hsel]
    simp [hf, State.store]
  · intro hf
    rw [hsel]
    simp [hf, State.store]
  · intro hf k
    obtain ⟨s', h1, h2, h3, h4, h5⟩ :=
      MenuComponent.select_times_numeric c n k s comp hcomp hk
    refine ⟨s', h1, ?_, ?_, h4, h5⟩
    · rw [h2]; simp [hf]
    · rw [h3]; simp [hf]

theorem NumericMenuItem.select_toggles_focus_witness :
    ∃ s', MenuComponent.select_times 5 State.numeric_fresh 1 = some s' ∧
      s'.fired = [1, 1] ∧
      s'.objs = State.numeric_fresh.objs.set 1
        { has_focus := true, is_current := true, select_fn := true,
          kind := .numericMenuItem
            { value := 9, min_value := 0, max_value := 10, increment := 2 } } := by
  obtain ⟨s', h1, h2, h3, _⟩ :=
    (NumericMenuItem.select_toggles_focus State.numeric_fresh 1
      { has_focus := false, is_current := true, select_fn := true,
        kind := .numericMenuItem
          { value := 9, min_value := 0, max_value := 10, increment := 2 } }
      { value := 9, min_value := 0, max_value := 10, increment := 2 } rfl rfl).2.2 rfl 5
  exact ⟨s', h1, h2, h3⟩

theorem MenuSystem.next_some_cases {s : State} {loop : Bool} {r : State × Bool}
    (h : MenuSystem.next s loop = some r) :
    (∃ c, MenuComponent.next s c loop = some r) ∨ (∃ a, Menu.next s a loop = some r) := by
  unfold MenuSystem.next at h
  split at h
  · simp at h
  · split at h
    · simp at h
    · split at h
      · simp at h
      · split at h
        · simp at h
        · split at h
          · exact Or.inl ⟨_, h⟩
          · exact Or.inr ⟨_, h⟩

theorem MenuSystem.prev_some_cases {s : State} {loop : Bool} {r : State × Bool}
    (h : MenuSystem.prev s loop = some r) :
    (∃ c, MenuComponent.prev s c loop = some r) ∨ (∃ a, Menu.prev s a loop = some r) := by
  unfold MenuSystem.prev at h
  split at h
  · simp at h
  · split at h
    · simp at h
    · split at h
      · simp at h
      · split at h
        · simp at h
        · split at h
          · exact Or.inl ⟨_, h⟩
          · exact Or.inr ⟨_, h⟩

theorem State.same_items_toggle {s s' : State} (h : s.same_items s') {c : Ptr}
    {comp : MenuComponent} {st : Bool} (hcomp : s.objs[c]? = some comp)
    (hk : comp.kind = .toggleMenuItem st) :
    ∃ comp', s'.objs[c]? = some comp' ∧ comp'.kind = .toggleMenuItem st ∧
      comp'.has_focus = comp.has_focus := by
  obtain ⟨comp', h1, h2, _, h3⟩ := h.2 c comp hcomp
  rw [hk] at h3
  exact ⟨comp', h1, h3, h2⟩

theorem MenuComponent.virtual_next_prev_keeps_toggle {s s' : State} {c' : Ptr}
    {loop r : Bool}
    (h : MenuComponent.next s c' loop = some (s', r)
      ∨ MenuComponent.prev s c' loop = some (s', r))
    {c : Ptr} {comp : MenuComponent} {st : Bool} (hcomp : s.objs[c]? = some comp)
    (hk : comp.kind = .toggleMenuItem st) :
    ∃ comp', s'.objs[c]? = some comp' ∧ comp'.kind = .toggleMenuItem st ∧
      comp'.has_focus = comp.has_focus := by
  cases ho : s.objs[c']? with
  | none =>
    unfold MenuComponent.next MenuComponent.prev at h
    simp [ho] at h
  | some comp0 =>
    by_cases hmenu : ∃ mc, comp0.kind = .menu mc
    · obtain ⟨mc, hmc⟩ := hmenu
      unfold MenuComponent.next MenuComponent.prev at h
      simp only [ho, hmc] at h
      cases h with
      | inl h => exact State.same_items_toggle (Menu.same_items_next h) hcomp hk
      | inr h => exact State.same_items_toggle (Menu.same_items_prev h) hcomp hk
    · have hnm : ∀ mc, comp0.kind ≠ .menu mc := fun mc e => hmenu ⟨mc, e⟩
      obtain ⟨k, _, hs'⟩ := MenuComponent.next_prev_frame s s' c' comp0 loop r ho hnm h
      subst hs'
      by_cases hcc : c' = c
      · subst hcc
        rw [ho] at hcomp
        simp only [Option.some.injEq] at hcomp
        subst hcomp
        unfold MenuComponent.next MenuComponent.prev at h
        simp only [ho, hk, Option.some.injEq, Prod.mk.injEq, or_self] at h
        rw [← h.1]
        exact ⟨comp0, ho, hk, rfl⟩
      · refine ⟨comp, ?_, hk, rfl⟩
        unfold State.store
        simp only
        rw [List.getElem?_set_ne hcc]
        exact hcomp

theorem MenuComponent.select_toggle (s : State) (c : Ptr) (comp : MenuComponent)
    (st : Bool) (hcomp : s.objs[c]? = some comp) (hk : comp.kind = .toggleMenuItem st) :
    MenuComponent.select s c
      = some ({ objs := s.objs.set c { comp with kind := .toggleMenuItem (!st) },
                fired := if comp.select_fn then s.fired ++ [c] else s.fired,
                p_root_menu := s.p_root_menu, p_curr_menu := s.p_curr_menu }, none) := by
  unfold MenuComponent.select
  simp only [hcomp, hk]
  cases hs : comp.select_fn <;> simp [MenuComponent.base_select, State.store, hs]

/-- C18: `select()` on a toggle item flips the state, runs the callback once
(when one is set), returns null and leaves the focus flag as it is; `next`
and `prev` on the item return false and change nothing, and no call of
`MenuSystem::next`/`prev` changes the state or the focus flag of the item; two
consecutive selects restore the heap (the callback having run twice). -/
theorem ToggleMenuItem.select_flips_state (s : State) (c : Ptr) (comp : MenuComponent)
    (st : Bool) (hcomp : s.objs[c]? = some comp) (hk : comp.kind = .toggleMenuItem st) :
    MenuComponent.select s c
      = some ({ objs := s.objs.set c { comp with kind := .toggleMenuItem (!st) },
                fired := if comp.select_fn then s.fired ++ [c] else s.fired,
                p_root_menu := s.p_root_menu, p_curr_menu := s.p_curr_menu }, none) ∧
    (∀ loop, MenuComponent.next s c loop = some (s, false) ∧
      MenuComponent.prev s c loop = some (s, false)) ∧
    (∀ loop s' r,
      (MenuSystem.next s loop = some (s', r) ∨ MenuSystem.prev s loop = some (s', r)) →
      ∃ comp', s'.objs[c]? = some comp' ∧ comp'.kind = .toggleMenuItem st ∧
        comp'.has_focus = comp.has_focus) ∧
    MenuComponent.select_times 2 s c
      = some { objs := s.objs,
               fired := s.fired ++ (if comp.select_fn then [c, c] else []),
               p_root_menu := s.p_root_menu, p_curr_menu := s.p_curr_menu } := by
  have hlt : c < s.objs.length := (List.getElem?_eq_some.mp hcomp).1
  have hsel := MenuComponent.select_toggle s c comp st hcomp hk
  refine ⟨hsel, ?_, ?_, ?_⟩
  · intro loop
    unfold MenuComponent.next MenuComponent.prev
    simp only [hcomp, hk, and_self]
  · intro loop s' r h
    cases h with
    | inl h =>
      rcases MenuSystem.next_some_cases h with ⟨c', h'⟩ | ⟨a, h'⟩
      · exact MenuComponent.virtual_next_prev_keeps_toggle (Or.inl h') hcomp hk
      · exact State.same_items_toggle (Menu.same_items_next h') hcomp hk
    | inr h =>
      rcases MenuSystem.prev_some_cases h with ⟨c', h'⟩ | ⟨a, h'⟩
      · exact MenuComponent.virtual_next_prev_keeps_toggle (Or.inr h') hcomp hk
      · exact State.same_items_toggle (Menu.same_items_prev h') hcomp hk
  · have hsel2 := MenuComponent.select_toggle
      { objs := s.objs.set c { comp with kind := .toggleMenuItem (!st) },
        fired := if comp.select_fn then s.fired ++ [c] else s.fired,
        p_root_menu := s.p_root_menu, p_curr_menu := s.p_curr_menu } c
      { comp with kind := .toggleMenuItem (!st) } (!st)
      (by simp [hlt]) rfl
    have hback : ({ comp with kind := .toggleMenuItem st } : MenuComponent) = comp := by
      cases comp; simp at hk ⊢; exact hk.symm
    simp only [MenuComponent.select_times, hsel, hsel2, List.set_set, Bool.not_not, hback,
      State.set_same hcomp]
    cases comp.select_fn <;> simp

theorem ToggleMenuItem.select_flips_state_witness :
    MenuComponent.select State.toggle_item 1
      = some ({ objs := State.toggle_item.objs.set 1
                  { has_focus := false, is_current := true, select_fn := true,
                    kind := .toggleMenuItem true },
                fired := [1], p_root_menu := 0, p_curr_menu := some 0 }, none) :=
  (ToggleMenuItem.select_flips_state State.toggle_item 1
    { has_focus := false, is_current := true, select_fn := true,
      kind := .toggleMenuItem false } false rfl rfl).1

/-- C19: `select()` on a text item returns null and leaves the buffer and
every other object as they are; (1) not focused: the focus is set, the
sub-state becomes SELECTION and the cursor 1, no callback; (2) focused,
SELECTION, cursor 0: the focus is cleared and the callback runs once (when one
is set); (3) focused, SELECTION, cursor not 0: the sub-state becomes EDITING,
the cursor stays, no callback; (4) focused, EDITING: the sub-state becomes
SELECTION, the cursor stays, no callback. -/
theorem TextEditMenuItem.select_transitions (s : State) (c : Ptr) (comp : MenuComponent)
    (t : TextEditMenuItem) (hcomp : s.objs[c]? = some comp)
    (hk : comp.kind = .textEditMenuItem t) :
    (comp.has_focus = false →
      MenuComponent.select s c
        = some (s.store c { comp with
            has_focus := true,
            kind := .textEditMenuItem { t with editing_state := .SELECTION, pos := 1 } },
          none)) ∧
    (comp.has_focus = true → t.editing_state = .SELECTION → t.pos = 0 →
      MenuComponent.select s c
        = some ({ s.store c { comp with has_focus := false } with
            fired := if comp.select_fn then s.fired ++ [c] else s.fired }, none)) ∧
    (comp.has_focus = true → t.editing_state = .SELECTION → t.pos ≠ 0 →
      MenuComponent.select s c
        = some (s.store c { comp with
            kind := .textEditMenuItem { t with editing_state := .EDITING } }, none)) ∧
    (comp.has_focus = true → t.editing_state = .EDITING →
      MenuComponent.select s c
        = some (s.store c { comp with
            kind := .textEditMenuItem { t with editing_state := .SELECTION } }, none)) := by
  refine ⟨?_, ?_, ?_, ?_⟩
  · intro hf
    unfold MenuComponent.select
    simp only [hcomp, hk]
    simp [TextEditMenuItem.select, hf]
  · intro hf hst hp
    unfold MenuComponent.select
    simp only [hcomp, hk]
    cases hs : comp.select_fn <;>
      simp [TextEditMenuItem.select, hf, hst, hp, MenuComponent.base_select, State.store, hs,
        ← hk]
  · intro hf hst hp
    unfold MenuComponent.select
    simp only [hcomp, hk]
    simp [TextEditMenuItem.select, hf, hst, hp]
  · intro hf hst
    unfold MenuComponent.select
    simp only [hcomp, hk]
    simp [TextEditMenuItem.select, hf, hst]

theorem TextEditMenuItem.select_transitions_witness :
    MenuComponent.select (State.text_item true .SELECTION 0) 1
      = some ({ (State.text_item true .SELECTION 0).store 1
          { has_focus := false, is_current := true, select_fn := true,
            kind := .textEditMenuItem
              { editing_state := .SELECTION, value := [65, 66], size := 2, pos := 0 } } with
          fired := [1] }, none) :=
  (TextEditMenuItem.select_transitions (State.text_item true .SELECTION 0) 1
    { has_focus := true, is_current := true, select_fn := true,
      kind := .textEditMenuItem
        { editing_state := .SELECTION, value := [65, 66], size := 2, pos := 0 } }
    { editing_state := .SELECTION, value := [65, 66], size := 2, pos := 0 }
    rfl rfl).2.1 rfl rfl rfl

/-- While the incremented cursor fits `uint8_t` (cursor below 255), `next`
in the sub-state SELECTION moves the cursor to min(p+1, size), and `prev`
moves it to p-1, or leaves it at 0; the buffer, the size and the sub-state
are unchanged. -/
theorem TextEditMenuItem.cursor_moves_below_255 (t : TextEditMenuItem) (loop : Bool)
    (hst : t.editing_state = .SELECTION) :
    (t.pos < 255 → t.next loop = some { t with pos := min (t.pos + 1) t.size }) ∧
    t.prev loop = some { t with pos := t.pos - 1 } := by
  constructor
  · intro hp
    have hmod : (t.pos + 1) % 256 = t.pos + 1 := Nat.mod_eq_of_lt (by omega)
    unfold TextEditMenuItem.next
    simp only [hst, hmod]
    by_cases h : t.pos + 1 > t.size
    · simp [h, Nat.min_eq_right (Nat.le_of_lt h)]
    · simp [h, Nat.min_eq_left (Nat.le_of_not_gt h)]
  · unfold TextEditMenuItem.prev
    simp only [hst]
    by_cases h : t.pos = 0
    · simp [h]
      cases t; simp_all
    · simp [h]

theorem TextEditMenuItem.next_times_full (k : Nat) :
    ∀ p, p + k ≤ 255 →
      TextEditMenuItem.next_times k (TextEditMenuItem.full .SELECTION p) false
        = some (TextEditMenuItem.full .SELECTION (p + k)) := by
  induction k with
  | zero => intro p _; rfl
  | succ k ih =>
    intro p hp
    have h1 := (TextEditMenuItem.cursor_moves_below_255
      (TextEditMenuItem.full .SELECTION p) false rfl).1
      (show (TextEditMenuItem.full .SELECTION p).pos < 255 by
        show p < 255; omega)
    have h2 : ({ TextEditMenuItem.full .SELECTION p with
        pos := min ((TextEditMenuItem.full .SELECTION p).pos + 1)
          (TextEditMenuItem.full .SELECTION p).size } : TextEditMenuItem)
        = TextEditMenuItem.full .SELECTION (p + 1) := by
      show ({ TextEditMenuItem.full .SELECTION p with pos := min (p + 1) 255 }
        : TextEditMenuItem) = _
      rw [Nat.min_eq_left (by omega)]
      rfl
    simp only [TextEditMenuItem.next_times, h1, h2]
    rw [ih (p + 1) (by omega)]
    congr 2
    omega

/-- C20, at the failing input: a text item of size 255 entered by `select()`
has the cursor at 1 in the sub-state SELECTION; 254 calls of `next` bring the
cursor to 255, the size; one more `next`, with `loop` false or true, wraps the
8-bit cursor to 0, which the test `_pos > _size` then lets stand. -/
theorem TextEditMenuItem.cursor_wraps_at_255 :
    (TextEditMenuItem.select false (TextEditMenuItem.full .FOCUSED 0)).2
      = TextEditMenuItem.full .SELECTION 1 ∧
    TextEditMenuItem.next_times 254 (TextEditMenuItem.full .SELECTION 1) false
      = some (TextEditMenuItem.full .SELECTION 255) ∧
    (TextEditMenuItem.full .SELECTION 255).next false
      = some (TextEditMenuItem.full .SELECTION 0) ∧
    (TextEditMenuItem.full .SELECTION 255).next true
      = some (TextEditMenuItem.full .SELECTION 0) := by
  refine ⟨rfl, TextEditMenuItem.next_times_full 254 1 (by omega), ?_, ?_⟩
  · rfl
  · rfl

theorem MenuComponent.virtual_reset_same_items
    (menu_reset : State → Ptr → Option State)
    (hmr : ∀ st c st', menu_reset st c = some st' → st.same_items st')
    (st : State) (p : Option (Option Ptr)) (st' : State)
    (h : MenuComponent.reset menu_reset st p = some st') : st.same_items st' := by
  unfold MenuComponent.reset at h
  split at h
  · rename_i c
    cases ho : st.objs[c]? with
    | none => simp [ho] at h
    | some comp =>
      simp only [ho] at h
      split at h
      · exact hmr _ _ _ h
      · simp only [Option.some.injEq] at h
        rw [← h]; exact State.same_items_refl st
  · simp at h

theorem Menu.same_items_reset (fuel : Nat) :
    ∀ (s s' : State) (self : Ptr), Menu.reset fuel s self = some s' → s.same_items s' := by
  induction fuel with
  | zero => intro s s' self h; simp [Menu.reset] at h
  | succ fuel ih =>
    intro s s' self h
    unfold Menu.reset at h
    cases hm : s.menuAt self with
    | none => simp [hm] at h
    | some m =>
      simp only [hm] at h
      cases hl : (List.range m.num_components).foldlM
          (fun st i => MenuComponent.reset (Menu.reset fuel) st m.menu_components[i]?) s with
      | none => simp [hl] at h
      | some s1 =>
        simp only [hl] at h
        have h1 : s.same_items s1 := by
          refine foldlM_option_inv _ (fun st => s.same_items st) ?_ _ s s1 hl
            (State.same_items_refl s)
          intro st i st' hstep hp
          exact State.same_items_trans hp
            (MenuComponent.virtual_reset_same_items _ (fun t c t' ht => ih t t' c ht)
              st _ st' hstep)
        cases hm1 : s1.menuAt self with
        | none => simp [hm1] at h
        | some m1 =>
          simp only [hm1] at h
          cases h2 : MenuComponent.set_current s1 m1.p_current_component false with
          | none => simp [h2] at h
          | some s2 =>
            simp only [h2] at h
            have e2 := MenuComponent.same_items_set_current h2
            obtain ⟨m2, hm2, a1, a2, a3⟩ := State.menuAt_same_items e2 hm1
            split at h
            · cases h0 : m1.menu_components[0]? with
              | none => simp [h0] at h
              | some p0 =>
                simp only [h0] at h
                have e3 := State.same_items_setMenu s2 self m2
                  { m1 with previous_component_num := 0, current_component_num := 0,
                            p_current_component := p0 } hm2 a1.symm a2.symm a3.symm
                exact State.same_items_trans h1 (State.same_items_trans e2
                  (State.same_items_trans e3 (MenuComponent.same_items_set_current h)))
            · simp [MenuComponent.set_current] at h

/-- The `has_focus` of every object is the same before and after
`MenuSystem::reset`, whenever it returns. -/
theorem MenuSystem.reset_keeps_has_focus {fuel : Nat} {s s' : State}
    (h : MenuSystem.reset fuel s = some s') :
    ∀ x : Ptr, s'.has_focus x = s.has_focus x := by
  unfold MenuSystem.reset at h
  have hsi := Menu.same_items_reset fuel _ s' _ h
  intro x
  unfold State.has_focus
  cases ho : s.objs[x]? with
  | none =>
    have hlen : s'.objs.length = s.objs.length := hsi.1
    have : s.objs.length ≤ x := List.getElem?_eq_none_iff.mp ho
    rw [List.getElem?_eq_none (by omega)]
  | some comp =>
    obtain ⟨comp', h1, h2, _⟩ := hsi.2 x comp ho
    rw [h1]
    simp [h2]

set_option maxRecDepth 100000 in
/-- C13, at the failing input: the root menu holds one numeric item;
`select()` gives it focus; `MenuSystem::reset` returns the very same state,
the item still focused; the following `MenuSystem::next` is the `next` of the
item, which returns true and steps the value from 9 to 10 instead of moving
among the children of the root.  Likewise with the plain item A before the
focused numeric item N in the root menu: `MenuSystem::reset` makes A current
and leaves N focused, the first `MenuSystem::next` moves to N and the second
one steps the value of N from 9 to 10. -/
theorem MenuSystem.reset_leaves_numeric_item_focused :
    MenuSystem.select 1 State.numeric_fresh false = some State.numeric_entered ∧
    MenuSystem.reset 1 State.numeric_entered = some State.numeric_entered ∧
    State.numeric_entered.has_focus 1 = some true ∧
    MenuSystem.next State.numeric_entered false
      = MenuComponent.next State.numeric_entered 1 false ∧
    MenuSystem.next State.numeric_entered false
      = some (State.numeric_entered.store 1
          { has_focus := true, is_current := true, select_fn := true,
            kind := .numericMenuItem (NumericMenuItem.next
              { value := 9, min_value := 0, max_value := 10, increment := 2 } false) },
          true) ∧
    (NumericMenuItem.next
      { value := 9, min_value := 0, max_value := 10, increment := 2 } false).value = 10 ∧
    MenuSystem.reset 1 (State.plain_and_numeric 1) = some (State.plain_and_numeric 0) ∧
    (State.plain_and_numeric 0).has_focus 2 = some true ∧
    MenuSystem.next (State.plain_and_numeric 0) false
      = some (State.plain_and_numeric 1, true) ∧
    MenuSystem.next (State.plain_and_numeric 1) false
      = some ((State.plain_and_numeric 1).store 2
          { has_focus := true, is_current := true, select_fn := true,
            kind := .numericMenuItem
              { value := 10, min_value := 0, max_value := 10, increment := 2 } },
          true) := by
  refine ⟨rfl, rfl, rfl, rfl, rfl, by decide, rfl, rfl, rfl, by decide⟩

theorem State.menuAt_none_same_items {s s' : State} (h : s.same_items s') {x : Ptr}
    (hm : s.menuAt x = none) : s'.menuAt x = none := by
  unfold State.menuAt at hm ⊢
  cases ho : s.objs[x]? with
  | none =>
    have : s.objs.length ≤ x := List.getElem?_eq_none_iff.mp ho
    rw [List.getElem?_eq_none (by rw [h.1]; exact this)]
  | some c =>
    rw [ho] at hm
    obtain ⟨c', hc', _, _, hk⟩ := h.2 x c ho
    rw [hc']
    cases hkind : c.kind with
    | menu m => simp [hkind] at hm
    | menuItem => rw [hkind] at hk; simp only at hk; simp [hk]
    | backMenuItem ms => rw [hkind] at hk; simp only at hk; simp [hk]
    | numericMenuItem n => rw [hkind] at hk; simp only at hk; simp [hk]
    | numericDisplayMenuItem v => rw [hkind] at hk; simp only at hk; simp [hk]
    | toggleMenuItem st => rw [hkind] at hk; simp only at hk; simp [hk]
    | textEditMenuItem t => rw [hkind] at hk; simp only at hk; simp [hk]

theorem State.menuAt_same_items_rev {s s' : State} (h : s.same_items s') {x : Ptr}
    {m' : Menu} (hm : s'.menuAt x = some m') :
    ∃ m, s.menuAt x = some m ∧ m'.menu_components = m.menu_components ∧
      m'.num_components = m.num_components ∧ m'.p_parent = m.p_parent := by
  cases hs : s.menuAt x with
  | none => rw [State.menuAt_none_same_items h hs] at hm; cases hm
  | some m =>
    obtain ⟨m2, h2, e1, e2, e3⟩ := State.menuAt_same_items h hs
    rw [hm] at h2
    simp only [Option.some.injEq] at h2
    subst h2
    exact ⟨m, rfl, e1, e2, e3⟩

theorem State.fits_same_items (d : Nat) :
    ∀ (s s' : State) (a : Ptr), s.same_items s' → State.fits d s a → State.fits d s' a := by
  induction d with
  | zero =>
    intro s s' a h hf
    exact State.menuAt_none_same_items h hf
  | succ d ih =>
    intro s s' a h hf m' hm'
    obtain ⟨m, hm, e1, e2, _⟩ := State.menuAt_same_items_rev h (Option.mem_def.mp hm')
    obtain ⟨hn, hc⟩ := hf m (Option.mem_def.mpr hm)
    refine ⟨by rw [e2]; exact hn, ?_⟩
    intro e he c hce
    rw [e1] at he
    exact ih s s' c h (hc e he c hce)

theorem State.below_same_items (d : Nat) :
    ∀ (s s' : State) (a x : Ptr), s.same_items s' → State.below d s a x →
      State.below d s' a x := by
  induction d with
  | zero => intro s s' a x _ hb; exact hb
  | succ d ih =>
    intro s s' a x h hb
    rcases hb with hb | ⟨m, hm, e, he, c, hc, hb⟩
    · exact Or.inl hb
    · obtain ⟨m', hm', e1, _, _⟩ := State.menuAt_same_items h (Option.mem_def.mp hm)
      exact Or.inr ⟨m', Option.mem_def.mpr hm', e, by rw [e1]; exact he, c, hc,
        ih s s' c x h hb⟩

theorem foldlM_range_inv (f : State → Nat → Option State) (P : Nat → State → Prop)
    (n : Nat) (s : State) (h0 : P 0 s)
    (hstep : ∀ i st, i < n → P i st → ∃ st', f st i = some st' ∧ P (i + 1) st') :
    ∃ s', (List.range n).foldlM f s = some s' ∧ P n s' := by
  induction n with
  | zero => exact ⟨s, rfl, h0⟩
  | succ n ih =>
    obtain ⟨s1, h1, p1⟩ := ih (fun i st hi hp => hstep i st (by omega) hp)
    obtain ⟨s2, h2, p2⟩ := hstep n s1 (by omega) p1
    refine ⟨s2, ?_, p2⟩
    rw [List.range_succ, List.foldlM_append, h1]
    simp [h2]

theorem Menu.length_rewind (s : State) (a : Ptr) (m : Menu) (pc p0 : Ptr) :
    (Menu.rewind s a m pc p0).objs.length = s.objs.length := by
  simp [Menu.rewind, State.setMenu_eq]

theorem Menu.menuAt_rewind (s : State) (a : Ptr) (m : Menu) (pc p0 x : Ptr)
    (hm : s.menuAt a = some m) :
    (Menu.rewind s a m pc p0).menuAt x
      = if x = a then some { m with previous_component_num := 0,
                                    current_component_num := 0,
                                    p_current_component := some p0 }
        else s.menuAt x := by
  unfold Menu.rewind
  rw [State.menuAt_with_current]
  by_cases hx : x = a
  · subst hx
    rw [if_pos rfl]
    exact State.menuAt_setMenu_self _ _ m _ (by rw [State.menuAt_with_current]; exact hm)
  · rw [if_neg hx, State.menuAt_setMenu_ne _ _ _ _ hx, State.menuAt_with_current]

theorem State.is_current_lt {s : State} {y : Ptr} (h : y < s.objs.length) :
    ∃ b, s.is_current y = some b := by
  unfold State.is_current
  rw [List.getElem?_eq_getElem h]
  exact ⟨_, rfl⟩

theorem Menu.is_current_rewind (s : State) (a : Ptr) (m : Menu) (pc p0 y : Ptr)
    (hp0 : p0 < s.objs.length) (hpc : pc < s.objs.length) :
    (Menu.rewind s a m pc p0).is_current y
      = if y = p0 then some true else if y = pc then some false else s.is_current y := by
  unfold Menu.rewind
  rw [State.is_current_with_current, State.is_current_setMenu,
    State.is_current_with_current]
  obtain ⟨b0, hb0⟩ := State.is_current_lt hp0
  obtain ⟨bc, hbc⟩ := State.is_current_lt hpc
  by_cases h0 : y = p0
  · subst h0
    by_cases hc : y = pc
    · simp [hc, hbc]
    · simp [hc, hb0]
  · by_cases hc : y = pc
    · subst hc
      simp [h0, hbc]
    · simp [h0, hc]

theorem Menu.same_items_rewind (s : State) (a : Ptr) (m : Menu) (pc p0 : Ptr)
    (hm : s.menuAt a = some m) : s.same_items (Menu.rewind s a m pc p0) := by
  unfold Menu.rewind
  refine State.same_items_trans (State.same_items_trans
    (State.same_items_with_current s pc false) ?_) (State.same_items_with_current _ p0 true)
  exact State.same_items_setMenu _ a m _
    (by rw [State.menuAt_with_current]; exact hm) rfl rfl rfl

theorem State.forest_sound {s : State} (h : s.forest) {x : Ptr} {m : Menu}
    (hm : s.menuAt x = some m) : m.sound s :=
  h.1 x (State.menuAt_lt hm) m (Option.mem_def.mpr hm)

theorem State.forest_apart {s : State} (h : s.forest) {x1 x2 : Ptr} {m1 m2 : Menu}
    (hm1 : s.menuAt x1 = some m1) (hm2 : s.menuAt x2 = some m2) (hne : x1 ≠ x2)
    {y : Ptr} (h1 : some y ∈ m1.menu_components) : some y ∉ m2.menu_components :=
  h.2 x1 (State.menuAt_lt hm1) x2 (State.menuAt_lt hm2) hne m1 (Option.mem_def.mpr hm1)
    m2 (Option.mem_def.mpr hm2) (some y) h1

theorem Menu.wf_mem {s : State} {m : Menu} (h : m.wf s) {y : Ptr}
    (hy : some y ∈ m.menu_components) : y < s.objs.length :=
  h.2.2.2 (some y) hy

theorem Menu.mem_of_getElem? {m : Menu} {i : Nat} {e : Option Ptr}
    (h : m.menu_components[i]? = some e) : e ∈ m.menu_components := by
  obtain ⟨hi, he⟩ := List.getElem?_eq_some.mp h
  rw [← he]
  exact List.getElem_mem hi

/-- The preconditions under which the end of `Menu::reset` is described by
`Menu.rewind`. -/
theorem Menu.rewind_forest (s : State) (a : Ptr) (m : Menu) (pc p0 : Ptr)
    (hf : s.forest) (hm : s.menuAt a = some m) (hn : m.num_components ≠ 0)
    (hpc : m.p_current_component = some pc)
    (hp0 : m.menu_components[0]? = some (some p0)) :
    (Menu.rewind s a m pc p0).forest := by
  have hsound := State.forest_sound hf hm
  obtain ⟨hwf, hnd, hcur, hflag⟩ := hsound
  have hp0mem : some p0 ∈ m.menu_components := Menu.mem_of_getElem? hp0
  have hpcmem : some pc ∈ m.menu_components := by rw [← hpc]; exact hcur hn
  have hp0lt := Menu.wf_mem hwf hp0mem
  have hpclt := Menu.wf_mem hwf hpcmem
  have hlen := Menu.length_rewind s a m pc p0
  have hmenu := fun x => Menu.menuAt_rewind s a m pc p0 x hm
  have hfl := fun y => Menu.is_current_rewind s a m pc p0 y hp0lt hpclt
  constructor
  · intro x _ m1 hm1
    have hm1' := Option.mem_def.mp hm1
    rw [hmenu] at hm1'
    by_cases hx : x = a
    · rw [if_pos hx] at hm1'
      simp only [Option.some.injEq] at hm1'
      subst hm1'
      refine ⟨Menu.wf_transfer hwf hlen rfl rfl (fun _ => Nat.pos_of_ne_zero hn), hnd,
        fun _ => hp0mem, ?_⟩
      intro e he y hy hcurr
      have hy' := Option.mem_def.mp hy
      subst hy'
      rw [hfl] at hcurr
      by_cases h0 : y = p0
      · rw [h0]
      · rw [if_neg h0] at hcurr
        by_cases hc : y = pc
        · rw [if_pos hc] at hcurr; simp at hcurr
        · rw [if_neg hc] at hcurr
          have := hflag (some y) he y rfl hcurr
          rw [hpc] at this
          simp only [Option.some.injEq] at this
          exact absurd this.symm hc
    · rw [if_neg hx] at hm1'
      obtain ⟨hwf1, hnd1, hcur1, hflag1⟩ := State.forest_sound hf hm1'
      refine ⟨Menu.wf_transfer hwf1 hlen rfl rfl hwf1.2.2.1, hnd1, hcur1, ?_⟩
      intro e he y hy hcurr
      have hy' := Option.mem_def.mp hy
      subst hy'
      have hnot0 : y ≠ p0 := by
        intro e0
        rw [e0] at he
        exact State.forest_apart hf hm hm1' (fun e1 => hx e1.symm) hp0mem he
      have hnotc : y ≠ pc := by
        intro e0
        rw [e0] at he
        exact State.forest_apart hf hm hm1' (fun e1 => hx e1.symm) hpcmem he
      rw [hfl, if_neg hnot0, if_neg hnotc] at hcurr
      exact hflag1 (some y) he y rfl hcurr
  · intro x1 _ x2 _ hne m1 hm1 m2 hm2 e he
    have hm1' := Option.mem_def.mp hm1
    have hm2' := Option.mem_def.mp hm2
    rw [hmenu] at hm1' hm2'
    have key : ∀ x (mx : Menu), (if x = a then some
        { m with previous_component_num := 0, current_component_num := 0,
                 p_current_component := some p0 } else s.menuAt x) = some mx →
        ∃ mo, s.menuAt x = some mo ∧ mo.menu_components = mx.menu_components := by
      intro x mx hx
      by_cases hxa : x = a
      · rw [if_pos hxa] at hx
        simp only [Option.some.injEq] at hx
        subst hx
        exact ⟨m, by rw [hxa]; exact hm, rfl⟩
      · rw [if_neg hxa] at hx
        exact ⟨mx, hx, rfl⟩
    obtain ⟨o1, ho1, e1⟩ := key x1 m1 hm1'
    obtain ⟨o2, ho2, e2⟩ := key x2 m2 hm2'
    rw [← e1] at he
    rw [← e2]
    exact hf.2 x1 (State.menuAt_lt ho1) x2 (State.menuAt_lt ho2) hne o1
      (Option.mem_def.mpr ho1) o2 (Option.mem_def.mpr ho2) e he

theorem Menu.rewind_rewound (s : State) (a : Ptr) (m : Menu) (pc p0 : Ptr)
    (hf : s.forest) (hm : s.menuAt a = some m) (hn : m.num_components ≠ 0)
    (hpc : m.p_current_component = some pc)
    (hp0 : m.menu_components[0]? = some (some p0)) :
    (Menu.rewind s a m pc p0).rewound a ∧
    ∀ x, s.rewound x → (Menu.rewind s a m pc p0).rewound x := by
  obtain ⟨hwf, hnd, hcur, hflag⟩ := State.forest_sound hf hm
  have hp0mem : some p0 ∈ m.menu_components := Menu.mem_of_getElem? hp0
  have hpcmem : some pc ∈ m.menu_components := by rw [← hpc]; exact hcur hn
  have hp0lt := Menu.wf_mem hwf hp0mem
  have hpclt := Menu.wf_mem hwf hpcmem
  have hmenu := fun x => Menu.menuAt_rewind s a m pc p0 x hm
  have hfl := fun y => Menu.is_current_rewind s a m pc p0 y hp0lt hpclt
  have hlen0 : 0 < m.menu_components.length := by
    rw [← hwf.1]; exact Nat.pos_of_ne_zero hn
  have hself : (Menu.rewind s a m pc p0).rewound a := by
    intro m1 hm1
    have hm1' := Option.mem_def.mp hm1
    rw [hmenu, if_pos rfl] at hm1'
    simp only [Option.some.injEq] at hm1'
    subst hm1'
    refine ⟨rfl, rfl, ?_⟩
    intro i hi
    obtain ⟨y, hy, hylt⟩ := Menu.wf_entry hwf hi
    show (match m.menu_components[i]? with
      | some (some q) => (Menu.rewind s a m pc p0).is_current q
      | _ => none) = some (decide (i = 0))
    rw [hy]
    simp only
    rw [hfl]
    by_cases hi0 : i = 0
    · subst hi0
      rw [hp0] at hy
      simp only [Option.some.injEq] at hy
      simp [hy]
    · have hne0 : y ≠ p0 := by
        intro e0
        rw [e0, ← hp0] at hy
        exact hi0 (List.getElem?_inj (by rw [← hwf.1]; exact hi) hnd hy)
      rw [if_neg hne0]
      by_cases hc : y = pc
      · simp [hc, hi0]
      · rw [if_neg hc]
        obtain ⟨b, hb⟩ := State.is_current_lt hylt
        rw [hb]
        cases b with
        | false => simp [hi0]
        | true =>
          have := hflag (some y) (Menu.mem_of_getElem? hy) y rfl hb
          rw [hpc] at this
          simp only [Option.some.injEq] at this
          exact absurd this.symm hc
  refine ⟨hself, ?_⟩
  intro x hx
  by_cases hxa : x = a
  · rw [hxa]; exact hself
  · intro m2 hm2
    have hm2' := Option.mem_def.mp hm2
    rw [hmenu, if_neg hxa] at hm2'
    obtain ⟨h1, h2, h3⟩ := hx m2 (Option.mem_def.mpr hm2')
    refine ⟨h1, h2, ?_⟩
    intro i hi
    have := h3 i hi
    cases he : m2.menu_components[i]? with
    | none => rw [he] at this; simp at this
    | some e =>
      cases e with
      | none => rw [he] at this; simp at this
      | some y =>
        rw [he] at this
        simp only at this ⊢
        have hmem : some y ∈ m2.menu_components := Menu.mem_of_getElem? he
        have hnot0 : y ≠ p0 := by
          intro e0
          rw [e0] at hmem
          exact State.forest_apart hf hm hm2' (fun e1 => hxa e1.symm) hp0mem hmem
        have hnotc : y ≠ pc := by
          intro e0
          rw [e0] at hmem
          exact State.forest_apart hf hm hm2' (fun e1 => hxa e1.symm) hpcmem hmem
        rw [hfl, if_neg hnot0, if_neg hnotc]
        exact this

theorem Menu.reset_eq_rewind (d : Nat) (s s1 : State) (a : Ptr) (m m1 : Menu) (pc p0 : Ptr)
    (hm : s.menuAt a = some m)
    (hl : (List.range m.num_components).foldlM
      (fun st i => MenuComponent.reset (Menu.reset d) st m.menu_components[i]?) s = some s1)
    (hm1 : s1.menuAt a = some m1) (hn : m1.num_components ≠ 0)
    (hpc : m1.p_current_component = some pc) (hpclt : pc < s1.objs.length)
    (hp0 : m1.menu_components[0]? = some (some p0)) (hp0lt : p0 < s1.objs.length) :
    Menu.reset (d + 1) s a = some (Menu.rewind s1 a m1 pc p0) := by
  unfold Menu.reset
  simp only [hm, hl, hm1, hpc]
  rw [MenuComponent.set_current_eq' s1 pc false hpclt]
  simp only [hn, ne_eq, not_false_eq_true, if_true, hp0]
  rw [MenuComponent.set_current_eq' _ p0 true
    (by rw [State.setMenu_eq]; simpa using hp0lt)]
  rfl

theorem State.below_not_menu (d : Nat) (s : State) (c x : Ptr) (hc : s.menuAt c = none)
    (hb : State.below d s c x) : x = c := by
  cases d with
  | zero => exact hb
  | succ d =>
    rcases hb with hb | ⟨m, hm, _⟩
    · exact hb
    · rw [hc] at hm; cases hm

theorem State.rewound_not_menu (s : State) (x : Ptr) (hx : s.menuAt x = none) :
    s.rewound x := by
  intro m hm
  rw [hx] at hm
  cases hm

theorem MenuComponent.virtual_reset_eq (menu_reset : State → Ptr → Option State)
    (st : State) (c : Ptr) (comp : MenuComponent) (hcomp : st.objs[c]? = some comp) :
    MenuComponent.reset menu_reset st (some (some c))
      = if st.menuAt c = none then some st else menu_reset st c := by
  unfold MenuComponent.reset State.menuAt
  simp only [hcomp]
  cases comp.kind <;> simp

theorem Menu.reset_rewinds (d : Nat) :
    ∀ (t : State) (a : Ptr) (m : Menu), t.forest → State.fits d t a →
      t.menuAt a = some m →
      ∃ t', Menu.reset d t a = some t' ∧ t'.forest ∧
        (∀ x, t.rewound x → t'.rewound x) ∧
        (∀ x, State.below d t a x → t'.rewound x) := by
  induction d with
  | zero =>
    intro t a m _ hfit hm
    rw [show State.fits 0 t a = (t.menuAt a = none) from rfl, hm] at hfit
    cases hfit
  | succ d ih =>
    intro t a m hf hfit hm
    obtain ⟨hn, hchild⟩ := hfit m (Option.mem_def.mpr hm)
    obtain ⟨hwf, hnd, _, _⟩ := State.forest_sound hf hm
    -- the loop over the children
    obtain ⟨s1, hloop, hsame1, hf1, hstab1, hbelow1⟩ := foldlM_range_inv
      (fun st i => MenuComponent.reset (Menu.reset d) st m.menu_components[i]?)
      (fun i st => t.same_items st ∧ st.forest ∧ (∀ x, t.rewound x → st.rewound x) ∧
        ∀ j, j < i → ∀ c, m.menu_components[j]? = some (some c) →
          ∀ x, State.below d t c x → st.rewound x)
      m.num_components t
      ⟨State.same_items_refl t, hf, fun _ h => h, fun j hj => absurd hj (Nat.not_lt_zero j)⟩
      (by
        intro i st hi ⟨hsame, hfst, hstab, hdone⟩
        obtain ⟨c, hc, hclt⟩ := Menu.wf_entry hwf hi
        have hclt' : c < st.objs.length := by rw [hsame.1]; exact hclt
        have hfitc : State.fits d t c :=
          hchild (some c) (Menu.mem_of_getElem? hc) c rfl
        simp only [hc]
        rw [MenuComponent.virtual_reset_eq _ st c _ (List.getElem?_eq_getElem hclt')]
        cases hmc : st.menuAt c with
        | none =>
          refine ⟨st, by simp, hsame, hfst, hstab, ?_⟩
          intro j hj c' hc' x hx
          by_cases hji : j = i
          · rw [hji, hc] at hc'
            simp only [Option.some.injEq] at hc'
            subst hc'
            have htc : t.menuAt c = none := by
              cases htc : t.menuAt c with
              | none => rfl
              | some mt =>
                obtain ⟨m', hm', _⟩ := State.menuAt_same_items hsame htc
                rw [hmc] at hm'
                cases hm'
            rw [State.below_not_menu d t c x htc hx]
            exact State.rewound_not_menu st c hmc
          · exact hdone j (by omega) c' hc' x hx
        | some mc =>
          obtain ⟨st', hres, hf', hstab', hbelow'⟩ :=
            ih st c mc hfst (State.fits_same_items d t st c hsame hfitc) hmc
          refine ⟨st', by simp [hres], ?_, hf', fun x h => hstab' x (hstab x h), ?_⟩
          · exact State.same_items_trans hsame (Menu.same_items_reset d st st' c hres)
          · intro j hj c' hc' x hx
            by_cases hji : j = i
            · rw [hji, hc] at hc'
              simp only [Option.some.injEq] at hc'
              subst hc'
              exact hbelow' x (State.below_same_items d t st c x hsame hx)
            · exact hstab' x (hdone j (by omega) c' hc' x hx))
    -- the statements after the loop
    obtain ⟨m1, hm1, e1, e2, _⟩ := State.menuAt_same_items hsame1 hm
    have hn1 : m1.num_components ≠ 0 := by rw [e2]; exact hn
    obtain ⟨hwf1, _, hcur1, _⟩ := State.forest_sound hf1 hm1
    obtain ⟨p0, hp0, hp0lt⟩ := Menu.wf_entry hwf1 (Nat.pos_of_ne_zero hn1)
    have hpcmem := hcur1 hn1
    have hpcv := hwf1.2.2.2 _ hpcmem
    cases hpc : m1.p_current_component with
    | none => rw [hpc] at hpcv; exact absurd hpcv (by simp [State.valid])
    | some pc =>
      rw [hpc] at hpcv
      have hres := Menu.reset_eq_rewind d t s1 a m m1 pc p0 hm hloop hm1 hn1 hpc hpcv
        hp0 hp0lt
      obtain ⟨hself, hstab2⟩ := Menu.rewind_rewound s1 a m1 pc p0 hf1 hm1 hn1 hpc hp0
      refine ⟨_, hres, Menu.rewind_forest s1 a m1 pc p0 hf1 hm1 hn1 hpc hp0,
        fun x h => hstab2 x (hstab1 x h), ?_⟩
      intro x hx
      rcases hx with hx | ⟨m', hm', e, he, c, hce, hx⟩
      · rw [hx]; exact hself
      · have hm'' := Option.mem_def.mp hm'
        rw [hm] at hm''
        simp only [Option.some.injEq] at hm''
        subst hm''
        have hce' := Option.mem_def.mp hce
        subst hce'
        obtain ⟨j, hj, hjc⟩ := List.getElem_of_mem he
        have hjn : j < m.num_components := by rw [hwf.1]; exact hj
        exact hstab2 x (hbelow1 j hjn c
          (by rw [List.getElem?_eq_getElem hj, hjc]) x hx)

theorem State.same_items_curr (s : State) (p : Option Ptr) :
    s.same_items { s with p_curr_menu := p } :=
  ⟨rfl, fun _ comp h => ⟨comp, h, MenuComponent.kept_refl comp⟩⟩

/-- What `MenuSystem::reset` does to the focus: on a state whose menus are
sound and share no child, and in which the part of the heap below the root
has depth at most `fuel` and no empty menu, it returns, makes the root the
active menu and leaves the `has_focus` of every object as it was; the
following `MenuSystem::next`/`prev` is the `next`/`prev` of the current
component of the root when that component has focus, and `Menu::next`/`prev`
on the root when it has none. -/
theorem MenuSystem.reset_keeps_focus (fuel : Nat) (s : State) (m : Menu)
    (hf : s.forest) (hfit : State.fits fuel s s.p_root_menu)
    (hm : s.menuAt s.p_root_menu = some m) :
    ∃ s', MenuSystem.reset fuel s = some s' ∧
      (∀ x : Ptr, s'.has_focus x = s.has_focus x) ∧
      s'.p_curr_menu = some s.p_root_menu ∧
      ∀ (m' : Menu) (c : Ptr) (comp : MenuComponent) (loop : Bool),
        s'.menuAt s.p_root_menu = some m' → m'.p_current_component = some c →
        s'.objs[c]? = some comp →
        (comp.has_focus = true →
          MenuSystem.next s' loop = MenuComponent.next s' c loop ∧
          MenuSystem.prev s' loop = MenuComponent.prev s' c loop) ∧
        (comp.has_focus = false →
          MenuSystem.next s' loop = Menu.next s' s.p_root_menu loop ∧
          MenuSystem.prev s' loop = Menu.prev s' s.p_root_menu loop) := by
  have hsame := State.same_items_curr s (some s.p_root_menu)
  obtain ⟨s', hres, _, _, _⟩ := Menu.reset_rewinds fuel
    { s with p_curr_menu := some s.p_root_menu } s.p_root_menu m hf
    (State.fits_same_items fuel s _ _ hsame hfit) hm
  have h : MenuSystem.reset fuel s = some s' := hres
  obtain ⟨h1, _⟩ := MenuSystem.reset_curr h
  refine ⟨s', h, MenuSystem.reset_keeps_has_focus h, h1, ?_⟩
  intro m' c comp loop hm' hc hcomp
  have hnext := MenuSystem.next_eq s' s.p_root_menu c m' comp loop h1 hm' hc hcomp
  have hprev := MenuSystem.prev_eq s' s.p_root_menu c m' comp loop h1 hm' hc hcomp
  constructor
  · intro hfoc
    rw [hfoc] at hnext hprev
    exact ⟨hnext, hprev⟩
  · intro hfoc
    rw [hfoc] at hnext hprev
    exact ⟨hnext, hprev⟩

theorem MenuSystem.reset_keeps_focus_witness :
    (State.plain_and_numeric 1).has_focus 2 = some true ∧
    ∃ s', MenuSystem.reset 1 (State.plain_and_numeric 1) = some s' ∧
      (∀ x : Ptr, s'.has_focus x = (State.plain_and_numeric 1).has_focus x) ∧
      s'.p_curr_menu = some 0 ∧
      ∀ (m' : Menu) (c : Ptr) (comp : MenuComponent) (loop : Bool),
        s'.menuAt 0 = some m' → m'.p_current_component = some c →
        s'.objs[c]? = some comp →
        (comp.has_focus = true →
          MenuSystem.next s' loop = MenuComponent.next s' c loop ∧
          MenuSystem.prev s' loop = MenuComponent.prev s' c loop) ∧
        (comp.has_focus = false →
          MenuSystem.next s' loop = Menu.next s' 0 loop ∧
          MenuSystem.prev s' loop = Menu.prev s' 0 loop) :=
  ⟨rfl, MenuSystem.reset_keeps_focus 1 (State.plain_and_numeric 1) (Menu.two 1 0)
    (by decide) (by decide) rfl⟩

theorem TextEditMenuItem.getNextValidChar_range (x : Int) :
    32 ≤ TextEditMenuItem.getNextValidChar x ∧ TextEditMenuItem.getNextValidChar x ≤ 126 := by
  unfold TextEditMenuItem.getNextValidChar
  simp only
  split_ifs <;> omega

theorem TextEditMenuItem.getPrevValidChar_range (x : Int) (h : x ≤ 127) :
    32 ≤ TextEditMenuItem.getPrevValidChar x ∧ TextEditMenuItem.getPrevValidChar x ≤ 126 := by
  unfold TextEditMenuItem.getPrevValidChar
  simp only
  split_ifs <;> omega

theorem TextEditMenuItem.getNextValidChar_printable (x : Int) (h1 : 32 ≤ x) (h2 : x ≤ 126) :
    TextEditMenuItem.getNextValidChar x = min (x + 1) 126 := by
  unfold TextEditMenuItem.getNextValidChar
  simp only
  split_ifs <;> omega

theorem TextEditMenuItem.getPrevValidChar_printable (x : Int) (h1 : 32 ≤ x) (h2 : x ≤ 126) :
    TextEditMenuItem.getPrevValidChar x = max (x - 1) 32 := by
  unfold TextEditMenuItem.getPrevValidChar
  simp only
  split_ifs <;> omega

theorem State.store_same (s : State) (c : Ptr) (comp : MenuComponent)
    (hcomp : s.objs[c]? = some comp) : s.store c comp = s := by
  unfold State.store
  rw [State.set_same hcomp]

theorem TextEditMenuItem.edits_character (s : State) (c : Ptr) (comp : MenuComponent)
    (t : TextEditMenuItem) (loop : Bool)
    (hcomp : s.objs[c]? = some comp) (hk : comp.kind = .textEditMenuItem t)
    (hst : t.editing_state = .EDITING) :
    (∀ ch, 1 ≤ t.pos → t.value[t.pos - 1]? = some ch →
      MenuComponent.next s c loop
        = some (s.store c { comp with
            kind := .textEditMenuItem (t.written (TextEditMenuItem.getNextValidChar ch)) },
          true) ∧
      MenuComponent.prev s c loop
        = some (s.store c { comp with
            kind := .textEditMenuItem (t.written (TextEditMenuItem.getPrevValidChar ch)) },
          true) ∧
      (32 ≤ ch → ch ≤ 126 →
        TextEditMenuItem.getNextValidChar ch = min (ch + 1) 126 ∧
        TextEditMenuItem.getPrevValidChar ch = max (ch - 1) 32)) ∧
    (∀ x : Int,
      (32 ≤ TextEditMenuItem.getNextValidChar x ∧
        TextEditMenuItem.getNextValidChar x ≤ 126) ∧
      (x ≤ 127 → 32 ≤ TextEditMenuItem.getPrevValidChar x ∧
        TextEditMenuItem.getPrevValidChar x ≤ 126) ∧
      (t.written x).editing_state = t.editing_state ∧ (t.written x).pos = t.pos ∧
      (t.written x).size = t.size ∧ (t.written x).value.length = t.value.length ∧
      ∀ j, j ≠ t.pos - 1 → (t.written x).value[j]? = t.value[j]?) ∧
    (t.pos = 0 →
      MenuComponent.next s c loop = some (s, true) ∧
      MenuComponent.prev s c loop = some (s, true)) := by
  refine ⟨?_, ?_, ?_⟩
  · intro ch hp hch
    have hpos : t.pos > 0 := hp
    refine ⟨?_, ?_, ?_⟩
    · simp only [MenuComponent.next, hcomp, hk, TextEditMenuItem.next, hst, hpos, if_true, hch,
        TextEditMenuItem.written]
    · simp only [MenuComponent.prev, hcomp, hk, TextEditMenuItem.prev, hst, hpos, if_true, hch,
        TextEditMenuItem.written]
    · intro h1 h2
      exact ⟨TextEditMenuItem.getNextValidChar_printable ch h1 h2,
        TextEditMenuItem.getPrevValidChar_printable ch h1 h2⟩
  · intro x
    refine ⟨TextEditMenuItem.getNextValidChar_range x,
      TextEditMenuItem.getPrevValidChar_range x, rfl, rfl, rfl, List.length_set _ _ _, ?_⟩
    intro j hj
    exact List.getElem?_set_ne (Ne.symm hj)
  · intro hp
    have hpos : ¬ t.pos > 0 := by omega
    have hc : ({ comp with kind := .textEditMenuItem t } : MenuComponent) = comp := by
      rw [← hk]
    constructor
    · simp only [MenuComponent.next, hcomp, hk, TextEditMenuItem.next, hst, hpos, if_false]
      rw [hc, State.store_same s c comp hcomp]
    · simp only [MenuComponent.prev, hcomp, hk, TextEditMenuItem.prev, hst, hpos, if_false]
      rw [hc, State.store_same s c comp hcomp]

/-- C21, at the failing input: the buffer of a focused text item in the
sub-state EDITING, cursor at 1, holds the character 200 (a value of `char`
where `char` is unsigned); `prev` returns true and writes 199, outside
[32,126], because `getPrevValidChar` clamps only from below, while `next` on
the same item writes 126. -/
theorem TextEditMenuItem.prev_writes_unprintable_character :
    TextEditMenuItem.getPrevValidChar 200 = 199 ∧
    TextEditMenuItem.getNextValidChar 200 = 126 ∧
    MenuComponent.prev (State.text_char 200) 1 false = some (State.text_char 199, true) ∧
    MenuComponent.prev (State.text_char 200) 1 true = some (State.text_char 199, true) ∧
    MenuSystem.prev (State.text_char 200) false = some (State.text_char 199, true) ∧
    MenuComponent.next (State.text_char 200) 1 false = some (State.text_char 126, true) := by
  decide

/-- C22: when the current child of the active menu M is a back item bound to
the system, `select()` of the item runs its callback once (when one is set),
makes the parent of M the active menu when M is not the root and leaves the
root active when M is the root, and returns null; `MenuSystem::select(false)`
ends in that same state, in which no object of the heap has changed (so no
menu has another current index). -/
theorem BackMenuItem.select_goes_back (fuel : Nat) (s : State) (a b : Ptr) (m : Menu)
    (comp : MenuComponent)
    (ha : s.p_curr_menu = some a) (hm : s.menuAt a = some m)
    (hn : m.num_components ≠ 0)
    (hb : m.menu_components[m.current_component_num]? = some (some b))
    (hcomp : s.objs[b]? = some comp) (hk : comp.kind = .backMenuItem true) :
    MenuComponent.select s b
      = some ({ objs := s.objs,
                fired := if comp.select_fn then s.fired ++ [b] else s.fired,
                p_root_menu := s.p_root_menu,
                p_curr_menu := if a = s.p_root_menu then some s.p_root_menu
                               else m.p_parent }, none) ∧
    MenuSystem.select fuel s false
      = some { objs := s.objs,
               fired := if comp.select_fn then s.fired ++ [b] else s.fired,
               p_root_menu := s.p_root_menu,
               p_curr_menu := if a = s.p_root_menu then some s.p_root_menu
                              else m.p_parent } := by
  have hsel : MenuComponent.select s b
      = some ({ objs := s.objs,
                fired := if comp.select_fn then s.fired ++ [b] else s.fired,
                p_root_menu := s.p_root_menu,
                p_curr_menu := if a = s.p_root_menu then some s.p_root_menu
                               else m.p_parent }, none) := by
    have hm' : ∀ (f : List Ptr) (q : Option Ptr), State.menuAt
        { objs := s.objs, fired := f, p_root_menu := s.p_root_menu, p_curr_menu := q } a
          = some m := fun _ _ => hm
    have hs : s = { objs := s.objs, fired := s.fired, p_root_menu := s.p_root_menu,
                    p_curr_menu := some a } := by
      cases s
      simp only [State.mk.injEq, true_and]
      exact ha
    simp only [MenuComponent.select, hcomp, hk, MenuComponent.base_select, if_true]
    cases hfn : comp.select_fn
    · by_cases har : a = s.p_root_menu
      · simp only [MenuSystem.back, ha, har, ne_eq, not_true_eq_false, if_false, if_true,
          Bool.false_eq_true]
        rw [har] at hs
        exact congrArg (fun x => some (x, none)) hs
      · simp [MenuSystem.back, ha, har, hm]
    · by_cases har : a = s.p_root_menu
      · simp [MenuSystem.back, ha, har]
      · simp [MenuSystem.back, ha, har, hm' (s.fired ++ [b]) (some a)]
  refine ⟨hsel, ?_⟩
  simp only [MenuSystem.select, ha, Menu.activate, hm, hn, if_false, hb, hsel]
  simp

theorem BackMenuItem.select_goes_back_witness :
    MenuComponent.select (State.scenario 1 0 2) 3 = some (State.scenario 1 0 0, none) ∧
    MenuSystem.select 1 (State.scenario 1 0 2) false = some (State.scenario 1 0 0) :=
  BackMenuItem.select_goes_back 1 (State.scenario 1 0 2) 2 3 Menu.scenario_B
    { MenuComponent.new false (.backMenuItem true) with is_current := true }
    rfl rfl (by decide) rfl rfl rfl

theorem TextEditMenuItem.cursor_inside_buffer (t : TextEditMenuItem) (loop : Bool) :
    (1 ≤ t.size → t.size ≤ t.value.length →
      (TextEditMenuItem.select false t).1 = true ∧ (TextEditMenuItem.select false t).2.inside) ∧
    (t.inside →
      ((TextEditMenuItem.select true t).1 = true → (TextEditMenuItem.select true t).2.inside) ∧
      (∃ t1, t.next loop = some t1 ∧ t1.inside) ∧ (∃ t1, t.prev loop = some t1 ∧ t1.inside)) := by
  constructor
  · intro h1 h2
    refine ⟨rfl, ?_⟩
    simp only [TextEditMenuItem.select, if_true, TextEditMenuItem.inside]
    exact ⟨h1, h2, by decide, fun _ => le_refl 1⟩
  · rintro ⟨h1, h2, h3, h4⟩
    obtain ⟨st, value, size, pos⟩ := t
    simp only at h1 h2 h3 h4
    cases st with
    | FOCUSED => exact absurd rfl h3
    | SELECTION =>
      refine ⟨?_, ?_, ?_⟩
      · intro hf
        by_cases hp : pos = 0
        · simp [TextEditMenuItem.select, hp] at hf
        · simp only [TextEditMenuItem.select, Bool.true_eq_false, if_false, hp,
            TextEditMenuItem.inside]
          exact ⟨h1, h2, by decide, fun _ => by omega⟩
      · refine ⟨_, rfl, ?_⟩
        simp only [TextEditMenuItem.inside]
        refine ⟨?_, h2, by decide, fun h => by cases h⟩
        split_ifs <;> omega
      · simp only [TextEditMenuItem.prev]
        split_ifs
        · exact ⟨_, rfl, h1, h2, by simp, fun h => by cases h⟩
        · exact ⟨_, rfl, by simp only; omega, h2, by simp, fun h => by cases h⟩
    | EDITING =>
      have hp : 1 ≤ pos := h4 rfl
      have hpos : pos > 0 := hp
      have hlt : pos - 1 < value.length := by omega
      refine ⟨?_, ?_, ?_⟩
      · intro _
        simp only [TextEditMenuItem.select, Bool.true_eq_false, if_false,
          TextEditMenuItem.inside]
        exact ⟨h1, h2, by decide, fun h => by cases h⟩
      · simp only [TextEditMenuItem.next, hpos, if_true, List.getElem?_eq_getElem hlt]
        refine ⟨_, rfl, ?_⟩
        simp only [TextEditMenuItem.inside, List.length_set]
        exact ⟨h1, h2, by decide, fun _ => hp⟩
      · simp only [TextEditMenuItem.prev, hpos, if_true, List.getElem?_eq_getElem hlt]
        refine ⟨_, rfl, ?_⟩
        simp only [TextEditMenuItem.inside, List.length_set]
        exact ⟨h1, h2, by decide, fun _ => hp⟩

/-- C23, at the failing input: a text item of size 0 over an empty buffer,
the only child of the root menu; the first `select()` gives it focus with the
cursor at 1, the second `select()` enters the sub-state EDITING with the
cursor still at 1, above the size 0, and the following `next` or `prev`
writes at index 0, outside the buffer (undefined behaviour, `none` in the
model). -/
theorem TextEditMenuItem.select_puts_cursor_beyond_empty_buffer :
    MenuSystem.select 1 (State.text_empty false .FOCUSED 0) false
      = some (State.text_empty true .SELECTION 1) ∧
    MenuSystem.select 1 (State.text_empty true .SELECTION 1) false
      = some (State.text_empty true .EDITING 1) ∧
    ¬ TextEditMenuItem.inside
      { editing_state := .EDITING, value := [], size := 0, pos := 1 } ∧
    MenuSystem.next (State.text_empty true .EDITING 1) false = none ∧
    MenuSystem.prev (State.text_empty true .EDITING 1) false = none ∧
    MenuSystem.next (State.text_empty true .EDITING 1) true = none ∧
    MenuSystem.prev (State.text_empty true .EDITING 1) true = none := by
  decide

theorem State.same_tree_refl (s : State) : s.same_tree s :=
  ⟨rfl, rfl, fun _ => ⟨fun m hm => ⟨m, hm, rfl, rfl⟩, fun m hm => ⟨m, hm, rfl, rfl⟩⟩⟩

theorem State.same_tree_trans {s1 s2 s3 : State} (h1 : s1.same_tree s2)
    (h2 : s2.same_tree s3) : s1.same_tree s3 := by
  refine ⟨h2.1.trans h1.1, h2.2.1.trans h1.2.1, fun a => ⟨?_, ?_⟩⟩
  · intro m hm
    obtain ⟨m2, hm2, e1, e2⟩ := (h1.2.2 a).1 m hm
    obtain ⟨m3, hm3, f1, f2⟩ := (h2.2.2 a).1 m2 hm2
    exact ⟨m3, hm3, f1.trans e1, f2.trans e2⟩
  · intro m3 hm3
    obtain ⟨m2, hm2, f1, f2⟩ := (h2.2.2 a).2 m3 hm3
    obtain ⟨m, hm, e1, e2⟩ := (h1.2.2 a).2 m2 hm2
    exact ⟨m, hm, f1.trans e1, f2.trans e2⟩

theorem State.same_tree_of_objs {s s' : State} (hr : s'.p_root_menu = s.p_root_menu)
    (ho : s'.objs = s.objs) : s.same_tree s' := by
  have hm : ∀ a, s'.menuAt a = s.menuAt a := fun a => by
    unfold State.menuAt
    rw [ho]
  refine ⟨hr, by rw [ho], fun a => ⟨fun m h => ⟨m, by rw [hm a]; exact h, rfl, rfl⟩,
    fun m h => ⟨m, by rw [← hm a]; exact h, rfl, rfl⟩⟩⟩

theorem State.same_tree_of_same_items {s s' : State} (hr : s'.p_root_menu = s.p_root_menu)
    (h : s.same_items s') : s.same_tree s' := by
  refine ⟨hr, h.1, fun a => ⟨?_, ?_⟩⟩
  · intro m hm
    obtain ⟨m', hm', e1, _, e3⟩ := State.menuAt_same_items h hm
    exact ⟨m', hm', e1, e3⟩
  · intro m' hm'
    obtain ⟨m, hm, e1, _, e3⟩ := State.menuAt_same_items_rev h hm'
    exact ⟨m, hm, e1, e3⟩

theorem State.same_tree_set {s s' : State} {c : Ptr} {comp comp' : MenuComponent}
    (hr : s'.p_root_menu = s.p_root_menu) (ho : s'.objs = s.objs.set c comp')
    (hcomp : s.objs[c]? = some comp) (hk : ∀ mc, comp.kind ≠ .menu mc)
    (hk' : ∀ mc, comp'.kind ≠ .menu mc) : s.same_tree s' := by
  have hlt : c < s.objs.length := by
    rcases Nat.lt_or_ge c s.objs.length with h | h
    · exact h
    · rw [List.getElem?_eq_none h] at hcomp; cases hcomp
  have hm : ∀ a, s'.menuAt a = s.menuAt a := by
    intro a
    unfold State.menuAt
    rw [ho]
    by_cases hac : c = a
    · subst hac
      rw [List.getElem?_set_self hlt, hcomp]
      cases h1 : comp.kind <;> cases h2 : comp'.kind <;>
        first | exact absurd h1 (hk _) | exact absurd h2 (hk' _) | simp only [h1, h2]
    · rw [List.getElem?_set_ne hac]
  refine ⟨hr, by rw [ho, List.length_set], fun a =>
    ⟨fun m h => ⟨m, by rw [hm a]; exact h, rfl, rfl⟩,
     fun m h => ⟨m, by rw [← hm a]; exact h, rfl, rfl⟩⟩⟩

theorem State.attached_same_tree {s s' : State} (h : s.same_tree s') (ha : s.attached) :
    s'.attached := by
  intro a hlt m' hm' e he b hb mb' hmb'
  obtain ⟨m, hm, e1, _⟩ := (h.2.2 a).2 m' (Option.mem_def.mp hm')
  obtain ⟨mb, hmb, _, f2⟩ := (h.2.2 b).2 mb' (Option.mem_def.mp hmb')
  have := ha a (by rw [← h.2.1]; exact hlt) m (Option.mem_def.mpr hm) e
    (by rw [← e1]; exact he) b hb mb (Option.mem_def.mpr hmb)
  rw [f2, h.1]
  exact this

theorem State.chain_same_tree (d : Nat) :
    ∀ (s s' : State) (a : Ptr), s.same_tree s' → State.chain d s a → State.chain d s' a := by
  induction d with
  | zero =>
    intro s s' a h hc
    obtain ⟨h1, h2⟩ := hc
    refine ⟨by rw [h.1]; exact h1, ?_⟩
    cases hm : s.menuAt a with
    | none => exact absurd hm h2
    | some m =>
      obtain ⟨m', hm', _⟩ := (h.2.2 a).1 m hm
      rw [hm']
      exact Option.some_ne_none m'
  | succ d ih =>
    intro s s' a h hc
    obtain ⟨h1, m, hm, p, hp, hc'⟩ := hc
    obtain ⟨m', hm', _, e2⟩ := (h.2.2 a).1 m (Option.mem_def.mp hm)
    exact ⟨by rw [h.1]; exact h1, m', Option.mem_def.mpr hm', p, by rw [e2]; exact hp,
      ih s s' p h hc'⟩

theorem State.chain_root (d : Nat) :
    ∀ (s : State) (a : Ptr), State.chain d s a → s.menuAt s.p_root_menu ≠ none := by
  induction d with
  | zero =>
    intro s a hc
    obtain ⟨h1, h2⟩ := hc
    rw [← h1]
    exact h2
  | succ d ih =>
    intro s a hc
    obtain ⟨_, m, _, p, _, hc'⟩ := hc
    exact ih s p hc'

theorem State.chain_menu (d : Nat) (s : State) (a : Ptr) (h : State.chain d s a) :
    ∃ m, s.menuAt a = some m := by
  cases d with
  | zero =>
    obtain ⟨_, h2⟩ := h
    cases hm : s.menuAt a with
    | none => exact absurd hm h2
    | some m => exact ⟨m, rfl⟩
  | succ d =>
    obtain ⟨_, m, hm, _⟩ := h
    exact ⟨m, Option.mem_def.mp hm⟩

theorem MenuComponent.virtual_next_prev_same_tree {s s' : State} {c : Ptr} {loop r : Bool}
    (h : MenuComponent.next s c loop = some (s', r)
      ∨ MenuComponent.prev s c loop = some (s', r)) :
    s.same_tree s' ∧ s'.p_curr_menu = s.p_curr_menu := by
  cases hobj : s.objs[c]? with
  | none =>
    rcases h with h | h
    · simp [MenuComponent.next, hobj] at h
    · simp [MenuComponent.prev, hobj] at h
  | some comp =>
    by_cases hk : ∃ mc, comp.kind = .menu mc
    · obtain ⟨mc, hk⟩ := hk
      rcases h with h | h
      · have h' : Menu.next s c loop = some (s', r) := by
          simpa only [MenuComponent.next, hobj, hk] using h
        exact ⟨State.same_tree_of_same_items (Menu.next_sys h').2.1 (Menu.same_items_next h'),
          (Menu.next_sys h').2.2⟩
      · have h' : Menu.prev s c loop = some (s', r) := by
          simpa only [MenuComponent.prev, hobj, hk] using h
        exact ⟨State.same_tree_of_same_items (Menu.prev_sys h').2.1 (Menu.same_items_prev h'),
          (Menu.prev_sys h').2.2⟩
    · have hk' : ∀ mc, comp.kind ≠ .menu mc := fun mc e => hk ⟨mc, e⟩
      obtain ⟨k, hkk, hs'⟩ := MenuComponent.next_prev_frame s s' c comp loop r hobj hk' h
      subst hs'
      exact ⟨State.same_tree_set rfl rfl hobj hk' hkk, rfl⟩

theorem MenuSystem.next_prev_same_tree {s s' : State} {loop r : Bool}
    (h : MenuSystem.next s loop = some (s', r) ∨ MenuSystem.prev s loop = some (s', r)) :
    s.same_tree s' ∧ s'.p_curr_menu = s.p_curr_menu := by
  rcases h with h | h
  · rcases MenuSystem.next_some_cases h with ⟨c, hc⟩ | ⟨a, ha⟩
    · exact MenuComponent.virtual_next_prev_same_tree (Or.inl hc)
    · exact ⟨State.same_tree_of_same_items (Menu.next_sys ha).2.1 (Menu.same_items_next ha),
        (Menu.next_sys ha).2.2⟩
  · rcases MenuSystem.prev_some_cases h with ⟨c, hc⟩ | ⟨a, ha⟩
    · exact MenuComponent.virtual_next_prev_same_tree (Or.inr hc)
    · exact ⟨State.same_tree_of_same_items (Menu.prev_sys ha).2.1 (Menu.same_items_prev ha),
        (Menu.prev_sys ha).2.2⟩

theorem MenuSystem.reset_same_tree {fuel : Nat} {s s' : State}
    (h : MenuSystem.reset fuel s = some s') : s.same_tree s' := by
  have h1 : State.same_tree s { s with p_curr_menu := some s.p_root_menu } :=
    State.same_tree_of_objs rfl rfl
  have h2 := Menu.same_items_reset fuel _ s' s.p_root_menu h
  exact State.same_tree_trans h1
    (State.same_tree_of_same_items (MenuSystem.reset_curr h).2 h2)

theorem MenuSystem.back_cases {s s' : State} {r : Bool}
    (h : MenuSystem.back s = some (s', r)) :
    (s.p_curr_menu = some s.p_root_menu ∧ s' = s ∧ r = false) ∨
    ∃ a m, s.p_curr_menu = some a ∧ a ≠ s.p_root_menu ∧ s.menuAt a = some m ∧
      s' = { s with p_curr_menu := m.p_parent } ∧ r = true := by
  unfold MenuSystem.back at h
  by_cases hc : s.p_curr_menu = some s.p_root_menu
  · simp only [hc, ne_eq, not_true_eq_false, if_false, Option.some.injEq, Prod.mk.injEq] at h
    exact Or.inl ⟨hc, h.1.symm, h.2.symm⟩
  · simp only [ne_eq, hc, not_false_eq_true, if_true] at h
    cases ha : s.p_curr_menu with
    | none => simp [ha] at h
    | some a =>
      cases hm : s.menuAt a with
      | none => simp [ha, hm] at h
      | some m =>
        simp only [ha, hm, Option.some.injEq, Prod.mk.injEq] at h
        refine Or.inr ⟨a, m, rfl, ?_, hm, h.1.symm, h.2.symm⟩
        intro e
        exact hc (by rw [ha, e])

theorem MenuComponent.select_cases {s s1 : State} {c : Ptr} {r : Option Ptr}
    (h : MenuComponent.select s c = some (s1, r)) :
    ∃ comp, s.objs[c]? = some comp ∧
      ((∃ mc, comp.kind = .menu mc ∧ r = some c ∧ s1 = MenuComponent.base_select s c comp) ∨
       (r = none ∧ (s1 = MenuComponent.base_select s c comp ∨
          ∃ b, MenuSystem.back (MenuComponent.base_select s c comp) = some (s1, b))) ∨
       (r = none ∧ s.same_tree s1 ∧ s1.p_curr_menu = s.p_curr_menu)) := by
  cases hobj : s.objs[c]? with
  | none => simp [MenuComponent.select, hobj] at h
  | some comp =>
    refine ⟨comp, rfl, ?_⟩
    simp only [MenuComponent.select, hobj] at h
    cases hk : comp.kind with
    | menu mc =>
      simp only [hk, Option.some.injEq, Prod.mk.injEq] at h
      exact Or.inl ⟨mc, rfl, h.2.symm, h.1.symm⟩
    | menuItem =>
      simp only [hk, Option.some.injEq, Prod.mk.injEq] at h
      exact Or.inr (Or.inl ⟨h.2.symm, Or.inl h.1.symm⟩)
    | numericDisplayMenuItem v =>
      simp only [hk, Option.some.injEq, Prod.mk.injEq] at h
      exact Or.inr (Or.inl ⟨h.2.symm, Or.inl h.1.symm⟩)
    | backMenuItem ms =>
      simp only [hk] at h
      cases ms with
      | false =>
        simp only [Bool.false_eq_true, if_false, Option.some.injEq, Prod.mk.injEq] at h
        exact Or.inr (Or.inl ⟨h.2.symm, Or.inl h.1.symm⟩)
      | true =>
        simp only [if_true] at h
        cases hb : MenuSystem.back (MenuComponent.base_select s c comp) with
        | none => simp [hb] at h
        | some p =>
          obtain ⟨s2, b⟩ := p
          simp only [hb, Option.some.injEq, Prod.mk.injEq] at h
          refine Or.inr (Or.inl ⟨h.2.symm, Or.inr ⟨b, ?_⟩⟩)
          rw [← h.1]
    | numericMenuItem n =>
      simp only [hk, Option.some.injEq, Prod.mk.injEq] at h
      obtain ⟨h1, h2⟩ := h
      refine Or.inr (Or.inr ⟨h2.symm, ?_⟩)
      have hkn : ∀ mc, comp.kind ≠ .menu mc := fun mc e => by rw [hk] at e; cases e
      subst h1
      split
      · exact ⟨State.same_tree_set (MenuComponent.base_select_sys _ _ _).1
          (MenuComponent.base_select_sys _ _ _).2.2 hobj hkn (fun mc e => by cases e),
          (MenuComponent.base_select_sys _ _ _).2.1⟩
      · exact ⟨State.same_tree_set rfl rfl hobj hkn (fun mc e => by cases e), rfl⟩
    | toggleMenuItem st =>
      simp only [hk, Option.some.injEq, Prod.mk.injEq] at h
      obtain ⟨h1, h2⟩ := h
      refine Or.inr (Or.inr ⟨h2.symm, ?_⟩)
      have hkn : ∀ mc, comp.kind ≠ .menu mc := fun mc e => by rw [hk] at e; cases e
      subst h1
      exact ⟨State.same_tree_set (MenuComponent.base_select_sys _ _ _).1
          (MenuComponent.base_select_sys _ _ _).2.2 hobj hkn (fun mc e => by cases e),
          (MenuComponent.base_select_sys _ _ _).2.1⟩
    | textEditMenuItem t =>
      simp only [hk, Option.some.injEq, Prod.mk.injEq] at h
      obtain ⟨h1, h2⟩ := h
      refine Or.inr (Or.inr ⟨h2.symm, ?_⟩)
      have hkn : ∀ mc, comp.kind ≠ .menu mc := fun mc e => by rw [hk] at e; cases e
      subst h1
      split
      · exact ⟨State.same_tree_set (MenuComponent.base_select_sys _ _ _).1
          (MenuComponent.base_select_sys _ _ _).2.2 hobj hkn (fun mc e => by cases e),
          (MenuComponent.base_select_sys _ _ _).2.1⟩
      · exact ⟨State.same_tree_set rfl rfl hobj hkn (fun mc e => by cases e), rfl⟩

theorem State.in_tree_same_tree {s s' : State} (h : s.in_tree) (ht : s.same_tree s')
    (hc : s'.p_curr_menu = s.p_curr_menu) : s'.in_tree := by
  obtain ⟨hatt, a, d, ha, hd⟩ := h
  exact ⟨State.attached_same_tree ht hatt, a, d, by rw [hc]; exact ha,
    State.chain_same_tree d s s' a ht hd⟩

theorem MenuSystem.back_in_tree {s s' : State} {r : Bool} (h : s.in_tree)
    (hb : MenuSystem.back s = some (s', r)) : s'.in_tree := by
  rcases MenuSystem.back_cases hb with ⟨_, e, _⟩ | ⟨a, m, ha, hne, hm, e, _⟩
  · rw [e]; exact h
  · obtain ⟨hatt, a0, d, ha0, hd⟩ := h
    have ht : s.same_tree s' := State.same_tree_of_objs (by rw [e]) (by rw [e])
    rw [ha] at ha0
    cases ha0
    cases d with
    | zero => exact absurd hd.1 hne
    | succ d =>
      obtain ⟨_, m0, hm0, p, hp, hc⟩ := hd
      rw [hm] at hm0
      cases hm0
      refine ⟨State.attached_same_tree ht hatt, p, d, ?_, State.chain_same_tree d s s' p ht hc⟩
      rw [e]
      exact Option.mem_def.mp hp

theorem MenuSystem.back_returns {s : State} {a : Ptr} {d : Nat}
    (ha : s.p_curr_menu = some a) (hd : State.chain d s a) :
    ∃ s' a', MenuSystem.back s = some (s', decide (d ≠ 0)) ∧ s'.objs = s.objs ∧
      s'.p_root_menu = s.p_root_menu ∧ s'.p_curr_menu = some a' ∧
      State.chain (d - 1) s' a' := by
  cases d with
  | zero =>
    obtain ⟨h1, h2⟩ := hd
    refine ⟨s, a, ?_, rfl, rfl, ha, ⟨h1, h2⟩⟩
    simp [MenuSystem.back, ha, h1]
  | succ d =>
    obtain ⟨hne, m, hm, p, hp, hc⟩ := hd
    refine ⟨{ s with p_curr_menu := m.p_parent }, p, ?_, rfl, rfl, Option.mem_def.mp hp,
      State.chain_same_tree d s _ p (State.same_tree_of_objs rfl rfl) hc⟩
    simp [MenuSystem.back, ha, hne, Option.mem_def.mp hm]

theorem MenuSystem.back_repeat (d : Nat) :
    ∀ (s : State) (a : Ptr), s.p_curr_menu = some a → State.chain d s a →
      ∃ s', calls MenuSystem.back d s = some (s', List.replicate d true) ∧
        s'.objs = s.objs ∧ s'.p_root_menu = s.p_root_menu ∧
        s'.p_curr_menu = some s.p_root_menu ∧ MenuSystem.back s' = some (s', false) := by
  induction d with
  | zero =>
    intro s a ha hd
    obtain ⟨h1, _⟩ := hd
    refine ⟨s, rfl, rfl, rfl, by rw [ha, h1], ?_⟩
    simp [MenuSystem.back, ha, h1]
  | succ d ih =>
    intro s a ha hd
    obtain ⟨s1, a1, hb, ho, hr, ha1, hd1⟩ := MenuSystem.back_returns ha hd
    obtain ⟨s2, hcalls, ho2, hr2, hc2, hb2⟩ := ih s1 a1 ha1 hd1
    refine ⟨s2, ?_, ho2.trans ho, hr2.trans hr, by rw [hc2, hr], hb2⟩
    have hdec : decide (d + 1 ≠ 0) = true := by simp
    rw [hdec] at hb
    simp only [calls, hb, hcalls, List.replicate_succ]

theorem MenuSystem.reset_in_tree {fuel : Nat} {s s' : State} (h : s.in_tree)
    (hr : MenuSystem.reset fuel s = some s') : s'.in_tree := by
  obtain ⟨hatt, a, d, _, hd⟩ := h
  have ht := MenuSystem.reset_same_tree hr
  obtain ⟨hc, hroot⟩ := MenuSystem.reset_curr hr
  have h0 : State.chain 0 s s.p_root_menu := ⟨rfl, State.chain_root d s a hd⟩
  exact ⟨State.attached_same_tree ht hatt, s.p_root_menu, 0, hc,
    State.chain_same_tree 0 s s' _ ht h0⟩

theorem Menu.activate_in_tree {s s1 : State} {a : Ptr} {r : Option Ptr} (h : s.in_tree)
    (ha : s.p_curr_menu = some a) (hact : Menu.activate s a = some (s1, r)) :
    (r = none ∧ s1.in_tree) ∨
    ∃ c, r = some c ∧ State.in_tree { s1 with p_curr_menu := some c } := by
  unfold Menu.activate at hact
  cases hm : s.menuAt a with
  | none => simp [hm] at hact
  | some m =>
    simp only [hm] at hact
    by_cases hn : m.num_components = 0
    · simp only [hn, if_true, Option.some.injEq, Prod.mk.injEq] at hact
      rw [← hact.1, ← hact.2]
      exact Or.inl ⟨rfl, h⟩
    · simp only [hn, if_false] at hact
      cases he : m.menu_components[m.current_component_num]? with
      | none => simp [he] at hact
      | some e =>
        cases e with
        | none =>
          simp only [he, Option.some.injEq, Prod.mk.injEq] at hact
          rw [← hact.1, ← hact.2]
          exact Or.inl ⟨rfl, h⟩
        | some c =>
          simp only [he] at hact
          obtain ⟨comp, hobj, hcase⟩ := MenuComponent.select_cases hact
          have hb := MenuComponent.base_select_sys s c comp
          have hin : (MenuComponent.base_select s c comp).in_tree :=
            State.in_tree_same_tree h (State.same_tree_of_objs hb.1 hb.2.2) hb.2.1
          rcases hcase with ⟨mc, hk, hr, hs1⟩ | ⟨hr, hs1 | ⟨b, hback⟩⟩ | ⟨hr, ht, hc⟩
          · refine Or.inr ⟨c, hr, ?_⟩
            obtain ⟨hatt, a0, d, ha0, hd⟩ := h
            rw [ha] at ha0
            cases ha0
            have hmc : s.menuAt c = some mc := by
              simp only [State.menuAt, hobj, hk]
            obtain ⟨hpar, hne⟩ := hatt a (State.menuAt_lt hm) m (Option.mem_def.mpr hm)
              (some c) (Menu.mem_of_getElem? he) c rfl mc (Option.mem_def.mpr hmc)
            have hch : State.chain (d + 1) s c :=
              ⟨hne, mc, Option.mem_def.mpr hmc, a, Option.mem_def.mpr hpar, hd⟩
            have ht : s.same_tree { s1 with p_curr_menu := some c } :=
              State.same_tree_of_objs (by rw [hs1]; exact hb.1) (by rw [hs1]; exact hb.2.2)
            exact ⟨State.attached_same_tree ht hatt, c, d + 1, rfl,
              State.chain_same_tree (d + 1) s _ c ht hch⟩
          · rw [hs1]
            exact Or.inl ⟨hr, hin⟩
          · exact Or.inl ⟨hr, MenuSystem.back_in_tree hin hback⟩
          · exact Or.inl ⟨hr, State.in_tree_same_tree h ht hc⟩

theorem MenuSystem.select_in_tree {fuel : Nat} {s s' : State} {reset : Bool}
    (h : s.in_tree) (hs : MenuSystem.select fuel s reset = some s') : s'.in_tree := by
  obtain ⟨a, d, ha, _⟩ := h.2
  unfold MenuSystem.select at hs
  simp only [ha] at hs
  cases hact : Menu.activate s a with
  | none => simp [hact] at hs
  | some p =>
    obtain ⟨s1, r⟩ := p
    rcases Menu.activate_in_tree h ha hact with ⟨hr, hin⟩ | ⟨c, hr, hin⟩
    · subst hr
      simp only [hact] at hs
      cases reset with
      | false =>
        simp only [Bool.false_eq_true, if_false, Option.some.injEq] at hs
        rw [← hs]
        exact hin
      | true =>
        simp only [if_true] at hs
        exact MenuSystem.reset_in_tree hin hs
    · subst hr
      simp only [hact, Option.some.injEq] at hs
      rw [← hs]
      exact hin

theorem MenuSystem.act_in_tree {fuel : Nat} {s s' : State} {k : Action}
    (h : s.in_tree) (hk : MenuSystem.act fuel s k = some s') : s'.in_tree := by
  cases k with
  | next loop =>
    simp only [MenuSystem.act, Option.map_eq_some'] at hk
    obtain ⟨⟨s1, r⟩, h1, h2⟩ := hk
    simp only at h2
    subst h2
    have := MenuSystem.next_prev_same_tree (Or.inl h1)
    exact State.in_tree_same_tree h this.1 this.2
  | prev loop =>
    simp only [MenuSystem.act, Option.map_eq_some'] at hk
    obtain ⟨⟨s1, r⟩, h1, h2⟩ := hk
    simp only at h2
    subst h2
    have := MenuSystem.next_prev_same_tree (Or.inr h1)
    exact State.in_tree_same_tree h this.1 this.2
  | select reset => exact MenuSystem.select_in_tree h hk
  | back =>
    simp only [MenuSystem.act, Option.map_eq_some'] at hk
    obtain ⟨⟨s1, r⟩, h1, h2⟩ := hk
    simp only at h2
    subst h2
    exact MenuSystem.back_in_tree h h1
  | reset => exact MenuSystem.reset_in_tree h hk

theorem MenuSystem.run_in_tree (fuel : Nat) (ks : List Action) :
    ∀ (s s' : State), s.in_tree → MenuSystem.run fuel ks s = some s' → s'.in_tree := by
  induction ks with
  | nil =>
    intro s s' h hr
    simp only [MenuSystem.run, Option.some.injEq] at hr
    rw [← hr]
    exact h
  | cons k ks ih =>
    intro s s' h hr
    simp only [MenuSystem.run] at hr
    cases hk : MenuSystem.act fuel s k with
    | none => simp [hk] at hr
    | some s1 =>
      simp only [hk] at hr
      exact ih s1 s' (MenuSystem.act_in_tree h hk) hr

/-- C25: when the menus are attached as in a tree (a menu held by a menu has
that menu as parent and is not the root) and the active menu is at some depth
below the root along the parents, every state that a sequence of `next`,
`prev`, `select`, `back` and `reset` calls reaches is again such a state;
`back()` returns and leaves an active menu that is not null; and from an
active menu at depth d, d calls of `back()` return true each and make the
root the active menu, after which `back()` returns false and changes
nothing. -/
theorem MenuSystem.active_menu_stays_in_tree (s : State) (h : s.in_tree) :
    (∀ (fuel : Nat) (ks : List Action) (s' : State),
      MenuSystem.run fuel ks s = some s' → s'.in_tree) ∧
    (∃ s' r a', MenuSystem.back s = some (s', r) ∧ s'.p_curr_menu = some a' ∧
      s'.in_tree) ∧
    ∀ a d, s.p_curr_menu = some a → State.chain d s a →
      ∃ s', calls MenuSystem.back d s = some (s', List.replicate d true) ∧
        s'.p_curr_menu = some s.p_root_menu ∧ s'.p_root_menu = s.p_root_menu ∧
        s'.objs = s.objs ∧ MenuSystem.back s' = some (s', false) := by
  refine ⟨fun fuel ks s' hr => MenuSystem.run_in_tree fuel ks s s' h hr, ?_, ?_⟩
  · obtain ⟨a, d, ha, hd⟩ := h.2
    obtain ⟨s', a', hb, _, _, ha', _⟩ := MenuSystem.back_returns ha hd
    exact ⟨s', _, a', hb, ha', MenuSystem.back_in_tree h hb⟩
  · intro a d ha hd
    obtain ⟨s', hc, ho, hr, hcur, hb⟩ := MenuSystem.back_repeat d s a ha hd
    exact ⟨s', hc, hcur, hr, ho, hb⟩

theorem MenuSystem.active_menu_stays_in_tree_witness :
    (State.scenario 1 0 2).in_tree ∧
    MenuSystem.run 2 [.back, .next false, .select false, .next true, .select true]
      (State.scenario 0 0 0) ≠ none ∧
    (∀ s', MenuSystem.run 2 [.back, .next false, .select false, .next true, .select true]
      (State.scenario 0 0 0) = some s' → s'.in_tree) ∧
    ∃ s', calls MenuSystem.back 1 (State.scenario 1 0 2) = some (s', [true]) ∧
      s'.p_curr_menu = some 0 ∧ MenuSystem.back s' = some (s', false) :=
  have h0 : (State.scenario 0 0 0).in_tree := ⟨by decide, 0, 0, rfl, by decide⟩
  have h2 : (State.scenario 1 0 2).in_tree := ⟨by decide, 2, 1, rfl, by decide⟩
  ⟨h2, by decide,
   fun s' hr => (MenuSystem.active_menu_stays_in_tree (State.scenario 0 0 0) h0).1 2 _ s' hr,
   match (MenuSystem.active_menu_stays_in_tree (State.scenario 1 0 2) h2).2.2 2 1 rfl
      (by decide) with
   | ⟨s', e1, e2, _, _, e5⟩ => ⟨s', e1, e2, e5⟩⟩

theorem MenuSystem.select_leaf_resets_tree (fuel : Nat) (s s1 : State) (a : Ptr) (m : Menu)
    (ha : s.p_curr_menu = some a) (hact : Menu.activate s a = some (s1, none))
    (hf : s1.forest) (hfit : State.fits fuel s1 s1.p_root_menu)
    (hm : s1.menuAt s1.p_root_menu = some m) :
    ∃ s', MenuSystem.select fuel s true = some s' ∧
      s'.p_curr_menu = some s.p_root_menu ∧ s'.p_root_menu = s.p_root_menu ∧
      ∀ x, State.below fuel s1 s1.p_root_menu x → ∀ m' ∈ s'.menuAt x,
        m'.current_component_num = 0 ∧ m'.previous_component_num = 0 ∧
        ∀ i, i < m'.num_components →
          (match m'.menu_components[i]? with
            | some (some c) => s'.is_current c
            | _ => none) = some (decide (i = 0)) := by
  have hsel : MenuSystem.select fuel s true = MenuSystem.reset fuel s1 := by
    unfold MenuSystem.select
    simp only [ha, hact, if_true]
  have hroot : s1.p_root_menu = s.p_root_menu := Menu.activate_root hact
  have hsame := State.same_items_curr s1 (some s1.p_root_menu)
  obtain ⟨s', hres, _, _, hbelow⟩ := Menu.reset_rewinds fuel
    { s1 with p_curr_menu := some s1.p_root_menu } s1.p_root_menu m hf
    (State.fits_same_items fuel s1 _ _ hsame hfit) hm
  have hres' : MenuSystem.reset fuel s1 = some s' := hres
  obtain ⟨h1, h2⟩ := MenuSystem.reset_curr hres'
  refine ⟨s', by rw [hsel]; exact hres', by rw [h1, hroot], by rw [h2, hroot], ?_⟩
  intro x hx m' hm'
  obtain ⟨e1, e2, e3⟩ :=
    hbelow x (State.below_same_items fuel s1 _ _ x hsame hx) m' hm'
  refine ⟨e1, e2, ?_⟩
  intro i hi
  have := e3 i hi
  rw [e1] at this
  exact this

/-- C9, at the failing input: on a new system, whose active menu (the root)
is empty, `Menu::activate` returns null and `MenuSystem::select(false)`
changes nothing, but `MenuSystem::select(true)` runs `MenuSystem::reset`,
where `Menu::reset` dereferences the null `_p_current_component` of the empty
menu (undefined behaviour, `none` in the model, whatever bound the recursion
is given).  The same happens when the active menu is an empty sub-menu,
entered by `select()`, of a root menu that is not empty. -/
theorem MenuSystem.select_reset_empty_menu_null_dereference :
    Menu.activate MenuSystem.new 0 = some (MenuSystem.new, none) ∧
    (∀ fuel, MenuSystem.select fuel MenuSystem.new false = some MenuSystem.new) ∧
    (∀ fuel, MenuSystem.select fuel MenuSystem.new true = none) ∧
    MenuSystem.select 1 { State.empty_sub_menu with p_curr_menu := some 0 } false
      = some State.empty_sub_menu ∧
    Menu.activate State.empty_sub_menu 2 = some (State.empty_sub_menu, none) ∧
    (∀ fuel, MenuSystem.select fuel State.empty_sub_menu false
      = some State.empty_sub_menu) ∧
    (∀ fuel, MenuSystem.select fuel State.empty_sub_menu true = none) := by
  refine ⟨by decide, fun _ => rfl, ?_, by decide, by decide, fun _ => rfl, ?_⟩
  · intro fuel
    cases fuel <;> rfl
  · intro fuel
    cases fuel with
    | zero => rfl
    | succ f => cases f <;> rfl

end ArduinoMenuSystem
